import Mathlib

/-!
# Silkworm execution core: canonical chain, execution engine, InterHashes stage, merge engine,
transaction pre-validation, map sequences, blocks and bodies in the store

A shallow embedding of the parts of the Silkworm sources that the checked properties are
about, followed by the theorems.

Conventions of the embedding

* `uint64_t` values (`BlockNum`) are values of `Nat`; the 64-bit operations that can wrap in
  the embedded code are the decrement `--x`, embedded as `dec64`, and `height - 2`, embedded
  as `sub64`.
* `evmc::bytes32` / `Hash` values are values of `Nat` (the big-endian value of the 32 bytes).
* `intx::uint256` sums that can wrap are taken modulo `kTwo256`; the `uint64_t` sum of
  `increment_map_sequence` is taken modulo `kTwo64`.
* MDBX tables are total functions from keys to optional values; a write transaction is the
  collection of the tables it sees.
* C++ exceptions and the dereference of an empty `std::optional` are explicit `Fault` results.
* Loops without an evident bound take a fuel argument; running out of fuel is the fault
  `out_of_fuel`, never a normal result.
-/

namespace Silkworm

/-! ## Basic types -/

/-- The number of values of a `uint64_t`. -/
def kTwo64 : Nat := 2 ^ 64

/-- The `uint64_t` decrement `--x`, wrapping from `0` to `2^64 - 1`. -/
def dec64 (x : Nat) : Nat := (x + (kTwo64 - 1)) % kTwo64

/-- The `uint64_t` subtraction `x - y`, wrapping below zero. -/
def sub64 (x y : Nat) : Nat := (x + (kTwo64 - y % kTwo64)) % kTwo64

/-- The fields of `silkworm::BlockHeader` (core/types/block.hpp) read by the embedded code. -/
structure BlockHeader where
  parent_hash : Nat
  state_root : Nat
  difficulty : Nat
  number : Nat
deriving DecidableEq, Repr

/-- The struct `silkworm::BlockId` (core/types/block.hpp). -/
structure BlockId where
  number : Nat
  hash : Nat
deriving DecidableEq, Repr

/-- How an embedded call can fail to return normally. -/
inductive Fault where
  /-- A `std::logic_error` was thrown (`ensure_invariant`, precondition violations). -/
  | logic_error
  /-- A `StageError` was thrown by `success_or_throw`. -/
  | stage_error
  /-- An empty `std::optional` was dereferenced (undefined behaviour in the source). -/
  | bad_optional
  /-- The fuel of a loop ran out. -/
  | out_of_fuel
  /-- A `std::length_error` was thrown (a badly recorded value). -/
  | length_error
  /-- A `std::runtime_error` was thrown. -/
  | runtime_error
  /-- A `SILKWORM_ASSERT` failed (the process aborts). -/
  | assertion_failure
  /-- An `mdbx::exception` was thrown by a cursor operation. -/
  | mdbx_error
deriving DecidableEq, Repr

/-- Whether an embedded call returned normally. -/
def returned {α : Type} : Except Fault α → Bool
  | .ok _ => true
  | .error _ => false

/-- The value of an embedded call that returned normally. -/
def value? {α : Type} : Except Fault α → Option α
  | .ok a => some a
  | .error _ => none

/-- The struct `silkworm::Transaction`. `type` is the `uint8_t` under `Transaction::Type`,
`data` is the byte string, `to_` and `from_` are the fields `to` and `from`. -/
structure Transaction where
  type : Nat
  nonce : Nat
  max_priority_fee_per_gas : Nat
  max_fee_per_gas : Nat
  gas_limit : Nat
  to_ : Option Nat
  value : Nat
  data : List Nat
  odd_y_parity : Bool
  chain_id : Option Nat
  r : Nat
  s : Nat
  access_list : List (Nat × List Nat)
  from_ : Option Nat
deriving DecidableEq, Repr

/-- The fields of `silkworm::Account` read by the embedded code (core/types/account.hpp is not
among the sources); `incarnation` counts the re-creations of a contract. -/
structure Account where
  nonce : Nat
  balance : Nat
  incarnation : Nat
deriving DecidableEq, Repr

/-- The struct `silkworm::BlockBody` (core/types/block.hpp), without the optional
withdrawals, which the embedded code does not touch. -/
structure BlockBody where
  transactions : List Transaction
  ommers : List BlockHeader
deriving DecidableEq, Repr

/-- The struct `silkworm::Block`: a `BlockBody` with a `header`. -/
structure Block extends BlockBody where
  header : BlockHeader
deriving DecidableEq, Repr

/-- The struct `db::detail::BlockBodyForStorage` (node/db/util.hpp). -/
structure BlockBodyForStorage where
  base_txn_id : Nat
  txn_count : Nat
  ommers : List BlockHeader
deriving DecidableEq, Repr

/-- The struct `db::VersionBase` (node/db/util.hpp); the three members are `uint32_t`. -/
structure VersionBase where
  Major : Nat
  Minor : Nat
  Patch : Nat
deriving DecidableEq, Repr

/-- An entry of `table::kAccountChangeSet`: the key is `block_key(block_number)`, the value is
the address followed by the encoded account before the change (`previous`, `none` for an empty
encoding). -/
structure AccountChange where
  block_number : Nat
  address : List Nat
  previous : Option Account
deriving DecidableEq, Repr

/-- An entry of `table::kStorageChangeSet`: the key is `block_key(block_number)` followed by the
address and the big-endian incarnation, the value is the 32-byte `location` followed by the
zeroless value before the change. -/
structure StorageChange where
  block_number : Nat
  address : List Nat
  incarnation : Nat
  location : List Nat
  value : List Nat
deriving DecidableEq, Repr

/-! ## The store (node/db/access_layer.cpp, node/db/mdbx.hpp) -/

/-- Names of the stage-progress keys used by the embedded code (`db::stages::k...Key`). -/
inductive StageKey where
  | kHashStateKey
  | kIntermediateHashesKey
deriving DecidableEq, Repr

/-- A table whose content is not interpreted by the embedded code: key/value pairs. -/
abbrev RawTable := List (List Nat × List Nat)

/-- The tables seen by a transaction. `headers` is `table::kHeaders` (key `block_key(number,
hash)`), `header_numbers` is `table::kHeaderNumbers`, `canonical_hashes` is
`table::kCanonicalHashes` (key `block_key(number)`), `difficulty` is `table::kDifficulty`,
`stage_progress` is the stage progress table (an absent key reads as `0`), `trie_of_accounts`
and `trie_of_storage` are the two trie tables, `sequence` is `table::kSequence` (key: the name
of a map, value: the bytes recorded for it), `bodies` is `table::kBlockBodies` (key
`block_key(number, hash)`), `block_transactions` is `table::kBlockTransactions` in the order
of its keys (the `uint64_t` whose big-endian bytes are the key), `senders` is `table::kSenders`
(the addresses recorded under `block_key(number, hash)`, empty when the key is absent),
`database_info` is `table::kDatabaseInfo`, `config` is `table::kConfig` (key: a block hash),
`account_change_set` and `storage_change_set` are the two change-set tables in the order of
their keys, `plain_state` gives the account recorded in `table::kPlainState` under an address.
Values are stored decoded: the RLP and storage encodings are not embedded. -/
structure Db where
  headers : Nat → Nat → Option BlockHeader
  header_numbers : Nat → Option Nat
  canonical_hashes : Nat → Option Nat
  difficulty : Nat → Nat → Option Nat
  stage_progress : StageKey → Nat
  trie_of_accounts : RawTable
  trie_of_storage : RawTable
  sequence : String → Option (List Nat)
  bodies : Nat → Nat → Option BlockBodyForStorage
  block_transactions : List (Nat × Transaction)
  senders : Nat → Nat → List Nat
  database_info : String → Option (List Nat)
  config : Nat → Option String
  account_change_set : List AccountChange
  storage_change_set : List StorageChange
  plain_state : List Nat → Option Account

/-- The class `db::RWTxn`: the tables of the running write transaction, the flag
`commit_disabled_`, and the tables as of the last commit. -/
structure RWTxn where
  db : Db
  commit_disabled : Bool
  committed : Db

/-- `RWTxn::disable_commit`. -/
def RWTxn.disable_commit (txn : RWTxn) : RWTxn := { txn with commit_disabled := true }

/-- `RWTxn::enable_commit`. -/
def RWTxn.enable_commit (txn : RWTxn) : RWTxn := { txn with commit_disabled := false }

/-- `RWTxn::commit` (with renewal): a no-op while commits are disabled. -/
def RWTxn.commit (txn : RWTxn) : RWTxn :=
  if txn.commit_disabled then txn else { txn with committed := txn.db }

/-- `RWTxn::commit_and_renew`. -/
def RWTxn.commit_and_renew (txn : RWTxn) : RWTxn := txn.commit

/-- `db::read_header(txn, block_number, hash)`. -/
def read_header (txn : RWTxn) (block_number : Nat) (hash : Nat) : Option BlockHeader :=
  txn.db.headers block_number hash

/-- `db::read_block_number(txn, hash)`. -/
def read_block_number (txn : RWTxn) (hash : Nat) : Option Nat :=
  txn.db.header_numbers hash

/-- `db::read_header(txn, hash)`: the number is looked up in `HeaderNumbers` first. -/
def read_header_by_hash (txn : RWTxn) (hash : Nat) : Option BlockHeader :=
  match read_block_number txn hash with
  | none => none
  | some block_num => read_header txn block_num hash

/-- `db::read_canonical_hash(txn, b)`. -/
def read_canonical_hash (txn : RWTxn) (b : Nat) : Option Nat :=
  txn.db.canonical_hashes b

/-- `db::read_canonical_header_hash(txn, number)`. -/
def read_canonical_header_hash (txn : RWTxn) (number : Nat) : Option Nat :=
  txn.db.canonical_hashes number

/-- `db::write_canonical_hash(txn, b, hash)`: an upsert. -/
def write_canonical_hash (txn : RWTxn) (b : Nat) (hash : Nat) : RWTxn :=
  { txn with db := { txn.db with
      canonical_hashes := fun k => if k = b then some hash else txn.db.canonical_hashes k } }

/-- `db::delete_canonical_hash(txn, b)`: does not fail when the key is absent. -/
def delete_canonical_hash (txn : RWTxn) (b : Nat) : RWTxn :=
  { txn with db := { txn.db with
      canonical_hashes := fun k => if k = b then none else txn.db.canonical_hashes k } }

/-- `db::read_total_difficulty(txn, block_number, hash)`. -/
def read_total_difficulty (txn : RWTxn) (block_number : Nat) (hash : Nat) : Option Nat :=
  txn.db.difficulty block_number hash

/-- `db::stages::read_stage_progress(txn, key)`. -/
def read_stage_progress (txn : RWTxn) (key : StageKey) : Nat :=
  txn.db.stage_progress key

/-- `db::stages::write_stage_progress(txn, key, progress)`. -/
def write_stage_progress (txn : RWTxn) (key : StageKey) (progress : Nat) : RWTxn :=
  { txn with db := { txn.db with
      stage_progress := fun k => if k = key then progress else txn.db.stage_progress k } }

/-! ## The LRU cache of canonical hashes -/

/-- Modelled from the spec: `lru_cache<BlockNum, Hash>` (core/common/lru_cache.hpp is not among
the sources). "A small LRU caches recent `number → canonical_hash` lookups": a bounded list of
entries, most recently used first. -/
structure LruCache where
  max_size : Nat
  items : List (Nat × Nat)
deriving DecidableEq, Repr

/-- The entry stored for a key, without touching the recency order. -/
def LruCache.find (c : LruCache) (key : Nat) : Option Nat :=
  (c.items.find? (fun e => e.1 == key)).map (fun e => e.2)

/-- `lru_cache::put`: the entry becomes the most recent one; the least recent entry is dropped
when the capacity is exceeded. -/
def LruCache.put (c : LruCache) (key : Nat) (value : Nat) : LruCache :=
  let items1 := (key, value) :: c.items.filter (fun e => e.1 != key)
  { c with items := if c.max_size < items1.length then items1.dropLast else items1 }

/-- `lru_cache::get` and `lru_cache::get_as_copy`: a hit makes the entry the most recent one. -/
def LruCache.get (c : LruCache) (key : Nat) : Option Nat × LruCache :=
  match c.find key with
  | none => (none, c)
  | some v => (some v, { c with items := (key, v) :: c.items.filter (fun e => e.1 != key) })

/-- `lru_cache::remove`. -/
def LruCache.remove (c : LruCache) (key : Nat) : LruCache :=
  { c with items := c.items.filter (fun e => e.1 != key) }

/-! ## CanonicalChain (node/stagedsync/execution_engine.cpp) -/

/-- The class `ExecutionEngine::CanonicalChain`. The member `tx_` is a reference to the
transaction of the engine; the engine below reads its transaction through this field. -/
structure CanonicalChain where
  tx : RWTxn
  canonical_cache : LruCache
  initial_head : BlockId
  current_head : BlockId

/-- The first loop of `find_forking_point` ("look in the cache first"), on
`(ancestor_height, ancestor_hash)`. -/
def find_forking_point_cache_loop (tx : RWTxn) :
    Nat → LruCache → Nat → Nat → Except Fault (LruCache × Nat × Nat)
  | 0, _, _, _ => .error .out_of_fuel
  | fuel + 1, cache, ancestor_height, ancestor_hash =>
    match cache.get ancestor_height with
    | (none, cache1) => .ok (cache1, ancestor_height, ancestor_hash)
    | (some cached_canon_hash, cache1) =>
      if cached_canon_hash ≠ ancestor_hash then
        match read_header tx ancestor_height ancestor_hash with
        | none => .error .bad_optional
        | some ancestor =>
          find_forking_point_cache_loop tx fuel cache1 (dec64 ancestor_height) ancestor.parent_hash
      else .ok (cache1, ancestor_height, ancestor_hash)

/-- The second loop of `find_forking_point` ("now look in the db"). -/
def find_forking_point_db_loop (tx : RWTxn) :
    Nat → Nat → Nat → Except Fault (Nat × Nat)
  | 0, _, _ => .error .out_of_fuel
  | fuel + 1, ancestor_height, ancestor_hash =>
    match read_canonical_hash tx ancestor_height with
    | none => .ok (ancestor_height, ancestor_hash)
    | some db_canon_hash =>
      if db_canon_hash ≠ ancestor_hash then
        match read_header tx ancestor_height ancestor_hash with
        | none => .error .bad_optional
        | some ancestor =>
          find_forking_point_db_loop tx fuel (dec64 ancestor_height) ancestor.parent_hash
      else .ok (ancestor_height, ancestor_hash)

/-- `CanonicalChain::find_forking_point(tx, header_hash)`: the returned number and the chain
object with the cache as the lookups left it. -/
def find_forking_point (fuel : Nat) (cc : CanonicalChain) (header_hash : Nat) :
    Except Fault (Nat × CanonicalChain) :=
  match read_header_by_hash cc.tx header_hash with
  | none => .error .logic_error
  | some header =>
    if header.number = 0 then .ok (0, cc)
    else
      let height := header.number
      let parent_hash := header.parent_hash
      let looked := cc.canonical_cache.get (height - 1)
      let prev_canon_hash :=
        match looked.1 with
        | some h => some h
        | none => read_canonical_hash cc.tx (height - 1)
      if prev_canon_hash = some header.parent_hash then
        .ok (height - 1, { cc with canonical_cache := looked.2 })
      else
        match read_header cc.tx (height - 1) parent_hash with
        | none => .error .logic_error
        | some parent =>
          match find_forking_point_cache_loop cc.tx fuel looked.2 (sub64 height 2)
              parent.parent_hash with
          | .error e => .error e
          | .ok (cache2, ancestor_height, ancestor_hash) =>
            match find_forking_point_db_loop cc.tx fuel ancestor_height ancestor_hash with
            | .error e => .error e
            | .ok (forking_point, _) =>
              .ok (forking_point, { cc with canonical_cache := cache2 })

/-- The loop of `update_up_to`, on `(ancestor_height, ancestor_hash)`; the loop condition reads
the persisted canonical hash at `ancestor_height`. -/
def update_up_to_loop :
    Nat → RWTxn → LruCache → Nat → Nat → Except Fault (RWTxn × LruCache)
  | 0, _, _, _, _ => .error .out_of_fuel
  | fuel + 1, tx, cache, ancestor_height, ancestor_hash =>
    if read_canonical_hash tx ancestor_height ≠ some ancestor_hash then
      let tx1 := write_canonical_hash tx ancestor_height ancestor_hash
      let cache1 := cache.put ancestor_height ancestor_hash
      match read_header tx1 ancestor_height ancestor_hash with
      | none => .error .logic_error
      | some ancestor => update_up_to_loop fuel tx1 cache1 (dec64 ancestor_height) ancestor.parent_hash
    else .ok (tx, cache)

/-- `CanonicalChain::update_up_to(height, hash)`. -/
def update_up_to (fuel : Nat) (cc : CanonicalChain) (height : Nat) (hash : Nat) :
    Except Fault CanonicalChain :=
  if height = 0 then .ok cc
  else
    match update_up_to_loop fuel cc.tx cc.canonical_cache height hash with
    | .error e => .error e
    | .ok (tx1, cache1) =>
      .ok { cc with tx := tx1, canonical_cache := cache1, current_head := ⟨height, hash⟩ }

/-- The `for` loop of `delete_down_to`, on `current_height`. -/
def delete_down_to_loop (unwind_point : Nat) :
    Nat → RWTxn → LruCache → RWTxn × LruCache
  | 0, tx, cache => (tx, cache)
  | current_height + 1, tx, cache =>
    if unwind_point < current_height + 1 then
      delete_down_to_loop unwind_point current_height
        (delete_canonical_hash tx (current_height + 1)) (cache.remove (current_height + 1))
    else (tx, cache)

/-- `CanonicalChain::delete_down_to(unwind_point)`. -/
def delete_down_to (cc : CanonicalChain) (unwind_point : Nat) : Except Fault CanonicalChain :=
  let r := delete_down_to_loop unwind_point cc.current_head.number cc.tx cc.canonical_cache
  match read_canonical_hash r.1 unwind_point with
  | none => .error .logic_error
  | some current_head_hash =>
    .ok { cc with tx := r.1, canonical_cache := r.2,
                  current_head := ⟨unwind_point, current_head_hash⟩ }

/-- `CanonicalChain::get_hash(height)`. -/
def CanonicalChain.get_hash (cc : CanonicalChain) (height : Nat) : Option Nat :=
  read_canonical_hash cc.tx height

/-! ## ExecutionEngine (node/stagedsync/execution_engine.cpp) -/

/-- Modelled from the spec: the enumeration `Stage::Result` (stage.hpp is not among the
sources), with the values named in the sources and in the list of pipeline errors of the
spec. -/
inductive StageResult where
  | kSuccess
  | kUnknownConsensusEngine
  | kInvalidProgress
  | kInvalidBlock
  | kWrongFork
  | kWrongStateRoot
  | kUnexpectedError
  | kDbError
  | kAborted
  | kStoppedByEnv
deriving DecidableEq, Repr

/-- Modelled from the spec: the staged pipeline (its sources are not among the files), as the
operations the engine calls on it. `P` is the state of the pipeline object; `forward` and
`unwind` return their result, the pipeline afterwards and the transaction as they leave it. -/
structure Pipeline (P : Type) where
  forward : P → RWTxn → Nat → StageResult × P × RWTxn
  unwind : P → RWTxn → Nat → StageResult × P × RWTxn
  head_header_number : P → Nat
  head_header_hash : P → Nat
  unwind_point : P → Option Nat
  bad_block : P → Option Nat

/-- The struct `InvalidChain` of the verification result; `bad_headers` is a `std::set<Hash>`. -/
structure InvalidChain where
  unwind_point : Nat
  unwind_head : Nat
  bad_block : Option Nat
  bad_headers : Finset Nat
deriving DecidableEq

/-- The variant `VerificationResult` = `ValidChain{current_point}` | `InvalidChain{...}` |
`ValidationError{latest_valid_height}`. -/
inductive VerificationResult where
  | ValidChain (current_point : Nat)
  | InvalidChain (invalid_chain : InvalidChain)
  | ValidationError (latest_valid_height : Nat)
deriving DecidableEq

/-- `std::holds_alternative<ValidChain>(verification)`. -/
def VerificationResult.holds_valid_chain : VerificationResult → Bool
  | .ValidChain _ => true
  | _ => false

/-- The class `ExecutionEngine`. Its transaction `tx_` is the field `tx` of `canonical_chain`,
which refers to it in the source. -/
structure ExecutionEngine (P : Type) where
  pipeline : P
  canonical_chain : CanonicalChain
  canonical_status : VerificationResult
  last_fork_choice : BlockId
  is_first_sync : Bool

/-- `ExecutionEngine::current_status`. -/
def ExecutionEngine.current_status {P : Type} (e : ExecutionEngine P) : VerificationResult :=
  e.canonical_status

/-- `ExecutionEngine::get_header(header_hash)`. -/
def ExecutionEngine.get_header {P : Type} (e : ExecutionEngine P) (header_hash : Nat) :
    Option BlockHeader :=
  read_header_by_hash e.canonical_chain.tx header_hash

/-- The `for` loop of `collect_bad_headers`, on `current_height`; `*current_hash` dereferences
the canonical hash read at that height. -/
def collect_bad_headers_loop (tx : RWTxn) (unwind_point : Nat) :
    Nat → Finset Nat → Except Fault (Finset Nat)
  | 0, bad_headers => .ok bad_headers
  | current_height + 1, bad_headers =>
    if unwind_point < current_height + 1 then
      match read_canonical_hash tx (current_height + 1) with
      | none => .error .bad_optional
      | some current_hash =>
        collect_bad_headers_loop tx unwind_point current_height (insert current_hash bad_headers)
    else .ok bad_headers

/-- `ExecutionEngine::collect_bad_headers(tx, invalid_chain)`, on the canonical chain of the
engine and its transaction. -/
def collect_bad_headers (cc : CanonicalChain) (invalid_chain : InvalidChain) :
    Except Fault (Finset Nat) :=
  match invalid_chain.bad_block with
  | none => .ok ∅
  | some _ => collect_bad_headers_loop cc.tx invalid_chain.unwind_point cc.current_head.number ∅

/-- The first part of `verify_chain` (up to and including `update_up_to`): the header to
verify, the pipeline and the canonical chain on which `pipeline_.forward` is then called. -/
def verify_chain_prepare {P : Type} (ops : Pipeline P) (fuel : Nat) (e : ExecutionEngine P)
    (head_block_hash : Nat) : Except Fault (BlockHeader × P × CanonicalChain) :=
  match e.get_header head_block_hash with
  | none => .error .logic_error
  | some header =>
    let commit_at_each_stage := e.is_first_sync
    let cc0 : CanonicalChain :=
      if commit_at_each_stage then e.canonical_chain
      else { e.canonical_chain with tx := e.canonical_chain.tx.disable_commit }
    match find_forking_point fuel cc0 head_block_hash with
    | .error f => .error f
    | .ok (forking_point, cc1) =>
      if forking_point < cc1.current_head.number then
        let unwound := ops.unwind e.pipeline cc1.tx forking_point
        if unwound.1 ≠ StageResult.kSuccess then .error .stage_error
        else
          match delete_down_to { cc1 with tx := unwound.2.2 } forking_point with
          | .error f => .error f
          | .ok cc2 =>
            match update_up_to fuel cc2 header.number head_block_hash with
            | .error f => .error f
            | .ok cc3 => .ok (header, unwound.2.1, cc3)
      else
        match update_up_to fuel cc1 header.number head_block_hash with
        | .error f => .error f
        | .ok cc3 => .ok (header, e.pipeline, cc3)

/-- The `switch (forward_result)` of `verify_chain`, on the pipeline and the canonical chain
after `pipeline_.forward`. -/
def verify_chain_evaluate {P : Type} (ops : Pipeline P) (p : P) (cc : CanonicalChain)
    (forward_result : StageResult) : Except Fault VerificationResult :=
  match forward_result with
  | .kSuccess =>
    if ops.head_header_number p ≠ cc.current_head.number ∨
        ops.head_header_hash p ≠ cc.current_head.hash then .error .logic_error
    else .ok (.ValidChain (ops.head_header_number p))
  | .kWrongFork | .kInvalidBlock | .kWrongStateRoot =>
    match ops.unwind_point p with
    | none => .error .logic_error
    | some unwind_point =>
      match cc.get_hash unwind_point with
      | none => .error .bad_optional
      | some unwind_head =>
        let invalid_chain : InvalidChain :=
          { unwind_point := unwind_point, unwind_head := unwind_head, bad_block := none,
            bad_headers := ∅ }
        match ops.bad_block p with
        | none => .ok (.InvalidChain invalid_chain)
        | some bad_block =>
          let invalid_chain1 := { invalid_chain with bad_block := some bad_block }
          match collect_bad_headers cc invalid_chain1 with
          | .error f => .error f
          | .ok bad_headers =>
            .ok (.InvalidChain { invalid_chain1 with bad_headers := bad_headers })
  | .kStoppedByEnv => .ok (.ValidChain (ops.head_header_number p))
  | _ => .ok (.ValidationError (ops.head_header_number p))

/-- `ExecutionEngine::verify_chain(head_block_hash)`: the verdict and the engine afterwards. -/
def verify_chain {P : Type} (ops : Pipeline P) (fuel : Nat) (e : ExecutionEngine P)
    (head_block_hash : Nat) : Except Fault (VerificationResult × ExecutionEngine P) :=
  match verify_chain_prepare ops fuel e head_block_hash with
  | .error f => .error f
  | .ok (header, p, cc) =>
    let commit_at_each_stage := e.is_first_sync
    let forwarded := ops.forward p cc.tx header.number
    let cc4 : CanonicalChain := { cc with tx := forwarded.2.2 }
    match verify_chain_evaluate ops forwarded.2.1 cc4 forwarded.1 with
    | .error f => .error f
    | .ok verify_result =>
      let tx5 := cc4.tx.enable_commit
      let tx6 := if commit_at_each_stage then tx5.commit_and_renew else tx5
      .ok (verify_result,
        { e with pipeline := forwarded.2.1, canonical_chain := { cc4 with tx := tx6 },
                 canonical_status := verify_result })

/-- The tail of `notify_fork_choice_update`, from `tx_.commit_and_renew()` on. -/
def accept_fork_choice {P : Type} (e : ExecutionEngine P) : ExecutionEngine P :=
  { e with
    canonical_chain := { e.canonical_chain with tx := e.canonical_chain.tx.commit_and_renew },
    last_fork_choice := e.canonical_chain.current_head,
    is_first_sync := false }

/-- `ExecutionEngine::notify_fork_choice_update(head_block_hash)`: the returned flag and the
engine afterwards. -/
def notify_fork_choice_update {P : Type} (ops : Pipeline P) (fuel : Nat) (e : ExecutionEngine P)
    (head_block_hash : Nat) : Except Fault (Bool × ExecutionEngine P) :=
  if e.canonical_chain.current_head.hash ≠ head_block_hash then
    match verify_chain ops fuel e head_block_hash with
    | .error f => .error f
    | .ok (verification, e1) =>
      if !verification.holds_valid_chain then .ok (false, e1)
      else if e1.canonical_chain.current_head.hash ≠ head_block_hash then .error .logic_error
      else .ok (true, accept_fork_choice e1)
  else .ok (true, accept_fork_choice e)

/-- `ExecutionEngine::last_fork_choice`. -/
def ExecutionEngine.get_last_fork_choice {P : Type} (e : ExecutionEngine P) : BlockId :=
  e.last_fork_choice

/-! ## InterHashes stage (node/stagedsync/stage_interhashes.cpp) -/

/-- The enumeration `OperationType` of a stage. -/
inductive OperationType where
  | None
  | Forward
  | Unwind
  | Prune
deriving DecidableEq, Repr

/-- The fields of `SyncContext` written by the stage. -/
structure SyncContext where
  unwind_point : Option Nat
  bad_block_hash : Option Nat
deriving DecidableEq, Repr

/-- The state of the stage object: `operation_`, the shared `sync_context_`, and whether a
stop has been requested (`is_stopping()`). -/
structure InterHashes where
  operation : OperationType
  sync_context : SyncContext
  is_stopping : Bool

/-- Modelled from the spec: the parts of the stage that are not among the sources, taken as
parameters. `kLargeBlockSegmentWorthRegen` is the constant of db/stages.hpp;
`stopping_result` is the code of the `StageError` thrown by `throw_if_stopping`;
`regenerate_root` is the outcome of `TrieLoader::calculate_root` over the whole hashed state
(the root, or the result code the `catch` clauses give to an exception); `increment_root` is
the same for the incremental mode over the change sets of the blocks `from + 1 .. to`,
together with the content of `TrieOfStorage` as the collection of changes leaves it;
`flush_collected_nodes` gives the content of `TrieOfAccounts` and `TrieOfStorage` after the
collected nodes are loaded (with the result code of an exception, if any). -/
structure TrieOracle where
  kLargeBlockSegmentWorthRegen : Nat
  stopping_result : StageResult
  regenerate_root : RWTxn → Except StageResult Nat
  increment_root : RWTxn → Nat → Nat → RawTable × Except StageResult Nat
  flush_collected_nodes : RWTxn → (RawTable × RawTable) × Option StageResult

/-- `txn->clear_map` on the two trie tables. -/
def clear_trie_tables (txn : RWTxn) : RWTxn :=
  { txn with db := { txn.db with trie_of_accounts := [], trie_of_storage := [] } }

/-- The transaction with the two trie tables replaced. -/
def with_trie_tables (txn : RWTxn) (tables : RawTable × RawTable) : RWTxn :=
  { txn with db := { txn.db with trie_of_accounts := tables.1, trie_of_storage := tables.2 } }

/-- `InterHashes::flush_collected_nodes(txn)` and the test that follows the computation of the
root in both modes: a root different from the expected one gives `kWrongStateRoot` before
anything is loaded. -/
def check_root_and_flush (o : TrieOracle) (txn : RWTxn) (computed : Except StageResult Nat)
    (expected_root : Nat) : StageResult × RWTxn :=
  match computed with
  | .error r => (r, txn)
  | .ok computed_root =>
    if computed_root ≠ expected_root then (StageResult.kWrongStateRoot, txn)
    else
      match o.flush_collected_nodes txn with
      | (tables, some r) => (r, with_trie_tables txn tables)
      | (tables, none) => (StageResult.kSuccess, with_trie_tables txn tables)

/-- `InterHashes::regenerate_intermediate_hashes(txn, expected_root)`: the result and the
transaction afterwards. -/
def regenerate_intermediate_hashes (o : TrieOracle) (txn : RWTxn) (expected_root : Nat) :
    StageResult × RWTxn :=
  let txn1 := (clear_trie_tables txn).commit
  check_root_and_flush o txn1 (o.regenerate_root txn1) expected_root

/-- `InterHashes::increment_intermediate_hashes(txn, from, to, expected_root)`: the result
and the transaction afterwards. -/
def increment_intermediate_hashes (o : TrieOracle) (txn : RWTxn) (from_block to_block : Nat)
    (expected_root : Nat) : StageResult × RWTxn :=
  let collected := o.increment_root txn from_block to_block
  let txn1 := with_trie_tables txn (txn.db.trie_of_accounts, collected.1)
  check_root_and_flush o txn1 collected.2 expected_root

/-- The root computed by the mode that `forward` selects for the transaction, or the result
code of the exception that prevented the computation. -/
def InterHashes.computed_root (o : TrieOracle) (txn : RWTxn) : Except StageResult Nat :=
  let previous_progress := read_stage_progress txn StageKey.kIntermediateHashesKey
  let hashstate_stage_progress := read_stage_progress txn StageKey.kHashStateKey
  if previous_progress = 0 ∨
      o.kLargeBlockSegmentWorthRegen < hashstate_stage_progress - previous_progress then
    o.regenerate_root (clear_trie_tables txn).commit
  else (o.increment_root txn previous_progress hashstate_stage_progress).2

/-- `InterHashes::forward(txn)`: the result, the stage object and the transaction afterwards.
Every exception is caught inside the function and becomes a result code; the only fault is the
dereference `header->state_root` of a header that was not found. -/
def InterHashes.forward (o : TrieOracle) (s : InterHashes) (txn : RWTxn) :
    Except Fault (StageResult × InterHashes × RWTxn) :=
  if s.is_stopping then
    .ok (o.stopping_result, { s with operation := OperationType.None }, txn)
  else
    let previous_progress := read_stage_progress txn StageKey.kIntermediateHashesKey
    let hashstate_stage_progress := read_stage_progress txn StageKey.kHashStateKey
    if previous_progress = hashstate_stage_progress then
      .ok (StageResult.kSuccess, { s with operation := OperationType.None }, txn)
    else if hashstate_stage_progress < previous_progress then
      .ok (StageResult.kInvalidProgress, { s with operation := OperationType.None }, txn)
    else
      let segment_width := hashstate_stage_progress - previous_progress
      match read_canonical_header_hash txn hashstate_stage_progress with
      | none =>
        .ok (StageResult.kUnexpectedError, { s with operation := OperationType.None }, txn)
      | some header_hash =>
        match read_header txn hashstate_stage_progress header_hash with
        | none => .error .bad_optional
        | some header =>
          let expected_state_root := header.state_root
          let hashed :=
            if previous_progress = 0 ∨ o.kLargeBlockSegmentWorthRegen < segment_width then
              regenerate_intermediate_hashes o txn expected_state_root
            else
              increment_intermediate_hashes o txn previous_progress hashstate_stage_progress
                expected_state_root
          let ret := hashed.1
          let sync_context1 : SyncContext :=
            if ret = StageResult.kWrongStateRoot then
              { unwind_point := some (previous_progress + segment_width / 2),
                bad_block_hash := some header_hash }
            else s.sync_context
          if ret ≠ StageResult.kSuccess then
            .ok (ret, { s with operation := OperationType.None, sync_context := sync_context1 },
              hashed.2)
          else
            .ok (StageResult.kSuccess,
              { s with operation := OperationType.None, sync_context := sync_context1 },
              (write_stage_progress hashed.2 StageKey.kIntermediateHashesKey
                hashstate_stage_progress).commit)

/-! ## MergeEngine (core/consensus/merge/engine.cpp) -/

/-- Modelled from the spec: the enumeration `ValidationResult` (validation.hpp is not among
the sources), with the values named in the sources and in the list of validation errors of
the spec. -/
inductive ValidationResult where
  | kOk
  | kUnknownParent
  | kUnknownParentTotalDifficulty
  | kWrongChainId
  | kWrongDifficulty
  | kInvalidSeal
  | kInvalidOmmerHeader
  | kPoWBlockAfterMerge
  | kPoSBlockBeforeMerge
  | kUnsupportedTransactionType
  | kMaxFeeLessThanBase
  | kMaxPriorityFeeGreaterThanMax
  | kInvalidSignature
  | kIntrinsicGas
  | kNonceTooHigh
  | kMaxInitCodeSizeExceeded
deriving DecidableEq, Repr

/-- The interface `BlockState` as the merge engine uses it: `read_header(number, hash)` and
`total_difficulty(number, hash)`. -/
structure BlockState where
  read_header : Nat → Nat → Option BlockHeader
  total_difficulty : Nat → Nat → Option Nat

/-- The class `MergeEngine`. The two wrapped engines are given by their
`validate_block_header`; `get_parent_header` is `EngineBase::get_parent_header`, whose source
is not among the files. -/
structure MergeEngine where
  terminal_total_difficulty : Nat
  pre_merge_validate_block_header : BlockHeader → BlockState → Bool → ValidationResult
  post_merge_validate_block_header : BlockHeader → BlockState → Bool → ValidationResult
  get_parent_header : BlockState → BlockHeader → Option BlockHeader

/-- The number of values of an `intx::uint256`. -/
def kTwo256 : Nat := 2 ^ 256

/-- `MergeEngine::terminal_pow_block(header, state)`; the sum is a `uint256` sum. -/
def MergeEngine.terminal_pow_block (m : MergeEngine) (header : BlockHeader) (state : BlockState) :
    Bool :=
  if header.difficulty = 0 then false
  else
    match m.get_parent_header state header with
    | none => false
    | some parent =>
      match state.total_difficulty parent.number header.parent_hash with
      | none => false
      | some parent_total_difficulty =>
        decide (parent_total_difficulty < m.terminal_total_difficulty) &&
          decide (m.terminal_total_difficulty ≤
            (parent_total_difficulty + header.difficulty) % kTwo256)

/-- `MergeEngine::validate_block_header(header, state, with_future_timestamp_check)`. -/
def MergeEngine.validate_block_header (m : MergeEngine) (header : BlockHeader)
    (state : BlockState) (with_future_timestamp_check : Bool) : ValidationResult :=
  match m.get_parent_header state header with
  | none => ValidationResult.kUnknownParent
  | some parent =>
    if header.difficulty ≠ 0 then
      match state.total_difficulty parent.number header.parent_hash with
      | none => ValidationResult.kUnknownParentTotalDifficulty
      | some parent_total_difficulty =>
        if m.terminal_total_difficulty ≤ parent_total_difficulty then
          ValidationResult.kPoWBlockAfterMerge
        else m.pre_merge_validate_block_header header state with_future_timestamp_check
    else
      if parent.difficulty ≠ 0 ∧ m.terminal_pow_block parent state = false then
        ValidationResult.kPoSBlockBeforeMerge
      else m.post_merge_validate_block_header header state with_future_timestamp_check

/-! ## Sequences (node/db/access_layer.cpp) -/

/-- Modelled from the spec: `endian::store_big_u64` (core/common/endian.hpp is not among the
sources): the eight bytes of a `uint64_t`, most significant first. -/
def store_big_u64 (value : Nat) : List Nat :=
  [value / 2 ^ 56 % 256, value / 2 ^ 48 % 256, value / 2 ^ 40 % 256, value / 2 ^ 32 % 256,
   value / 2 ^ 24 % 256, value / 2 ^ 16 % 256, value / 2 ^ 8 % 256, value % 256]

/-- Modelled from the spec: `endian::load_big_u64` (core/common/endian.hpp is not among the
sources): the `uint64_t` whose bytes, most significant first, are the first eight of the
buffer. -/
def load_big_u64 (bytes : List Nat) : Nat :=
  (bytes.take 8).foldl (fun acc byte => acc * 256 + byte % 256) 0

/-- `db::read_map_sequence(txn, map_name)`. -/
def read_map_sequence (txn : RWTxn) (map_name : String) : Except Fault Nat :=
  match txn.db.sequence map_name with
  | none => .ok 0
  | some value =>
    if value.length ≠ 8 then .error .length_error
    else .ok (load_big_u64 value)

/-- The upsert of `new_data` under the key `map_name` in `table::kSequence`. -/
def upsert_sequence (txn : RWTxn) (map_name : String) (new_data : List Nat) : RWTxn :=
  { txn with db := { txn.db with
      sequence := fun key => if key = map_name then some new_data else txn.db.sequence key } }

/-- `db::increment_map_sequence(txn, map_name, increment)`: the returned value and the
transaction afterwards; `current_value + increment` is a `uint64_t` sum. -/
def increment_map_sequence (txn : RWTxn) (map_name : String) (increment : Nat) :
    Except Fault (Nat × RWTxn) :=
  match read_map_sequence txn map_name with
  | .error f => .error f
  | .ok current_value =>
    if increment ≠ 0 then
      let new_value := (current_value + increment) % kTwo64
      .ok (current_value, upsert_sequence txn map_name (store_big_u64 new_value))
    else .ok (current_value, txn)

/-! ## Transaction pre-validation (core/consensus/engine.cpp, core/types/transaction.hpp) -/

/-- The value `EVMC_FRONTIER` of `evmc_revision`; the revisions are numbered in the order of
the spec: Frontier < Homestead < TangerineWhistle < SpuriousDragon < Byzantium <
Constantinople < Petersburg < Istanbul < Berlin < London < Paris < Shanghai < Cancun. -/
def EVMC_FRONTIER : Nat := 0

/-- The value `EVMC_HOMESTEAD` of `evmc_revision`. -/
def EVMC_HOMESTEAD : Nat := 1

/-- The value `EVMC_TANGERINE_WHISTLE` of `evmc_revision`. -/
def EVMC_TANGERINE_WHISTLE : Nat := 2

/-- The value `EVMC_SPURIOUS_DRAGON` of `evmc_revision`. -/
def EVMC_SPURIOUS_DRAGON : Nat := 3

/-- The value `EVMC_BYZANTIUM` of `evmc_revision`. -/
def EVMC_BYZANTIUM : Nat := 4

/-- The value `EVMC_CONSTANTINOPLE` of `evmc_revision`. -/
def EVMC_CONSTANTINOPLE : Nat := 5

/-- The value `EVMC_PETERSBURG` of `evmc_revision`. -/
def EVMC_PETERSBURG : Nat := 6

/-- The value `EVMC_ISTANBUL` of `evmc_revision`. -/
def EVMC_ISTANBUL : Nat := 7

/-- The value `EVMC_BERLIN` of `evmc_revision`. -/
def EVMC_BERLIN : Nat := 8

/-- The value `EVMC_LONDON` of `evmc_revision`. -/
def EVMC_LONDON : Nat := 9

/-- The value `EVMC_PARIS` of `evmc_revision`. -/
def EVMC_PARIS : Nat := 10

/-- The value `EVMC_SHANGHAI` of `evmc_revision`. -/
def EVMC_SHANGHAI : Nat := 11

/-- The value `EVMC_CANCUN` of `evmc_revision`. -/
def EVMC_CANCUN : Nat := 12

/-- `Transaction::Type::kLegacy`, as the `uint8_t` under the enumeration. -/
def kLegacy : Nat := 0

/-- `Transaction::Type::kEip2930`. -/
def kEip2930 : Nat := 1

/-- `Transaction::Type::kEip1559`. -/
def kEip1559 : Nat := 2

/-- The value `UINT64_MAX`. -/
def UINT64_MAX : Nat := 2 ^ 64 - 1

/-- Modelled from the spec: `param::kMaxInitCodeSize` (core/chain/protocol_param.hpp is not
among the sources): "init-code length must be `≤ 49152` bytes". -/
def kMaxInitCodeSize : Nat := 49152

/-- Modelled from the spec: the two functions that transaction pre-validation calls and whose
sources are not among the files, taken as parameters: `silkpre::is_valid_signature(r, s,
homestead)` and `intrinsic_gas(txn, rev)`. -/
structure TransactionRules where
  is_valid_signature : Nat → Nat → Bool → Bool
  intrinsic_gas : Transaction → Nat → Nat

/-- `consensus::pre_validate_transaction(txn, rev, chain_id, base_fee_per_gas)`. -/
def pre_validate_transaction (rules : TransactionRules) (txn : Transaction) (rev : Nat)
    (chain_id : Nat) (base_fee_per_gas : Option Nat) : ValidationResult :=
  if (match txn.chain_id with
      | some txn_chain_id => decide (rev < EVMC_SPURIOUS_DRAGON ∨ txn_chain_id ≠ chain_id)
      | none => false) = true then
    ValidationResult.kWrongChainId
  else if (if txn.type = kEip2930 then decide (rev < EVMC_BERLIN)
      else if txn.type = kEip1559 then decide (rev < EVMC_LONDON)
      else decide (txn.type ≠ kLegacy)) = true then
    ValidationResult.kUnsupportedTransactionType
  else if (match base_fee_per_gas with
      | some base_fee => decide (txn.max_fee_per_gas < base_fee)
      | none => false) = true then
    ValidationResult.kMaxFeeLessThanBase
  else if txn.max_priority_fee_per_gas > txn.max_fee_per_gas then
    ValidationResult.kMaxPriorityFeeGreaterThanMax
  else if (match txn.from_ with
      | none => !rules.is_valid_signature txn.r txn.s (decide (rev ≥ EVMC_HOMESTEAD))
      | some _ => false) = true then
    ValidationResult.kInvalidSignature
  else if txn.gas_limit < rules.intrinsic_gas txn rev then
    ValidationResult.kIntrinsicGas
  else if txn.nonce ≥ UINT64_MAX then
    ValidationResult.kNonceTooHigh
  else if rev ≥ EVMC_SHANGHAI ∧ txn.to_.isNone = true ∧ txn.data.length > kMaxInitCodeSize then
    ValidationResult.kMaxInitCodeSizeExceeded
  else ValidationResult.kOk

/-- The checks of transaction pre-validation as the spec lists them (section 4.5), in its
order: whether the check fails, and the error it then gives. -/
def listed_checks (rules : TransactionRules) (txn : Transaction) (rev : Nat) (chain_id : Nat)
    (base_fee_per_gas : Option Nat) : List (Bool × ValidationResult) :=
  [ -- 1. if `txn.chain_id` is set, require `revision ≥ SpuriousDragon` and equal chain ids
    (txn.chain_id.isSome &&
        !(decide (EVMC_SPURIOUS_DRAGON ≤ rev) && decide (txn.chain_id = some chain_id)),
     ValidationResult.kWrongChainId),
    -- 2. EIP-2930 requires `≥ Berlin`; EIP-1559 requires `≥ London`; anything else than Legacy
    (if txn.type = kEip2930 then !decide (EVMC_BERLIN ≤ rev)
      else if txn.type = kEip1559 then !decide (EVMC_LONDON ≤ rev)
      else !decide (txn.type = kLegacy),
     ValidationResult.kUnsupportedTransactionType),
    -- 3. if a base fee is active, `txn.max_fee_per_gas ≥ base_fee`
    (base_fee_per_gas.any (fun base_fee => !decide (base_fee ≤ txn.max_fee_per_gas)),
     ValidationResult.kMaxFeeLessThanBase),
    -- 4. `max_priority_fee_per_gas ≤ max_fee_per_gas`
    (!decide (txn.max_priority_fee_per_gas ≤ txn.max_fee_per_gas),
     ValidationResult.kMaxPriorityFeeGreaterThanMax),
    -- 5. if the sender is not cached, reject non-canonical signatures (low-s from Homestead)
    (txn.from_.isNone && !rules.is_valid_signature txn.r txn.s (decide (EVMC_HOMESTEAD ≤ rev)),
     ValidationResult.kInvalidSignature),
    -- 6. intrinsic gas `≤ gas_limit`
    (!decide (rules.intrinsic_gas txn rev ≤ txn.gas_limit), ValidationResult.kIntrinsicGas),
    -- 7. `nonce < 2^64 - 1`
    (!decide (txn.nonce < 2 ^ 64 - 1), ValidationResult.kNonceTooHigh),
    -- 8. from Shanghai, contract-creation init-code length must be `≤ 49152` bytes
    (decide (EVMC_SHANGHAI ≤ rev) && txn.to_.isNone && !decide (txn.data.length ≤ 49152),
     ValidationResult.kMaxInitCodeSizeExceeded) ]

/-- The error of the earliest failing check of a list, `kOk` if none fails. -/
def first_failure : List (Bool × ValidationResult) → ValidationResult
  | [] => ValidationResult.kOk
  | (failed, error) :: rest => if failed = true then error else first_failure rest

/-! ## The schema version (node/db/access_layer.cpp, node/db/util.hpp) -/

/-- The key `kDbSchemaVersionKey` of `table::kDatabaseInfo` (node/db/util.hpp). -/
def kDbSchemaVersionKey : String := "dbVersion"

/-- Modelled from the spec: `endian::store_big_u32` (core/common/endian.hpp is not among the
sources): the four bytes of a `uint32_t`, most significant first. -/
def store_big_u32 (value : Nat) : List Nat :=
  [value / 2 ^ 24 % 256, value / 2 ^ 16 % 256, value / 2 ^ 8 % 256, value % 256]

/-- Modelled from the spec: `endian::load_big_u32` (core/common/endian.hpp is not among the
sources): the `uint32_t` whose bytes, most significant first, are the first four of the
buffer. -/
def load_big_u32 (bytes : List Nat) : Nat :=
  (bytes.take 4).foldl (fun acc byte => acc * 256 + byte % 256) 0

/-- The defaulted `operator<=>` of `VersionBase`, as `a < b`: the lexicographic order on the
members in the order of their declaration. -/
def VersionBase.lt (a b : VersionBase) : Bool :=
  decide (a.Major < b.Major) ||
    (decide (a.Major = b.Major) &&
      (decide (a.Minor < b.Minor) || (decide (a.Minor = b.Minor) && decide (a.Patch < b.Patch))))

/-- `db::read_schema_version(txn)`; `seek` finds the exact key. -/
def read_schema_version (txn : RWTxn) : Except Fault (Option VersionBase) :=
  match txn.db.database_info kDbSchemaVersionKey with
  | none => .ok none
  | some value =>
    if value.length ≠ 12 then .error .assertion_failure
    else
      .ok (some { Major := load_big_u32 value, Minor := load_big_u32 (value.drop 4),
                  Patch := load_big_u32 (value.drop 8) })

/-- `db::write_schema_version(txn, schema_version)`: how the call ends and the transaction
afterwards. -/
def write_schema_version (txn : RWTxn) (schema_version : VersionBase) :
    Except Fault Unit × RWTxn :=
  match read_schema_version txn with
  | .error f => (.error f, txn)
  | .ok old_schema_version =>
    if old_schema_version = some schema_version then (.ok (), txn)
    else if (match old_schema_version with
        | some old => schema_version.lt old
        | none => false) = true then
      (.error .runtime_error, txn)
    else
      let value := store_big_u32 schema_version.Major ++ store_big_u32 schema_version.Minor ++
        store_big_u32 schema_version.Patch
      (.ok (), { txn with db := { txn.db with
          database_info := fun key =>
            if key = kDbSchemaVersionKey then some value else txn.db.database_info key } })

/-! ## The chain configuration (node/db/access_layer.cpp) -/

/-- The fields of `silkworm::ChainConfig` (core/chain/config.hpp) named in the embedded
code. -/
structure ChainConfig where
  chain_id : Nat
  genesis_hash : Option Nat
  terminal_total_difficulty : Option Nat
deriving DecidableEq, Repr

/-- `db::update_chain_config(txn, config)`; `to_json_dump` is `config.to_json().dump()`, whose
source is not among the files. -/
def update_chain_config (to_json_dump : ChainConfig → String) (txn : RWTxn)
    (config : ChainConfig) : RWTxn :=
  match read_canonical_header_hash txn 0 with
  | none => txn
  | some genesis_hash =>
    let config_data := to_json_dump config
    { txn with db := { txn.db with
        config := fun key => if key = genesis_hash then some config_data else txn.db.config key } }

/-! ## Headers, bodies and blocks (node/db/access_layer.cpp) -/

/-- `db::read_header(txn, hash, number, header)`, the overload with an out parameter: whether
the header was found, and the out parameter afterwards. -/
def read_header_into (txn : RWTxn) (hash : Nat) (number : Nat) (header : BlockHeader) :
    Bool × BlockHeader :=
  match txn.db.headers number hash with
  | none => (false, header)
  | some stored => (true, stored)

/-- The name of `table::kBlockTransactions` (node/db/tables.hpp is not among the sources; the
name is the one in the list of persisted tables of the spec). -/
def kBlockTransactionsName : String := "BlockTransactions"

/-- `db::read_transactions(txn, base_id, count, out)`: the cursor is placed on the key
`base_id` and read forward `count` times; fewer entries than `count` fail the assertion. -/
def read_transactions (txn : RWTxn) (base_id : Nat) (count : Nat) :
    Except Fault (List Transaction) :=
  if count = 0 then .ok []
  else
    let found := (txn.db.block_transactions.dropWhile (fun entry => entry.1 ≠ base_id)).take count
    if found.length ≠ count then .error .assertion_failure
    else .ok (found.map (fun entry => entry.2))

/-- `db::parse_senders(txn, key, out)`; `recover_sender` is `Transaction::recover_sender`,
whose source is not among the files. -/
def parse_senders (recover_sender : Transaction → Transaction) (txn : RWTxn) (number hash : Nat)
    (out : List Transaction) : Except Fault (List Transaction) :=
  if out.isEmpty then .ok out
  else
    let addresses := txn.db.senders number hash
    if !addresses.isEmpty then
      if addresses.length ≠ out.length then .error .assertion_failure
      else .ok ((out.zip addresses).map (fun p => { p.1 with from_ := some p.2 }))
    else .ok (out.map recover_sender)

/-- `db::read_body(txn, key, read_senders, out)` with `key = block_key(number, hash)`: whether
the body was found, and the out parameter afterwards. -/
def read_body (recover_sender : Transaction → Transaction) (txn : RWTxn) (number hash : Nat)
    (read_senders : Bool) (out : BlockBody) : Except Fault (Bool × BlockBody) :=
  match txn.db.bodies number hash with
  | none => .ok (false, out)
  | some body =>
    match read_transactions txn body.base_txn_id body.txn_count with
    | .error f => .error f
    | .ok transactions =>
      if !transactions.isEmpty && read_senders then
        match parse_senders recover_sender txn number hash transactions with
        | .error f => .error f
        | .ok transactions1 => .ok (true, { transactions := transactions1, ommers := body.ommers })
      else .ok (true, { transactions := transactions, ommers := body.ommers })

/-- `db::read_block(txn, hash, number, block)`, the overload taking the hash as
`evmc::bytes32`: the returned flag and the out parameter afterwards. The value returned by
`read_header` is not used. -/
def read_block (recover_sender : Transaction → Transaction) (txn : RWTxn) (hash : Nat)
    (number : Nat) (block : Block) : Except Fault (Bool × Block) :=
  let header := (read_header_into txn hash number block.header).2
  match read_body recover_sender txn number hash false block.toBlockBody with
  | .error f => .error f
  | .ok (found, body) => .ok (found, { body with header := header })

/-- `db::read_block(txn, hash, number, read_senders, block)`, the overload taking the hash as
a span: the returned flag and the out parameter afterwards. -/
def read_block_span (recover_sender : Transaction → Transaction) (txn : RWTxn) (hash : Nat)
    (number : Nat) (read_senders : Bool) (block : Block) : Except Fault (Bool × Block) :=
  match txn.db.headers number hash with
  | none => .ok (false, block)
  | some header =>
    match read_body recover_sender txn number hash read_senders block.toBlockBody with
    | .error f => .error f
    | .ok (found, body) => .ok (found, { body with header := header })

/-! ## Insertion of blocks (node/stagedsync/execution_engine.cpp) -/

/-- `InterHashes::unwind(txn)`: the result, the stage object and the transaction afterwards.
As in `forward`, every exception is caught inside the function; the only fault is the
dereference `header->state_root` of a header that was not found. -/
def InterHashes.unwind (o : TrieOracle) (s : InterHashes) (txn : RWTxn) :
    Except Fault (StageResult × InterHashes × RWTxn) :=
  match s.sync_context.unwind_point with
  | none => .ok (StageResult.kSuccess, s, txn)
  | some to_block =>
    if s.is_stopping then
      .ok (o.stopping_result, { s with operation := OperationType.None }, txn)
    else
      let previous_progress := read_stage_progress txn StageKey.kIntermediateHashesKey
      if to_block ≥ previous_progress then
        .ok (StageResult.kSuccess, { s with operation := OperationType.None }, txn)
      else
        let segment_width := previous_progress - to_block
        match read_canonical_header_hash txn to_block with
        | none =>
          .ok (StageResult.kUnexpectedError, { s with operation := OperationType.None }, txn)
        | some header_hash =>
          match read_header txn to_block header_hash with
          | none => .error .bad_optional
          | some header =>
            let expected_state_root := header.state_root
            let hashed :=
              if o.kLargeBlockSegmentWorthRegen < segment_width then
                regenerate_intermediate_hashes o txn expected_state_root
              else
                increment_intermediate_hashes o txn previous_progress to_block
                  expected_state_root
            let ret := hashed.1
            if ret ≠ StageResult.kSuccess then
              .ok (ret, { s with operation := OperationType.None }, hashed.2)
            else
              .ok (StageResult.kSuccess, { s with operation := OperationType.None },
                (write_stage_progress hashed.2 StageKey.kIntermediateHashesKey to_block).commit)

/-- The functions that the collection of changes calls and whose sources are not among the
files, taken as parameters: `keccak256`, and `Stage::check_block_sequence(actual, expected)`
as the test that lets it return instead of throwing. -/
structure CollectorEnv where
  keccak256 : List Nat → List Nat
  block_sequence_ok : Nat → Nat → Bool

/-- Modelled from the spec: `trie::unpack_nibbles` (core/trie/nibbles.hpp is not among the
sources): the two nibbles of every byte, the high one first. -/
def unpack_nibbles (bytes : List Nat) : List Nat :=
  bytes.flatMap (fun byte => [byte / 16 % 16, byte % 16])

/-- Modelled from the spec: `db::storage_prefix(address, incarnation)` (declared in
node/db/util.hpp, defined in a file that is not among the sources): the address, plain or
hashed, followed by the big-endian incarnation. -/
def storage_prefix (address : List Nat) (incarnation : Nat) : List Nat :=
  address ++ store_big_u64 incarnation

/-- A `trie::PrefixSet` as the list of the `insert(key, marker)` calls made on it, the latest
first. -/
abbrev PrefixSet := List (List Nat × Bool)

/-- The `find` / `insert_or_assign` of the cache `hashed_addresses`: the hash to use for an
address and the cache afterwards. -/
def hashed_address_of (env : CollectorEnv) (hashed_addresses : List (List Nat × List Nat))
    (address : List Nat) : List Nat × List (List Nat × List Nat) :=
  match hashed_addresses.lookup address with
  | some hashed_address => (hashed_address, hashed_addresses)
  | none => (env.keccak256 address, (address, env.keccak256 address) :: hashed_addresses)

/-- The lexicographic order of MDBX keys, as `a < b`. -/
def bytes_lt : List Nat → List Nat → Bool
  | _, [] => false
  | [], _ :: _ => true
  | a :: as, b :: bs => decide (a < b) || (decide (a = b) && bytes_lt as bs)

/-- The loop that erases from `TrieOfStorage` under one entry of `deleted_ts_prefixes`: the
cursor is placed by `lower_bound` on the first key not below the prefix, and entries are
erased as long as their key starts with it. -/
def erase_trie_storage_from (table : RawTable) (key_start : List Nat) : RawTable :=
  table.takeWhile (fun entry => bytes_lt entry.1 key_start) ++
    ((table.dropWhile (fun entry => bytes_lt entry.1 key_start)).dropWhile
      (fun entry => key_start.isPrefixOf entry.1))

/-- What the collection of account changes carries through its loops: the prefix set `ret`,
the set `deleted_ts_prefixes`, the cache `hashed_addresses`, and `expected_blocknum`. -/
structure AccountCollection where
  ret : PrefixSet
  deleted_ts_prefixes : List (List Nat)
  hashed_addresses : List (List Nat × List Nat)
  expected_blocknum : Nat

/-- The body of the inner loop of `collect_account_changes` on one entry of the change set.
The cache `plainstate_accounts` only remembers reads of `PlainState`, which the function does
not write, so the account is read from the table. `deleted_ts_prefixes` is a set: the order
in which its entries are erased afterwards does not matter. -/
def collect_account_change (env : CollectorEnv) (txn : RWTxn) (forward : Bool)
    (c : AccountCollection) (entry : AccountChange) : AccountCollection :=
  let hashed := hashed_address_of env c.hashed_addresses entry.address
  let plainstate_account := txn.db.plain_state entry.address
  let outcome : List (List Nat) × Bool :=
    if forward then
      match entry.previous with
      | some changeset_account =>
        if changeset_account.incarnation ≠ 0 ∧
            (match plainstate_account with
              | none => true
              | some account => decide (account.incarnation ≠ changeset_account.incarnation))
              = true then
          ( storage_prefix entry.address changeset_account.incarnation :: c.deleted_ts_prefixes,
            false)
        else (c.deleted_ts_prefixes, false)
      | none => (c.deleted_ts_prefixes, true)
    else
      match plainstate_account with
      | some account =>
        if account.incarnation ≠ 0 then
          match entry.previous with
          | none => (entry.address :: c.deleted_ts_prefixes, false)
          | some changeset_account =>
            if changeset_account.incarnation > account.incarnation then
              ( storage_prefix entry.address account.incarnation :: c.deleted_ts_prefixes,
                false)
            else (c.deleted_ts_prefixes, false)
        else (c.deleted_ts_prefixes, false)
      | none => (c.deleted_ts_prefixes, true)
  { c with
    ret := (unpack_nibbles hashed.1, outcome.2) :: c.ret,
    deleted_ts_prefixes := outcome.1,
    hashed_addresses := hashed.2 }

/-- The two nested loops of `collect_account_changes` over the entries from the cursor on:
`current_key` is the block number of the key whose values the inner loop is reading. A new key
passes through the head of the outer loop: `check_block_sequence`, the test against
`max_blocknum`, and `throw_if_stopping` (reached in the first round at the latest, so that a
stop requested before the call ends it). -/
def collect_account_changes_loop (env : CollectorEnv) (txn : RWTxn) (is_stopping : Bool)
    (forward : Bool) (max_blocknum : Nat) :
    Option Nat → List AccountChange → AccountCollection → Except Fault AccountCollection
  | _, [], c => .ok c
  | current_key, entry :: rest, c =>
    if current_key = some entry.block_number then
      collect_account_changes_loop env txn is_stopping forward max_blocknum current_key rest
        (collect_account_change env txn forward c entry)
    else if !env.block_sequence_ok entry.block_number c.expected_blocknum then
      .error .stage_error
    else if entry.block_number > max_blocknum then .ok c
    else if is_stopping then .error .stage_error
    else
      collect_account_changes_loop env txn is_stopping forward max_blocknum
        (some entry.block_number) rest
        (collect_account_change env txn forward
          { c with expected_blocknum := (c.expected_blocknum + 1) % kTwo64 } entry)

/-- `InterHashes::collect_account_changes(txn, from, to, hashed_addresses)`: the prefix set,
the cache of hashed addresses and the transaction afterwards. -/
def collect_account_changes (env : CollectorEnv) (is_stopping : Bool) (txn : RWTxn)
    (from_block to_block : Nat) (hashed_addresses : List (List Nat × List Nat)) :
    Except Fault (PrefixSet × List (List Nat × List Nat) × RWTxn) :=
  let forward := decide (to_block > from_block)
  let expected_blocknum := (min from_block to_block + 1) % kTwo64
  let max_blocknum := max from_block to_block
  let changeset_data :=
    txn.db.account_change_set.dropWhile (fun entry => entry.block_number < expected_blocknum)
  match collect_account_changes_loop env txn is_stopping forward max_blocknum none changeset_data
      { ret := [], deleted_ts_prefixes := [], hashed_addresses := hashed_addresses,
        expected_blocknum := expected_blocknum } with
  | .error f => .error f
  | .ok c =>
    let trie_of_storage :=
      c.deleted_ts_prefixes.reverse.foldl erase_trie_storage_from txn.db.trie_of_storage
    .ok (c.ret, c.hashed_addresses,
      { txn with db := { txn.db with trie_of_storage := trie_of_storage } })

/-- The value of an entry of the storage change set as stored: the location followed by the
zeroless value. -/
def StorageChange.value_view (entry : StorageChange) : List Nat :=
  entry.location ++ entry.value

/-- The item that the inner loop of `collect_storage_changes` inserts for an entry: the hashed
address, the incarnation of the key and the nibbles of the hashed location, marked when the
value holds the location only. -/
def hashed_storage_item (env : CollectorEnv) (hashed_address : List Nat)
    (entry : StorageChange) : List Nat × Bool :=
  (hashed_address ++ store_big_u64 entry.incarnation ++
      unpack_nibbles (env.keccak256 (entry.value_view.take 32)),
    decide (entry.value_view.length = 32))

/-- The two nested loops of `collect_storage_changes` over the entries from the cursor on:
`current_key` is the key (block number, address, incarnation) whose values the inner loop is
reading. A new key passes through the head of the outer loop: the test against `to` and
`throw_if_stopping`. -/
def collect_storage_changes_loop (env : CollectorEnv) (is_stopping : Bool) (to_block : Nat) :
    Option (Nat × List Nat × Nat) → List StorageChange →
      PrefixSet × List (List Nat × List Nat) →
      Except Fault (PrefixSet × List (List Nat × List Nat))
  | _, [], c => .ok c
  | current_key, entry :: rest, c =>
    if current_key = some (entry.block_number, entry.address, entry.incarnation) then
      let hashed := hashed_address_of env c.2 entry.address
      collect_storage_changes_loop env is_stopping to_block current_key rest
        (hashed_storage_item env hashed.1 entry :: c.1, c.2)
    else if entry.block_number > to_block then .ok c
    else if is_stopping then .error .stage_error
    else
      let hashed := hashed_address_of env c.2 entry.address
      collect_storage_changes_loop env is_stopping to_block
        (some (entry.block_number, entry.address, entry.incarnation)) rest
        (hashed_storage_item env hashed.1 entry :: c.1, hashed.2)

/-- `InterHashes::collect_storage_changes(txn, from, to, hashed_addresses)`: the prefix set and
the cache of hashed addresses afterwards. The cursor starts at `from + 1` and the loop ends at
the first key above `to`, whatever the direction. -/
def collect_storage_changes (env : CollectorEnv) (is_stopping : Bool) (txn : RWTxn)
    (from_block to_block : Nat) (hashed_addresses : List (List Nat × List Nat)) :
    Except Fault (PrefixSet × List (List Nat × List Nat)) :=
  let expected_blocknum := (from_block + 1) % kTwo64
  let changeset_data :=
    txn.db.storage_change_set.dropWhile (fun entry => entry.block_number < expected_blocknum)
  collect_storage_changes_loop env is_stopping to_block none changeset_data
    ([], hashed_addresses)

/-! ## Properties of the store used by the statements -/

/-- The transactions of a list under consecutive keys: the one at index `i` under
`base_id + i`. -/
def keyed_from : Nat → List Transaction → List (Nat × Transaction)
  | _, [] => []
  | base_id, transaction :: rest => (base_id, transaction) :: keyed_from (base_id + 1) rest

/-! ## Properties of the canonical chain used by the statements -/

/-- The hash reached from the header `(height, hash)` after `k` steps along the parent links
of the header table, if all the headers on the way are stored. -/
def nth_ancestor (tx : RWTxn) : Nat → Nat → Nat → Option Nat
  | _, hash, 0 => some hash
  | height, hash, k + 1 =>
    match read_header tx height hash with
    | none => none
    | some header => nth_ancestor tx (height - 1) header.parent_hash k

/-- The hash of the ancestor of the header `(height, hash)` at height `h ≤ height`. -/
def ancestor_at (tx : RWTxn) (height : Nat) (hash : Nat) (h : Nat) : Option Nat :=
  nth_ancestor tx height hash (height - h)

/-- The transaction `tx1` differs from `tx` at most in the table of canonical hashes. -/
def same_except_canonical (tx tx1 : RWTxn) : Prop :=
  tx1 = { tx with db := { tx.db with canonical_hashes := tx1.db.canonical_hashes } }

/-- The canonical hash at `h` is stored, its header is in the header table and, above the
genesis, the parent hash of that header is the canonical hash at `h - 1`. -/
def canonical_linked (tx : RWTxn) (h : Nat) : Bool :=
  match read_canonical_hash tx h with
  | none => false
  | some c =>
    match read_header tx h c with
    | none => false
    | some header => h == 0 || read_canonical_hash tx (h - 1) == some header.parent_hash

/-- The invariant of the canonical chain: every height up to the current head has a canonical
hash that is linked to the one below, hence chains by parent links back to the genesis. -/
def canonical_invariant (cc : CanonicalChain) : Prop :=
  ∀ h, h ≤ cc.current_head.number → canonical_linked cc.tx h = true

instance (cc : CanonicalChain) : Decidable (canonical_invariant cc) :=
  inferInstanceAs (Decidable (∀ h, h ≤ cc.current_head.number → canonical_linked cc.tx h = true))

/-- No canonical hash is stored at a height above the current head. -/
def no_canonical_above_head (cc : CanonicalChain) : Prop :=
  ∀ h, cc.current_head.number < h → read_canonical_hash cc.tx h = none

/-- The transaction `tx1` has the headers and the canonical hashes of `tx`. -/
def same_chain_tables (tx tx1 : RWTxn) : Prop :=
  tx1.db.headers = tx.db.headers ∧ tx1.db.canonical_hashes = tx.db.canonical_hashes

/-- The header stored under `(n, x)` has the number `n`, and no header is stored at the
largest value of a `uint64_t`. -/
def headers_well_formed (tx : RWTxn) : Prop :=
  ∀ n x header, read_header tx n x = some header → header.number = n ∧ n < kTwo64 - 1

/-! ## Concrete stores used to exercise the definitions -/

/-- A store without any entry. -/
def Db.empty : Db :=
  { headers := fun _ _ => none, header_numbers := fun _ => none,
    canonical_hashes := fun _ => none, difficulty := fun _ _ => none,
    stage_progress := fun _ => 0, trie_of_accounts := [], trie_of_storage := [],
    sequence := fun _ => none, bodies := fun _ _ => none, block_transactions := [],
    senders := fun _ _ => [], database_info := fun _ => none, config := fun _ => none,
    account_change_set := [], storage_change_set := [], plain_state := fun _ => none }

/-- A transaction over the headers `(number, hash, parent_hash, state_root)` and the canonical
entries `(number, hash)` listed, with commits enabled and nothing committed yet. -/
def txn_of (headers : List (Nat × Nat × Nat × Nat)) (canonical : List (Nat × Nat)) : RWTxn :=
  { db := { Db.empty with
      headers := fun n h =>
        (headers.find? (fun e => e.1 == n && e.2.1 == h)).map
          (fun e => { parent_hash := e.2.2.1, state_root := e.2.2.2, difficulty := 1, number := e.1 }),
      header_numbers := fun h => (headers.find? (fun e => e.2.1 == h)).map (fun e => e.1),
      canonical_hashes := fun n => canonical.lookup n },
    commit_disabled := false,
    committed := Db.empty }

/-- Four headers `100 ← 101 ← 102 ← 103` at the heights `0 .. 3`. -/
def four_headers : List (Nat × Nat × Nat × Nat) :=
  [(0, 100, 0, 0), (1, 101, 100, 0), (2, 102, 101, 0), (3, 103, 102, 0)]

/-- A chain whose only canonical block is the genesis `100`; the headers `101`, `102`, `103`
above it are stored but not canonical. -/
def genesis_chain : CanonicalChain :=
  { tx := txn_of four_headers [(0, 100)],
    canonical_cache := { max_size := 1000, items := [] },
    initial_head := ⟨0, 100⟩, current_head := ⟨0, 100⟩ }

/-- A chain with the canonical blocks `100 ← 101 ← 102` and head `(2, 102)`. -/
def three_block_chain : CanonicalChain :=
  { tx := txn_of four_headers [(0, 100), (1, 101), (2, 102)],
    canonical_cache := { max_size := 1000, items := [] },
    initial_head := ⟨2, 102⟩, current_head := ⟨2, 102⟩ }

/-- A chain with the canonical blocks `100 ← 101 ← 102 ← 103` and head `(3, 103)`. -/
def four_block_chain : CanonicalChain :=
  { tx := txn_of four_headers [(0, 100), (1, 101), (2, 102), (3, 103)],
    canonical_cache := { max_size := 1000, items := [] },
    initial_head := ⟨3, 103⟩, current_head := ⟨3, 103⟩ }

/-- The state of a pipeline object reduced to the four values the engine reads from it. -/
structure SamplePipeline where
  head_header_number : Nat
  head_header_hash : Nat
  unwind_point : Option Nat
  bad_block : Option Nat
deriving DecidableEq, Repr

/-- A pipeline whose `forward` succeeds and reports the canonical block at the target as its
head, and whose `unwind` succeeds; neither touches the transaction. -/
def succeeding_pipeline : Pipeline SamplePipeline :=
  { forward := fun p tx target =>
      (StageResult.kSuccess,
        { p with head_header_number := target,
                 head_header_hash := (read_canonical_hash tx target).getD 0 }, tx),
    unwind := fun p tx _ => (StageResult.kSuccess, p, tx),
    head_header_number := fun p => p.head_header_number,
    head_header_hash := fun p => p.head_header_hash,
    unwind_point := fun p => p.unwind_point,
    bad_block := fun p => p.bad_block }

/-- A pipeline whose `forward` reports a wrong state root for the block at the target, with
the unwind point `0`; its `unwind` succeeds; neither touches the transaction. -/
def failing_pipeline : Pipeline SamplePipeline :=
  { forward := fun p tx target =>
      (StageResult.kWrongStateRoot,
        { p with unwind_point := some 0, bad_block := read_canonical_hash tx target }, tx),
    unwind := fun p tx _ => (StageResult.kSuccess, p, tx),
    head_header_number := fun p => p.head_header_number,
    head_header_hash := fun p => p.head_header_hash,
    unwind_point := fun p => p.unwind_point,
    bad_block := fun p => p.bad_block }

/-- An engine on `genesis_chain`, before any fork choice. -/
def genesis_engine : ExecutionEngine SamplePipeline :=
  { pipeline := { head_header_number := 0, head_header_hash := 100, unwind_point := none,
                  bad_block := none },
    canonical_chain := genesis_chain,
    canonical_status := VerificationResult.ValidChain 0,
    last_fork_choice := ⟨0, 0⟩,
    is_first_sync := true }

/-- The transaction of `four_block_chain` with the progress of the InterHashes stage at
`interhashes_progress` and the progress of the HashState stage at `hashstate_progress`. -/
def staged_txn (interhashes_progress hashstate_progress : Nat) : RWTxn :=
  { four_block_chain.tx with
    db := { four_block_chain.tx.db with
      stage_progress := fun key =>
        match key with
        | StageKey.kHashStateKey => hashstate_progress
        | StageKey.kIntermediateHashesKey => interhashes_progress } }

/-- A trie computation that always yields the root `7` and loads nothing. -/
def sample_oracle : TrieOracle :=
  { kLargeBlockSegmentWorthRegen := 100000,
    stopping_result := StageResult.kAborted,
    regenerate_root := fun _ => .ok 7,
    increment_root := fun txn _ _ => (txn.db.trie_of_storage, .ok 7),
    flush_collected_nodes := fun txn => ((txn.db.trie_of_accounts, txn.db.trie_of_storage), none) }

/-- A stage object at rest, with an empty sync context and no stop requested. -/
def idle_stage : InterHashes :=
  { operation := OperationType.None,
    sync_context := { unwind_point := none, bad_block_hash := none },
    is_stopping := false }

/-- A block state holding the header `(5, 500)` with total difficulty `total_difficulty`. -/
def sample_block_state (total_difficulty : Nat) : BlockState :=
  { read_header := fun n h =>
      if n = 5 ∧ h = 500 then
        some { parent_hash := 400, state_root := 0, difficulty := 10, number := 5 }
      else none,
    total_difficulty := fun n h => if n = 5 ∧ h = 500 then some total_difficulty else none }

/-- A merge engine with terminal total difficulty `1000` whose pre-merge engine answers
`kInvalidSeal` and whose proof-of-stake engine answers `kOk`. -/
def sample_merge_engine : MergeEngine :=
  { terminal_total_difficulty := 1000,
    pre_merge_validate_block_header := fun _ _ _ => ValidationResult.kInvalidSeal,
    post_merge_validate_block_header := fun _ _ _ => ValidationResult.kOk,
    get_parent_header := fun state header =>
      if header.number = 0 then none
      else state.read_header (header.number - 1) header.parent_hash }

/-- A proof-of-work header at height `6` on top of the header `(5, 500)`. -/
def sample_pow_header : BlockHeader :=
  { parent_hash := 500, state_root := 0, difficulty := 10, number := 6 }

/-- The sample merge engine with terminal total difficulty `2`. -/
def low_ttd_merge_engine : MergeEngine :=
  { sample_merge_engine with terminal_total_difficulty := 2 }

/-- A proof-of-work header at height `6` on top of the header `(5, 500)` whose difficulty is the
largest `intx::uint256`. -/
def heaviest_pow_header : BlockHeader :=
  { parent_hash := 500, state_root := 0, difficulty := 2 ^ 256 - 1, number := 6 }

/-- Sample rules: a signature is valid when `r` and `s` are nonzero and, with the low-s
requirement, `s` is at most `1000`; the intrinsic gas is `21000` plus `16` per byte of data. -/
def sample_rules : TransactionRules :=
  { is_valid_signature := fun r s homestead =>
      decide (r ≠ 0) && decide (s ≠ 0) && (!homestead || decide (s ≤ 1000)),
    intrinsic_gas := fun txn _ => 21000 + 16 * txn.data.length }

/-- Rules that accept no signature, with the intrinsic gas of the sample rules. -/
def strict_rules : TransactionRules :=
  { sample_rules with is_valid_signature := fun _ _ _ => false }

/-- A legacy transfer on chain `1` signed with `(r, s) = (1, 1)`, sender not yet recovered. -/
def sample_transaction : Transaction :=
  { type := kLegacy, nonce := 7, max_priority_fee_per_gas := 30, max_fee_per_gas := 30,
    gas_limit := 21000, to_ := some 77, value := 1, data := [], odd_y_parity := false,
    chain_id := some 1, r := 1, s := 1, access_list := [], from_ := none }

/-- The sample transfer with the signature `(r, s) = (1, 2000)`, which is not low-s. -/
def high_s_transaction : Transaction :=
  { sample_transaction with s := 2000 }

/-- The sample transfer with its sender already recovered. -/
def recovered_transaction : Transaction :=
  { sample_transaction with from_ := some 5 }

/-- A contract creation carrying three bytes of init code. -/
def sample_creation : Transaction :=
  { sample_transaction with to_ := none, data := [96, 0, 96], gas_limit := 100000 }

/-- A transaction over the empty store whose sequence table holds `value` under `"Log"`. -/
def sequence_txn (value : List Nat) : RWTxn :=
  { db := { Db.empty with sequence := fun key => if key = "Log" then some value else none },
    commit_disabled := false, committed := Db.empty }

/-- A pipeline whose `forward` fails with a database error; its `unwind` succeeds; neither
touches the transaction. -/
def erroring_pipeline : Pipeline SamplePipeline :=
  { failing_pipeline with forward := fun p tx _ => (StageResult.kDbError, p, tx) }

/-- The headers `100 ← 101 ← 102 ← 103` with the canonical hashes of `four_block_chain` and
one more canonical hash, `104` at height `4`, under which no header is stored; the progress
of the InterHashes stage is `interhashes_progress`, that of the HashState stage is
`hashstate_progress`. -/
def headerless_txn (interhashes_progress hashstate_progress : Nat) : RWTxn :=
  { staged_txn interhashes_progress hashstate_progress with
    db := { (staged_txn interhashes_progress hashstate_progress).db with
      canonical_hashes := fun n =>
        [(0, 100), (1, 101), (2, 102), (3, 103), (4, 104)].lookup n } }

/-- A stage object at rest that was asked to unwind to the height `4`. -/
def unwinding_stage : InterHashes :=
  { idle_stage with sync_context := { unwind_point := some 4, bad_block_hash := none } }

/-- A transaction whose schema version record holds `value`. -/
def versioned_txn (value : List Nat) : RWTxn :=
  { db := { Db.empty with
      database_info := fun key => if key = kDbSchemaVersionKey then some value else none },
    commit_disabled := false, committed := Db.empty }

/-- A configuration of chain `1`. -/
def sample_chain_config : ChainConfig :=
  { chain_id := 1, genesis_hash := some 100, terminal_total_difficulty := none }

/-- A stand-in for the JSON dump of a configuration. -/
def sample_json_dump (config : ChainConfig) : String :=
  if config.chain_id = 1 then "mainnet" else "other"

/-- A block object before anything is read into it. -/
def blank_block : Block :=
  { header := { parent_hash := 0, state_root := 0, difficulty := 0, number := 0 },
    transactions := [], ommers := [] }

/-- A store that holds the body of `sample_block` under `(7, 1007)`, with its two transactions
under the keys `0` and `1`, and no header at all. -/
def body_only_txn : RWTxn :=
  { db := { Db.empty with
      bodies := fun n h =>
        if n = 7 ∧ h = 1007 then some { base_txn_id := 0, txn_count := 2, ommers := [] }
        else none,
      block_transactions := [(0, sample_transaction), (1, high_s_transaction)],
      sequence := fun key =>
        if key = kBlockTransactionsName then some (store_big_u64 2) else none },
    commit_disabled := false, committed := Db.empty }

/-- A stand-in for `keccak256`: 32 equal bytes that depend on the sum of the input; with
`block_sequence_ok` as the equality of the two block numbers. -/
def sample_collector_env : CollectorEnv :=
  { keccak256 := fun bytes => List.replicate 32 ((bytes.foldl (fun a b => a + b) 0 + 1) % 256),
    block_sequence_ok := fun actual expected => actual == expected }

/-- An address of 20 bytes. -/
def sample_address : List Nat := List.replicate 20 170

/-- A storage location of 32 bytes. -/
def sample_location : List Nat := List.replicate 32 5

/-- A store in which the block `4` destroyed the contract at `sample_address`: the change set
of block `4` records its account with incarnation `1`, `PlainState` holds no account for it
any more, and `TrieOfStorage` still holds a node of its storage trie, under the hashed address
followed by the incarnation `1`. -/
def destroyed_account_txn : RWTxn :=
  { db := { Db.empty with
      account_change_set :=
        [{ block_number := 4, address := sample_address,
           previous := some { nonce := 1, balance := 0, incarnation := 1 } }],
      trie_of_storage :=
        [(sample_collector_env.keccak256 sample_address ++ store_big_u64 1 ++ [1, 2], [9])] },
    commit_disabled := false, committed := Db.empty }

/-- A store whose change sets record, for each of the blocks `4` and `5`, a change of the
account at `sample_address` and a change of its storage slot `sample_location`. -/
def changed_storage_txn : RWTxn :=
  { db := { Db.empty with
      account_change_set :=
        [{ block_number := 4, address := sample_address,
           previous := some { nonce := 1, balance := 0, incarnation := 1 } },
         { block_number := 5, address := sample_address,
           previous := some { nonce := 1, balance := 0, incarnation := 1 } }],
      storage_change_set :=
        [{ block_number := 4, address := sample_address, incarnation := 1,
           location := sample_location, value := [6] },
         { block_number := 5, address := sample_address, incarnation := 1,
           location := sample_location, value := [7] }],
      plain_state := fun address =>
        if address = sample_address then some { nonce := 1, balance := 0, incarnation := 1 }
        else none },
    commit_disabled := false, committed := Db.empty }

/-! # Theorems -/

/-! ## Arithmetic and frame lemmas -/



theorem dec64_of_pos {x : Nat} (h0 : 0 < x) (hx : x < kTwo64) : dec64 x = x - 1 := by
  unfold dec64 kTwo64 at *
  omega

theorem dec64_lt (x : Nat) : dec64 x < kTwo64 := by
  unfold dec64 kTwo64
  omega

theorem same_except_canonical_refl (tx : RWTxn) : same_except_canonical tx tx := by
  unfold same_except_canonical
  rfl

theorem same_except_canonical_trans {a b c : RWTxn} (h1 : same_except_canonical a b)
    (h2 : same_except_canonical b c) : same_except_canonical a c := by
  unfold same_except_canonical at *
  rw [h2, h1]

theorem same_except_canonical_write (tx : RWTxn) (b : Nat) (h : Nat) :
    same_except_canonical tx (write_canonical_hash tx b h) := by
  unfold same_except_canonical write_canonical_hash
  rfl

theorem same_except_canonical_delete (tx : RWTxn) (b : Nat) :
    same_except_canonical tx (delete_canonical_hash tx b) := by
  unfold same_except_canonical delete_canonical_hash
  rfl

theorem read_header_of_same {tx tx1 : RWTxn} (h : same_except_canonical tx tx1) (n : Nat)
    (x : Nat) : read_header tx1 n x = read_header tx n x := by
  unfold same_except_canonical at h
  unfold read_header
  rw [h]

theorem nth_ancestor_of_same {tx tx1 : RWTxn} (h : same_except_canonical tx tx1) (k : Nat) :
    ∀ (n : Nat) (x : Nat), nth_ancestor tx1 n x k = nth_ancestor tx n x k := by
  induction k with
  | zero => intro n x; rfl
  | succ k ih =>
    intro n x
    simp only [nth_ancestor, read_header_of_same h]
    cases read_header tx n x with
    | none => rfl
    | some hd => exact ih _ _

@[simp] theorem read_canonical_hash_write (tx : RWTxn) (b : Nat) (h : Nat) (k : Nat) :
    read_canonical_hash (write_canonical_hash tx b h) k
      = if k = b then some h else read_canonical_hash tx k := rfl

@[simp] theorem read_canonical_hash_delete (tx : RWTxn) (b : Nat) (k : Nat) :
    read_canonical_hash (delete_canonical_hash tx b) k
      = if k = b then none else read_canonical_hash tx k := rfl

@[simp] theorem read_header_write (tx : RWTxn) (b : Nat) (h : Nat) (n : Nat) (x : Nat) :
    read_header (write_canonical_hash tx b h) n x = read_header tx n x := rfl

theorem update_up_to_loop_spec (d : Nat) :
    ∀ (fuel : Nat) (tx : RWTxn) (cache : LruCache) (j : Nat) (a : Nat),
      d < fuel → d ≤ j → j < kTwo64 →
      (∀ k, k < d → ∃ ak hdr, nth_ancestor tx j a k = some ak ∧
          read_header tx (j - k) ak = some hdr ∧ read_canonical_hash tx (j - k) ≠ some ak) →
      (∃ ad, nth_ancestor tx j a d = some ad ∧ read_canonical_hash tx (j - d) = some ad) →
      ∃ tx1 cache1, update_up_to_loop fuel tx cache j a = .ok (tx1, cache1) ∧
        same_except_canonical tx tx1 ∧
        ∀ h, read_canonical_hash tx1 h
          = if j - d < h ∧ h ≤ j then nth_ancestor tx j a (j - h) else read_canonical_hash tx h := by
  induction d with
  | zero =>
    intro fuel tx cache j a hfuel _ _ _ hstop
    obtain ⟨ad, had, hcan⟩ := hstop
    simp only [nth_ancestor, Option.some.injEq] at had
    subst had
    obtain ⟨n, rfl⟩ : ∃ n, fuel = n + 1 := ⟨fuel - 1, by omega⟩
    refine ⟨tx, cache, ?_, same_except_canonical_refl tx, ?_⟩
    · simp only [update_up_to_loop]
      simp at hcan
      simp [hcan]
    · intro h
      have : ¬ (j < h ∧ h ≤ j) := by omega
      simp [this]
  | succ d ih =>
    intro fuel tx cache j a hfuel hdj hj hwalk hstop
    obtain ⟨n, rfl⟩ : ∃ n, fuel = n + 1 := ⟨fuel - 1, by omega⟩
    obtain ⟨a0, hdr0, ha0, hhdr0, hne0⟩ := hwalk 0 (by omega)
    simp only [nth_ancestor, Option.some.injEq] at ha0
    subst ha0
    simp only [Nat.sub_zero] at hhdr0 hne0
    have hdec : dec64 j = j - 1 := dec64_of_pos (by omega) hj
    have hsame := same_except_canonical_write tx j a
    have hrec := ih n (write_canonical_hash tx j a) (cache.put j a) (j - 1) hdr0.parent_hash
      (by omega) (by omega) (by omega)
      (by
        intro k hk
        obtain ⟨ak, hdrk, hak, hhdrk, hnek⟩ := hwalk (k + 1) (by omega)
        refine ⟨ak, hdrk, ?_, ?_, ?_⟩
        · rw [nth_ancestor_of_same hsame]
          simpa [nth_ancestor, hhdr0] using hak
        · rw [show j - 1 - k = j - (k + 1) by omega]
          simpa using hhdrk
        · rw [show j - 1 - k = j - (k + 1) by omega]
          have : j - (k + 1) ≠ j := by omega
          simpa [this] using hnek)
      (by
        obtain ⟨ad, had, hcan⟩ := hstop
        refine ⟨ad, ?_, ?_⟩
        · rw [nth_ancestor_of_same hsame]
          simpa [nth_ancestor, hhdr0] using had
        · rw [show j - 1 - d = j - (d + 1) by omega]
          have : j - (d + 1) ≠ j := by omega
          simpa [this] using hcan)
    obtain ⟨tx1, cache1, hrun, hsame1, hcanon⟩ := hrec
    refine ⟨tx1, cache1, ?_, same_except_canonical_trans hsame hsame1, ?_⟩
    · simp only [update_up_to_loop]
      simp only [ne_eq, hne0, not_false_eq_true, if_true, read_header_write, hhdr0, hdec]
      exact hrun
    · intro h
      rw [hcanon h]
      by_cases h1 : j - 1 - d < h ∧ h ≤ j - 1
      · have h2 : j - (d + 1) < h ∧ h ≤ j := by omega
        rw [if_pos h1, if_pos h2, nth_ancestor_of_same hsame]
        obtain ⟨m, hm⟩ : ∃ m, j - h = m + 1 := ⟨j - h - 1, by omega⟩
        rw [hm, show j - 1 - h = m by omega]
        simp [nth_ancestor, hhdr0]
      · rw [if_neg h1]
        by_cases h3 : h = j
        · have h2 : j - (d + 1) < h ∧ h ≤ j := by omega
          rw [if_pos h2, h3]
          simp [nth_ancestor]
        · have h2 : ¬ (j - (d + 1) < h ∧ h ≤ j) := by omega
          rw [if_neg h2]
          simp [h3]

theorem canonical_linked_iff (tx : RWTxn) (h : Nat) :
    canonical_linked tx h = true ↔
      ∃ c hdr, read_canonical_hash tx h = some c ∧ read_header tx h c = some hdr ∧
        (0 < h → read_canonical_hash tx (h - 1) = some hdr.parent_hash) := by
  unfold canonical_linked
  constructor
  · intro hl
    cases hc : read_canonical_hash tx h with
    | none => simp [hc] at hl
    | some c =>
      cases hh : read_header tx h c with
      | none => simp [hc, hh] at hl
      | some hdr =>
        simp only [hc, hh, Bool.or_eq_true, beq_iff_eq] at hl
        refine ⟨c, hdr, rfl, hh, ?_⟩
        intro hpos
        rcases hl with hl | hl
        · omega
        · exact hl
  · rintro ⟨c, hdr, hc, hh, hp⟩
    simp only [hc, hh, Bool.or_eq_true, beq_iff_eq]
    by_cases h0 : h = 0
    · exact Or.inl h0
    · exact Or.inr (hp (by omega))

theorem canonical_of_same_write {tx : RWTxn} {b x k : Nat} (hk : k ≠ b) :
    read_canonical_hash (write_canonical_hash tx b x) k = read_canonical_hash tx k := by
  simp [hk]

theorem update_up_to_loop_linked (height : Nat) (h64 : height < kTwo64) :
    ∀ (fuel : Nat) (tx : RWTxn) (cache : LruCache) (j a : Nat) (tx1 : RWTxn) (cache1 : LruCache),
      j < kTwo64 →
      (j < height → ∃ c hdr, read_canonical_hash tx (j + 1) = some c ∧
          read_header tx (j + 1) c = some hdr ∧ hdr.parent_hash = a) →
      (∀ h, h ≤ height → h ≠ j + 1 → canonical_linked tx h = true ∨
          (h ≤ j ∧ ∀ k, h ≤ k → k ≤ j → read_canonical_hash tx k = none)) →
      update_up_to_loop fuel tx cache j a = .ok (tx1, cache1) →
      ∀ h, h ≤ height → canonical_linked tx1 h = true := by
  intro fuel
  induction fuel with
  | zero =>
    intro tx cache j a tx1 cache1 _ _ _ hrun
    simp [update_up_to_loop] at hrun
  | succ n ih =>
    intro tx cache j a tx1 cache1 hj hpend hrest hrun
    simp only [update_up_to_loop] at hrun
    by_cases hagree : read_canonical_hash tx j = some a
    · simp only [hagree, ne_eq, not_true_eq_false, if_false, Except.ok.injEq, Prod.mk.injEq] at hrun
      obtain ⟨rfl, _⟩ := hrun
      intro h hh
      by_cases hj1 : h = j + 1
      · obtain ⟨c, hdr, hc, hhd, hp⟩ := hpend (by omega)
        rw [canonical_linked_iff]
        subst hj1
        refine ⟨c, hdr, hc, hhd, ?_⟩
        intro _
        simpa [hp] using hagree
      · rcases hrest h hh hj1 with hl | ⟨hle, hnone⟩
        · exact hl
        · have := hnone j hle (le_refl j)
          rw [this] at hagree
          cases hagree
    · simp only [ne_eq, hagree, not_false_eq_true, if_true, read_header_write] at hrun
      cases hhd : read_header tx j a with
      | none => simp [hhd] at hrun
      | some hdr =>
        simp only [hhd] at hrun
        have hsame := same_except_canonical_write tx j a
        by_cases hj0 : j = 0
        · -- the decrement wraps
          refine ih _ _ _ _ _ _ (dec64_lt j) ?_ ?_ hrun
          · intro hlt
            subst hj0
            have : dec64 0 = kTwo64 - 1 := by unfold dec64 kTwo64; omega
            omega
          · intro h hh _
            left
            subst hj0
            by_cases h0 : h = 0
            · subst h0
              rw [canonical_linked_iff]
              exact ⟨a, hdr, by simp, by simpa using hhd, by omega⟩
            · by_cases h1 : h = 0 + 1
              · obtain ⟨c, hd1, hc, hhd1, hp⟩ := hpend (by omega)
                rw [canonical_linked_iff]
                subst h1
                refine ⟨c, hd1, by simpa using hc, by simpa using hhd1, ?_⟩
                intro _
                simp [hp]
              · rcases hrest h hh h1 with hl | ⟨hle, _⟩
                · rw [canonical_linked_iff] at hl ⊢
                  obtain ⟨c, hd1, hc, hhd1, hp⟩ := hl
                  refine ⟨c, hd1, by simpa [h0] using hc, by simpa using hhd1, ?_⟩
                  intro hpos
                  have : h - 1 ≠ 0 := by omega
                  simpa [this] using hp hpos
                · omega
        · have hdec : dec64 j = j - 1 := dec64_of_pos (by omega) hj
          rw [hdec] at hrun
          refine ih _ _ _ _ _ _ (by omega) ?_ ?_ hrun
          · intro _
            refine ⟨a, hdr, ?_, ?_, rfl⟩
            · rw [show j - 1 + 1 = j by omega]; simp
            · rw [show j - 1 + 1 = j by omega]; simpa using hhd
          · intro h hh hne
            have hne2 : h ≠ j := by omega
            by_cases h1 : h = j + 1
            · left
              obtain ⟨c, hd1, hc, hhd1, hp⟩ := hpend (by omega)
              rw [canonical_linked_iff]
              subst h1
              refine ⟨c, hd1, by simpa using hc, by simpa using hhd1, ?_⟩
              intro _
              simp [hp]
            · rcases hrest h hh h1 with hl | ⟨hle, hnone⟩
              · left
                rw [canonical_linked_iff] at hl ⊢
                obtain ⟨c, hd1, hc, hhd1, hp⟩ := hl
                refine ⟨c, hd1, by simpa [hne2] using hc, by simpa using hhd1, ?_⟩
                intro hpos
                have : h - 1 ≠ j := by omega
                simpa [this] using hp hpos
              · right
                refine ⟨by omega, ?_⟩
                intro k hk1 hk2
                have : k ≠ j := by omega
                simpa [this] using hnone k hk1 (by omega)

theorem delete_down_to_loop_spec (up : Nat) :
    ∀ (n : Nat) (tx : RWTxn) (cache : LruCache),
      same_except_canonical tx (delete_down_to_loop up n tx cache).1 ∧
      ∀ h, read_canonical_hash (delete_down_to_loop up n tx cache).1 h
        = if up < h ∧ h ≤ n then none else read_canonical_hash tx h := by
  intro n
  induction n with
  | zero =>
    intro tx cache
    refine ⟨same_except_canonical_refl tx, ?_⟩
    intro h
    have : ¬ (up < h ∧ h ≤ 0) := by omega
    simp only [delete_down_to_loop]
    rw [if_neg this]
  | succ n ih =>
    intro tx cache
    simp only [delete_down_to_loop]
    by_cases hlt : up < n + 1
    · simp only [hlt, if_true]
      obtain ⟨hs, hc⟩ := ih (delete_canonical_hash tx (n + 1)) (cache.remove (n + 1))
      refine ⟨same_except_canonical_trans (same_except_canonical_delete tx (n + 1)) hs, ?_⟩
      intro h
      rw [hc h]
      by_cases h1 : up < h ∧ h ≤ n
      · have h2 : up < h ∧ h ≤ n + 1 := by omega
        rw [if_pos h1, if_pos h2]
      · rw [if_neg h1]
        by_cases h3 : h = n + 1
        · have h2 : up < h ∧ h ≤ n + 1 := by omega
          rw [if_pos h2]
          simp [h3]
        · have h2 : ¬ (up < h ∧ h ≤ n + 1) := by omega
          rw [if_neg h2]
          simp [h3]
    · simp only [hlt, if_false]
      refine ⟨same_except_canonical_refl tx, ?_⟩
      intro h
      have : ¬ (up < h ∧ h ≤ n + 1) := by omega
      simp [this]

theorem canonical_linked_of_same {tx tx1 : RWTxn} (hs : same_except_canonical tx tx1) {h : Nat}
    (h1 : read_canonical_hash tx1 h = read_canonical_hash tx h)
    (h2 : 0 < h → read_canonical_hash tx1 (h - 1) = read_canonical_hash tx (h - 1))
    (hl : canonical_linked tx h = true) : canonical_linked tx1 h = true := by
  rw [canonical_linked_iff] at hl ⊢
  obtain ⟨c, hdr, hc, hhd, hp⟩ := hl
  refine ⟨c, hdr, by rw [h1, hc], by rw [read_header_of_same hs, hhd], ?_⟩
  intro hpos
  rw [h2 hpos, hp hpos]

theorem update_up_to_keeps_invariant (cc : CanonicalChain) (hinv : canonical_invariant cc)
    (hno : no_canonical_above_head cc) (fuel height hash : Nat) (h64 : height < kTwo64)
    (cc1 : CanonicalChain) (hrun : update_up_to fuel cc height hash = .ok cc1) :
    canonical_invariant cc1 := by
  unfold update_up_to at hrun
  by_cases h0 : height = 0
  · simp only [h0, if_true, Except.ok.injEq] at hrun
    subst hrun
    exact hinv
  · simp only [h0, if_false] at hrun
    cases hloop : update_up_to_loop fuel cc.tx cc.canonical_cache height hash with
    | error e => simp [hloop] at hrun
    | ok r =>
      obtain ⟨tx1, cache1⟩ := r
      simp only [hloop, Except.ok.injEq] at hrun
      subst hrun
      intro h hh
      simp only at hh ⊢
      refine update_up_to_loop_linked height h64 fuel cc.tx cc.canonical_cache height hash tx1
        cache1 h64 (by omega) ?_ hloop h hh
      intro k hk _
      by_cases hkh : k ≤ cc.current_head.number
      · exact Or.inl (hinv k hkh)
      · right
        refine ⟨hk, ?_⟩
        intro m hm _
        exact hno m (by omega)

theorem delete_down_to_keeps_invariant (cc : CanonicalChain) (hinv : canonical_invariant cc)
    (hno : no_canonical_above_head cc) (unwind_point : Nat)
    (cc1 : CanonicalChain) (hrun : delete_down_to cc unwind_point = .ok cc1) :
    canonical_invariant cc1 := by
  unfold delete_down_to at hrun
  obtain ⟨hs, hc⟩ :=
    delete_down_to_loop_spec unwind_point cc.current_head.number cc.tx cc.canonical_cache
  cases hread : read_canonical_hash
      (delete_down_to_loop unwind_point cc.current_head.number cc.tx cc.canonical_cache).1
      unwind_point with
  | none => simp [hread] at hrun
  | some c =>
    simp only [hread, Except.ok.injEq] at hrun
    subst hrun
    have hup : unwind_point ≤ cc.current_head.number := by
      by_contra hgt
      have hn := hno unwind_point (by omega)
      rw [hc unwind_point] at hread
      have : ¬ (unwind_point < unwind_point ∧ unwind_point ≤ cc.current_head.number) := by omega
      rw [if_neg this, hn] at hread
      cases hread
    intro h hh
    simp only at hh ⊢
    refine canonical_linked_of_same hs ?_ ?_ (hinv h (by omega))
    · rw [hc h]
      have : ¬ (unwind_point < h ∧ h ≤ cc.current_head.number) := by omega
      rw [if_neg this]
    · intro _
      rw [hc (h - 1)]
      have : ¬ (unwind_point < h - 1 ∧ h - 1 ≤ cc.current_head.number) := by omega
      rw [if_neg this]


/-! ## Results of embedded calls -/

theorem returned_ok {α : Type} {r : Except Fault α} (h : returned r = true) : ∃ a, r = .ok a := by
  cases r with
  | error e => simp [returned] at h
  | ok a => exact ⟨a, rfl⟩

theorem lookup_none_of_gt (l : List (Nat × Nat)) (b : Nat) (hb : ∀ e ∈ l, e.1 ≤ b) (h : Nat) (hh : b < h) : l.lookup h = none := by
  induction l with
  | nil => rfl
  | cons e l ih =>
    obtain ⟨k, v⟩ := e
    have hk : k ≤ b := hb (k, v) (by simp)
    have hne : (h == k) = false := by
      simp only [beq_eq_false_iff_ne, ne_eq]
      omega
    simp only [List.lookup, hne]
    exact ih (fun e he => hb e (by simp [he]))

theorem genesis_chain_no_canonical_above_head : no_canonical_above_head genesis_chain := by
  intro h hh
  exact lookup_none_of_gt _ 0 (by decide) h hh

theorem read_canonical_hash_commit (tx : RWTxn) (n : Nat) :
    read_canonical_hash tx.commit n = read_canonical_hash tx n := by
  unfold RWTxn.commit read_canonical_hash
  split <;> rfl

/-! ## The loop of collect_bad_headers and the frame of find_forking_point -/

theorem collect_bad_headers_loop_ok (tx : RWTxn) (up : Nat) :
    ∀ (n : Nat) (acc s : Finset Nat), collect_bad_headers_loop tx up n acc = .ok s →
      (∀ h, up < h → h ≤ n → ∃ x, read_canonical_hash tx h = some x) ∧
      ∀ x, x ∈ s ↔ x ∈ acc ∨ ∃ h, up < h ∧ h ≤ n ∧ read_canonical_hash tx h = some x := by
  intro n
  induction n with
  | zero =>
    intro acc s hrun
    simp only [collect_bad_headers_loop, Except.ok.injEq] at hrun
    subst hrun
    refine ⟨fun h h1 h2 => by omega, fun x => ?_⟩
    constructor
    · intro hx; exact Or.inl hx
    · rintro (hx | ⟨h, h1, h2, _⟩)
      · exact hx
      · omega
  | succ n ih =>
    intro acc s hrun
    simp only [collect_bad_headers_loop] at hrun
    by_cases hlt : up < n + 1
    · simp only [hlt, if_true] at hrun
      cases hc : read_canonical_hash tx (n + 1) with
      | none => simp [hc] at hrun
      | some c =>
        simp only [hc] at hrun
        obtain ⟨hdef, hmem⟩ := ih _ _ hrun
        refine ⟨?_, fun x => ?_⟩
        · intro h h1 h2
          by_cases hn : h = n + 1
          · exact ⟨c, by rw [hn, hc]⟩
          · exact hdef h h1 (by omega)
        · rw [hmem x, Finset.mem_insert]
          constructor
          · rintro ((hx | hx) | ⟨h, h1, h2, h3⟩)
            · exact Or.inr ⟨n + 1, hlt, le_refl _, by rw [hc, hx]⟩
            · exact Or.inl hx
            · exact Or.inr ⟨h, h1, by omega, h3⟩
          · rintro (hx | ⟨h, h1, h2, h3⟩)
            · exact Or.inl (Or.inr hx)
            · by_cases hn : h = n + 1
              · left; left
                rw [hn, hc] at h3
                exact (Option.some.inj h3).symm
              · exact Or.inr ⟨h, h1, by omega, h3⟩
    · simp only [hlt, if_false, Except.ok.injEq] at hrun
      subst hrun
      refine ⟨fun h h1 h2 => by omega, fun x => ?_⟩
      constructor
      · intro hx; exact Or.inl hx
      · rintro (hx | ⟨h, h1, h2, _⟩)
        · exact hx
        · omega

theorem collect_bad_headers_loop_returns (tx : RWTxn) (up : Nat) :
    ∀ (n : Nat) (acc : Finset Nat),
      (∀ h, up < h → h ≤ n → ∃ x, read_canonical_hash tx h = some x) →
      ∃ s, collect_bad_headers_loop tx up n acc = .ok s := by
  intro n
  induction n with
  | zero => intro acc _; exact ⟨acc, rfl⟩
  | succ n ih =>
    intro acc hdef
    simp only [collect_bad_headers_loop]
    by_cases hlt : up < n + 1
    · obtain ⟨c, hc⟩ := hdef (n + 1) hlt (le_refl _)
      simp only [hlt, if_true, hc]
      exact ih _ (fun h h1 h2 => hdef h h1 (by omega))
    · simp only [hlt, if_false]
      exact ⟨acc, rfl⟩

theorem find_forking_point_frame (fuel : Nat) (cc : CanonicalChain) (header_hash : Nat)
    (fp : Nat) (cc1 : CanonicalChain)
    (hrun : find_forking_point fuel cc header_hash = .ok (fp, cc1)) :
    cc1.tx = cc.tx ∧ cc1.current_head = cc.current_head := by
  unfold find_forking_point at hrun
  split at hrun
  · cases hrun
  · split at hrun
    · simp only [Except.ok.injEq, Prod.mk.injEq] at hrun
      obtain ⟨_, rfl⟩ := hrun
      exact ⟨rfl, rfl⟩
    · simp only at hrun
      split at hrun
      · simp only [Except.ok.injEq, Prod.mk.injEq] at hrun
        obtain ⟨_, rfl⟩ := hrun
        exact ⟨rfl, rfl⟩
      · split at hrun
        · cases hrun
        · split at hrun
          · cases hrun
          · split at hrun
            · cases hrun
            · simp only [Except.ok.injEq, Prod.mk.injEq] at hrun
              obtain ⟨_, rfl⟩ := hrun
              exact ⟨rfl, rfl⟩

/-! ## verify_chain, step by step -/

theorem verify_chain_unfold {P : Type} (ops : Pipeline P) (fuel : Nat) (e : ExecutionEngine P)
    (head_block_hash : Nat) (v : VerificationResult) (e1 : ExecutionEngine P)
    (hrun : verify_chain ops fuel e head_block_hash = .ok (v, e1)) :
    ∃ header p cc, verify_chain_prepare ops fuel e head_block_hash = .ok (header, p, cc) ∧
      verify_chain_evaluate ops (ops.forward p cc.tx header.number).2.1
        { cc with tx := (ops.forward p cc.tx header.number).2.2 }
        (ops.forward p cc.tx header.number).1 = .ok v ∧
      e1.pipeline = (ops.forward p cc.tx header.number).2.1 ∧
      e1.canonical_chain.current_head = cc.current_head ∧
      e1.canonical_chain.tx.db = (ops.forward p cc.tx header.number).2.2.db ∧
      e1.canonical_status = v ∧
      e1.last_fork_choice = e.last_fork_choice ∧
      e1.is_first_sync = e.is_first_sync := by
  unfold verify_chain at hrun
  cases hprep : verify_chain_prepare ops fuel e head_block_hash with
  | error f => simp [hprep] at hrun
  | ok r =>
    obtain ⟨header, p, cc⟩ := r
    simp only [hprep] at hrun
    cases hev : verify_chain_evaluate ops (ops.forward p cc.tx header.number).2.1
        { cc with tx := (ops.forward p cc.tx header.number).2.2 }
        (ops.forward p cc.tx header.number).1 with
    | error f => simp [hev] at hrun
    | ok v1 =>
      simp only [hev, Except.ok.injEq, Prod.mk.injEq] at hrun
      obtain ⟨rfl, rfl⟩ := hrun
      refine ⟨header, p, cc, rfl, hev, rfl, rfl, ?_, rfl, rfl, rfl⟩
      simp only [RWTxn.commit_and_renew, RWTxn.commit, RWTxn.enable_commit]
      split <;> rfl

theorem check_root_and_flush_mismatch (o : TrieOracle) (txn : RWTxn) (r expected : Nat)
    (hne : r ≠ expected) :
    check_root_and_flush o txn (.ok r) expected = (StageResult.kWrongStateRoot, txn) := by
  simp [check_root_and_flush, hne]

/-! ## The chain on which verify_chain runs the pipeline -/

theorem canonical_linked_of_tables {tx tx1 : RWTxn} (h : same_chain_tables tx tx1) (n : Nat) :
    canonical_linked tx1 n = canonical_linked tx n := by
  unfold canonical_linked read_canonical_hash read_header
  rw [h.1, h.2]

theorem canonical_invariant_of_tables {cc cc1 : CanonicalChain}
    (h : same_chain_tables cc.tx cc1.tx) (hhead : cc1.current_head = cc.current_head)
    (hinv : canonical_invariant cc) : canonical_invariant cc1 := by
  intro n hn
  rw [canonical_linked_of_tables h]
  exact hinv n (by rw [← hhead]; exact hn)

theorem no_canonical_above_head_of_tables {cc cc1 : CanonicalChain}
    (h : same_chain_tables cc.tx cc1.tx) (hhead : cc1.current_head = cc.current_head)
    (hno : no_canonical_above_head cc) : no_canonical_above_head cc1 := by
  intro n hn
  have := hno n (by rw [← hhead]; exact hn)
  unfold read_canonical_hash at this ⊢
  rw [h.2]
  exact this

theorem same_chain_tables_refl (tx : RWTxn) : same_chain_tables tx tx := ⟨rfl, rfl⟩

theorem delete_down_to_keeps_no_canonical_above_head (cc : CanonicalChain)
    (hno : no_canonical_above_head cc) (unwind_point : Nat) (cc1 : CanonicalChain)
    (hrun : delete_down_to cc unwind_point = .ok cc1) : no_canonical_above_head cc1 := by
  unfold delete_down_to at hrun
  obtain ⟨_, hc⟩ :=
    delete_down_to_loop_spec unwind_point cc.current_head.number cc.tx cc.canonical_cache
  cases hread : read_canonical_hash
      (delete_down_to_loop unwind_point cc.current_head.number cc.tx cc.canonical_cache).1
      unwind_point with
  | none => simp [hread] at hrun
  | some c =>
    simp only [hread, Except.ok.injEq] at hrun
    subst hrun
    intro h hh
    simp only at hh ⊢
    rw [hc h]
    by_cases h1 : unwind_point < h ∧ h ≤ cc.current_head.number
    · rw [if_pos h1]
    · rw [if_neg h1]
      exact hno h (by omega)

theorem delete_down_to_head (cc : CanonicalChain) (unwind_point : Nat) (cc1 : CanonicalChain)
    (hrun : delete_down_to cc unwind_point = .ok cc1) :
    cc1.current_head.number = unwind_point ∧ same_except_canonical cc.tx cc1.tx := by
  unfold delete_down_to at hrun
  obtain ⟨hs, _⟩ :=
    delete_down_to_loop_spec unwind_point cc.current_head.number cc.tx cc.canonical_cache
  cases hread : read_canonical_hash
      (delete_down_to_loop unwind_point cc.current_head.number cc.tx cc.canonical_cache).1
      unwind_point with
  | none => simp [hread] at hrun
  | some c =>
    simp only [hread, Except.ok.injEq] at hrun
    subst hrun
    exact ⟨rfl, hs⟩

theorem update_up_to_loop_same (fuel : Nat) :
    ∀ (tx : RWTxn) (cache : LruCache) (j a : Nat) (tx1 : RWTxn) (cache1 : LruCache),
      update_up_to_loop fuel tx cache j a = .ok (tx1, cache1) → same_except_canonical tx tx1 := by
  induction fuel with
  | zero => intro tx cache j a tx1 cache1 hrun; simp [update_up_to_loop] at hrun
  | succ n ih =>
    intro tx cache j a tx1 cache1 hrun
    simp only [update_up_to_loop] at hrun
    split at hrun
    · simp only [read_header_write] at hrun
      split at hrun
      · cases hrun
      · exact same_except_canonical_trans (same_except_canonical_write tx j a) (ih _ _ _ _ _ _ hrun)
    · simp only [Except.ok.injEq, Prod.mk.injEq] at hrun
      rw [← hrun.1]
      exact same_except_canonical_refl tx

/-- The loop of `update_up_to` leaves the entry it starts from in place: once the walk is
below `height`, the canonical hash at `height` is not written again. -/
theorem update_up_to_loop_keeps_top (height hash : Nat) (fuel : Nat) :
    ∀ (tx : RWTxn) (cache : LruCache) (j a : Nat) (tx1 : RWTxn) (cache1 : LruCache),
      headers_well_formed tx → (j < height ∨ j = kTwo64 - 1) →
      read_canonical_hash tx height = some hash →
      update_up_to_loop fuel tx cache j a = .ok (tx1, cache1) →
      read_canonical_hash tx1 height = some hash := by
  induction fuel with
  | zero => intro tx cache j a tx1 cache1 _ _ _ hrun; simp [update_up_to_loop] at hrun
  | succ n ih =>
    intro tx cache j a tx1 cache1 hwf hj htop hrun
    simp only [update_up_to_loop] at hrun
    split at hrun
    · simp only [read_header_write] at hrun
      cases hh : read_header tx j a with
      | none => simp [hh] at hrun
      | some hdr =>
        simp only [hh] at hrun
        have hjlt := (hwf j a hdr hh).2
        have hjh : j < height := by
          rcases hj with h | h
          · exact h
          · omega
        have hwf1 : headers_well_formed (write_canonical_hash tx j a) := by
          intro m x header hm
          exact hwf m x header (by simpa using hm)
        refine ih _ _ _ _ _ _ hwf1 ?_ ?_ hrun
        · by_cases h0 : j = 0
          · right
            subst h0
            unfold dec64 kTwo64
            omega
          · left
            rw [dec64_of_pos (by omega) (by unfold kTwo64 at *; omega)]
            omega
        · have : height ≠ j := by omega
          simpa [this] using htop
    · simp only [Except.ok.injEq, Prod.mk.injEq] at hrun
      rw [← hrun.1]
      exact htop

theorem update_up_to_head (fuel : Nat) (cc : CanonicalChain) (height hash : Nat)
    (hwf : headers_well_formed cc.tx) (hpos : 0 < height) (cc1 : CanonicalChain)
    (hrun : update_up_to fuel cc height hash = .ok cc1) :
    cc1.current_head = ⟨height, hash⟩ ∧ read_canonical_hash cc1.tx height = some hash := by
  unfold update_up_to at hrun
  have h0 : height ≠ 0 := by omega
  simp only [h0, if_false] at hrun
  cases hloop : update_up_to_loop fuel cc.tx cc.canonical_cache height hash with
  | error e => simp [hloop] at hrun
  | ok r =>
    obtain ⟨tx1, cache1⟩ := r
    simp only [hloop, Except.ok.injEq] at hrun
    subst hrun
    refine ⟨rfl, ?_⟩
    show read_canonical_hash tx1 height = some hash
    -- the first iteration
    cases fuel with
    | zero => simp [update_up_to_loop] at hloop
    | succ n =>
      simp only [update_up_to_loop] at hloop
      split at hloop
      · simp only [read_header_write] at hloop
        cases hh : read_header cc.tx height hash with
        | none => simp [hh] at hloop
        | some hdr =>
          simp only [hh] at hloop
          have hjlt := (hwf height hash hdr hh).2
          have hwf1 : headers_well_formed (write_canonical_hash cc.tx height hash) := by
            intro m x header hm
            exact hwf m x header (by simpa using hm)
          refine update_up_to_loop_keeps_top height hash n _ _ _ _ _ _ hwf1 ?_ (by simp) hloop
          left
          rw [dec64_of_pos hpos (by unfold kTwo64 at *; omega)]
          omega
      · rename_i hagree
        simp only [Except.ok.injEq, Prod.mk.injEq] at hloop
        rw [← hloop.1]
        simpa using hagree

theorem headers_of_same_except_canonical {tx tx1 : RWTxn} (h : same_except_canonical tx tx1) :
    tx1.db.headers = tx.db.headers := by
  unfold same_except_canonical at h
  rw [h]

theorem headers_well_formed_of_headers {tx tx1 : RWTxn} (h : tx1.db.headers = tx.db.headers)
    (hwf : headers_well_formed tx) : headers_well_formed tx1 := by
  intro n x header hn
  apply hwf n x header
  unfold read_header at hn ⊢
  rw [← h]
  exact hn

theorem update_up_to_same (fuel : Nat) (cc : CanonicalChain) (height hash : Nat)
    (cc1 : CanonicalChain) (hrun : update_up_to fuel cc height hash = .ok cc1) :
    same_except_canonical cc.tx cc1.tx := by
  unfold update_up_to at hrun
  split at hrun
  · simp only [Except.ok.injEq] at hrun
    rw [← hrun]
    exact same_except_canonical_refl _
  · cases hloop : update_up_to_loop fuel cc.tx cc.canonical_cache height hash with
    | error e => simp [hloop] at hrun
    | ok r =>
      obtain ⟨tx1, cache1⟩ := r
      simp only [hloop, Except.ok.injEq] at hrun
      rw [← hrun]
      exact update_up_to_loop_same fuel _ _ _ _ _ _ hloop

theorem find_forking_point_genesis (fuel : Nat) (cc : CanonicalChain) (header_hash : Nat)
    (header : BlockHeader) (hh : read_header_by_hash cc.tx header_hash = some header)
    (h0 : header.number = 0) (fp : Nat) (cc1 : CanonicalChain)
    (hrun : find_forking_point fuel cc header_hash = .ok (fp, cc1)) : fp = 0 := by
  unfold find_forking_point at hrun
  simp only [hh, h0, if_true, Except.ok.injEq, Prod.mk.injEq] at hrun
  exact hrun.1.symm

/-- The chain on which `verify_chain` calls `pipeline_.forward` satisfies the invariant of the
canonical chain, and its head, when above the genesis, is the block to verify, stored as the
canonical hash at its height. -/
theorem verify_chain_prepare_spec {P : Type} (ops : Pipeline P) (fuel : Nat)
    (e : ExecutionEngine P) (head_block_hash : Nat)
    (hunwind : ∀ p tx n, same_chain_tables tx (ops.unwind p tx n).2.2)
    (hinv : canonical_invariant e.canonical_chain)
    (hno : no_canonical_above_head e.canonical_chain)
    (hwf : headers_well_formed e.canonical_chain.tx)
    (header : BlockHeader) (p : P) (cc : CanonicalChain)
    (hrun : verify_chain_prepare ops fuel e head_block_hash = .ok (header, p, cc)) :
    canonical_invariant cc ∧
    (0 < cc.current_head.number →
      cc.current_head.hash = head_block_hash ∧
      read_canonical_hash cc.tx cc.current_head.number = some head_block_hash) := by
  unfold verify_chain_prepare at hrun
  cases hget : e.get_header head_block_hash with
  | none => simp [hget] at hrun
  | some hdr =>
    simp only [hget] at hrun
    -- the header read has a number below 2^64
    have hnum : hdr.number < kTwo64 := by
      unfold ExecutionEngine.get_header read_header_by_hash at hget
      cases hbn : read_block_number e.canonical_chain.tx head_block_hash with
      | none => simp [hbn] at hget
      | some bn =>
        simp only [hbn] at hget
        have := hwf bn head_block_hash hdr hget
        omega
    -- the chain after the commit policy is applied
    have hcc0 : ∃ cc0 : CanonicalChain,
        (if e.is_first_sync = true then e.canonical_chain
          else { e.canonical_chain with tx := e.canonical_chain.tx.disable_commit }) = cc0 ∧
        same_chain_tables e.canonical_chain.tx cc0.tx ∧
        cc0.current_head = e.canonical_chain.current_head ∧
        read_header_by_hash cc0.tx head_block_hash = some hdr := by
      refine ⟨_, rfl, ?_⟩
      split
      · exact ⟨same_chain_tables_refl _, rfl, hget⟩
      · exact ⟨⟨rfl, rfl⟩, rfl, hget⟩
    obtain ⟨cc0, hcc0, ht0, hh0, hget0⟩ := hcc0
    rw [hcc0] at hrun
    have hinv0 := canonical_invariant_of_tables ht0 hh0 hinv
    have hno0 := no_canonical_above_head_of_tables ht0 hh0 hno
    have hwf0 := headers_well_formed_of_headers ht0.1 hwf
    cases hfp : find_forking_point fuel cc0 head_block_hash with
    | error f => simp [hfp] at hrun
    | ok r =>
      obtain ⟨fp, cc1⟩ := r
      simp only [hfp] at hrun
      obtain ⟨htx1, hhead1⟩ := find_forking_point_frame fuel cc0 head_block_hash fp cc1 hfp
      have ht1 : same_chain_tables cc0.tx cc1.tx := by rw [htx1]; exact same_chain_tables_refl _
      have hinv1 := canonical_invariant_of_tables ht1 hhead1 hinv0
      have hno1 := no_canonical_above_head_of_tables ht1 hhead1 hno0
      have hwf1 := headers_well_formed_of_headers ht1.1 hwf0
      have hfp0 : hdr.number = 0 → fp = 0 := fun h0 =>
        find_forking_point_genesis fuel cc0 head_block_hash hdr hget0 h0 fp cc1 hfp
      -- the common end: `update_up_to` on a chain that satisfies the invariants
      have hend : ∀ cc2 cc3 : CanonicalChain, canonical_invariant cc2 →
          no_canonical_above_head cc2 → headers_well_formed cc2.tx →
          (hdr.number = 0 → cc2.current_head.number = 0) →
          update_up_to fuel cc2 hdr.number head_block_hash = .ok cc3 →
          canonical_invariant cc3 ∧
          (0 < cc3.current_head.number →
            cc3.current_head.hash = head_block_hash ∧
            read_canonical_hash cc3.tx cc3.current_head.number = some head_block_hash) := by
        intro cc2 cc3 hi hn hw hz hup
        refine ⟨update_up_to_keeps_invariant cc2 hi hn fuel hdr.number head_block_hash hnum cc3
          hup, ?_⟩
        intro hpos
        by_cases h0 : hdr.number = 0
        · exfalso
          have : cc3 = cc2 := by
            unfold update_up_to at hup
            simp only [h0, if_true, Except.ok.injEq] at hup
            exact hup.symm
          rw [this, hz h0] at hpos
          omega
        · obtain ⟨hhd, hcan⟩ :=
            update_up_to_head fuel cc2 hdr.number head_block_hash hw (by omega) cc3 hup
          rw [hhd]
          exact ⟨rfl, hcan⟩
      by_cases hlt : fp < cc1.current_head.number
      · simp only [hlt, if_true] at hrun
        split at hrun
        · cases hrun
        · cases hdel : delete_down_to
              { cc1 with tx := (ops.unwind e.pipeline cc1.tx fp).2.2 } fp with
          | error f => simp [hdel] at hrun
          | ok cc2 =>
            simp only [hdel] at hrun
            cases hup : update_up_to fuel cc2 hdr.number head_block_hash with
            | error f => simp [hup] at hrun
            | ok cc3 =>
              simp only [hup, Except.ok.injEq, Prod.mk.injEq] at hrun
              obtain ⟨_, _, rfl⟩ := hrun
              have htu : same_chain_tables cc1.tx
                  ({ cc1 with tx := (ops.unwind e.pipeline cc1.tx fp).2.2 } : CanonicalChain).tx :=
                hunwind e.pipeline cc1.tx fp
              have hinvu := canonical_invariant_of_tables htu rfl hinv1
              have hnou := no_canonical_above_head_of_tables htu rfl hno1
              have hwfu := headers_well_formed_of_headers htu.1 hwf1
              obtain ⟨hnum2, hsame2⟩ := delete_down_to_head _ fp cc2 hdel
              exact hend cc2 cc3
                (delete_down_to_keeps_invariant _ hinvu hnou fp cc2 hdel)
                (delete_down_to_keeps_no_canonical_above_head _ hnou fp cc2 hdel)
                (headers_well_formed_of_headers (headers_of_same_except_canonical hsame2) hwfu)
                (fun h0 => by rw [hnum2]; exact hfp0 h0) hup
      · simp only [hlt, if_false] at hrun
        cases hup : update_up_to fuel cc1 hdr.number head_block_hash with
        | error f => simp [hup] at hrun
        | ok cc3 =>
          simp only [hup, Except.ok.injEq, Prod.mk.injEq] at hrun
          obtain ⟨_, _, rfl⟩ := hrun
          exact hend cc1 cc3 hinv1 hno1 hwf1
            (fun h0 => by have := hfp0 h0; omega) hup

theorem canonical_defined_of_linked {tx : RWTxn} {h : Nat} (hl : canonical_linked tx h = true) :
    ∃ x, read_canonical_hash tx h = some x := by
  rw [canonical_linked_iff] at hl
  obtain ⟨c, _, hc, _⟩ := hl
  exact ⟨c, hc⟩

/-- What an `InvalidChain` verdict of the `switch` of `verify_chain` is made of. -/
theorem verify_chain_evaluate_invalid {P : Type} (ops : Pipeline P) (p : P) (cc : CanonicalChain)
    (r : StageResult) (ic : InvalidChain)
    (hev : verify_chain_evaluate ops p cc r = .ok (.InvalidChain ic)) :
    ops.unwind_point p = some ic.unwind_point ∧
    ic.bad_block = ops.bad_block p ∧
    collect_bad_headers cc { ic with bad_headers := ∅ } = .ok ic.bad_headers := by
  have hev2 : (match ops.unwind_point p with
      | none => (.error .logic_error : Except Fault VerificationResult)
      | some unwind_point =>
        match CanonicalChain.get_hash cc unwind_point with
        | none => .error .bad_optional
        | some unwind_head =>
          match ops.bad_block p with
          | none => .ok (.InvalidChain ⟨unwind_point, unwind_head, none, ∅⟩)
          | some bad_block =>
            match collect_bad_headers cc ⟨unwind_point, unwind_head, some bad_block, ∅⟩ with
            | .error f => .error f
            | .ok bad_headers =>
              .ok (.InvalidChain ⟨unwind_point, unwind_head, some bad_block, bad_headers⟩))
      = .ok (.InvalidChain ic) := by
    cases r <;> first
      | exact hev
      | (simp only [verify_chain_evaluate] at hev
         first
           | (split at hev <;> cases hev)
           | cases hev)
  cases hup : ops.unwind_point p with
  | none => simp [hup] at hev2
  | some up =>
    simp only [hup] at hev2
    cases hh : CanonicalChain.get_hash cc up with
    | none => simp [hh] at hev2
    | some uh =>
      simp only [hh] at hev2
      cases hb : ops.bad_block p with
      | none =>
        simp only [hb, Except.ok.injEq, VerificationResult.InvalidChain.injEq] at hev2
        subst hev2
        exact ⟨rfl, rfl, rfl⟩
      | some b =>
        simp only [hb] at hev2
        cases hc : collect_bad_headers cc ⟨up, uh, some b, ∅⟩ with
        | error f => simp [hc] at hev2
        | ok hs =>
          simp only [hc, Except.ok.injEq, VerificationResult.InvalidChain.injEq] at hev2
          subst hev2
          exact ⟨rfl, rfl, hc⟩

theorem txn_of_headers_well_formed (headers : List (Nat × Nat × Nat × Nat))
    (canonical : List (Nat × Nat)) (hbound : ∀ e ∈ headers, e.1 < kTwo64 - 1) :
    headers_well_formed (txn_of headers canonical) := by
  intro n x header hh
  simp only [read_header, txn_of, Option.map_eq_some'] at hh
  obtain ⟨entry, hfind, hmk⟩ := hh
  have hp := List.find?_some hfind
  have hmem := List.mem_of_find?_eq_some hfind
  simp only [Bool.and_eq_true, beq_iff_eq] at hp
  subst hmk
  exact ⟨hp.1, by rw [← hp.1]; exact hbound entry hmem⟩

theorem four_headers_bounded : ∀ e ∈ four_headers, e.1 < kTwo64 - 1 := by
  decide

/-- The bad headers of an `InvalidChain` verdict that `verify_chain` returned. -/
theorem bad_headers_of_invalid_verdict {P : Type} (ops : Pipeline P) (fuel : Nat)
    (e : ExecutionEngine P) (head_block_hash : Nat)
    (hforward : ∀ p tx n, same_chain_tables tx (ops.forward p tx n).2.2)
    (hunwind : ∀ p tx n, same_chain_tables tx (ops.unwind p tx n).2.2)
    (hinv : canonical_invariant e.canonical_chain)
    (hno : no_canonical_above_head e.canonical_chain)
    (hwf : headers_well_formed e.canonical_chain.tx)
    (ic : InvalidChain) (e1 : ExecutionEngine P)
    (hrun : verify_chain ops fuel e head_block_hash = .ok (.InvalidChain ic, e1)) :
    (ops.bad_block e1.pipeline = none → ic.bad_headers = ∅) ∧
    ((ops.bad_block e1.pipeline).isSome = true →
      (∀ x, x ∈ ic.bad_headers ↔
        ∃ h, ic.unwind_point < h ∧ h ≤ e1.canonical_chain.current_head.number ∧
          read_canonical_hash e1.canonical_chain.tx h = some x) ∧
      (ic.unwind_point < e1.canonical_chain.current_head.number →
        head_block_hash ∈ ic.bad_headers)) ∧
    (∀ h, ic.unwind_point < h → h ≤ e1.canonical_chain.current_head.number →
      ∃ x, read_canonical_hash e1.canonical_chain.tx h = some x) := by
  obtain ⟨header, p, cc, hprep, hev, hp, hhead, hdb, _, _, _⟩ :=
    verify_chain_unfold ops fuel e head_block_hash _ e1 hrun
  obtain ⟨hinvcc, htop⟩ :=
    verify_chain_prepare_spec ops fuel e head_block_hash hunwind hinv hno hwf header p cc hprep
  obtain ⟨_, hbad, hcollect⟩ := verify_chain_evaluate_invalid ops _ _ _ ic hev
  have hframe : same_chain_tables cc.tx (ops.forward p cc.tx header.number).2.2 :=
    hforward p cc.tx header.number
  -- the canonical hashes of the final transaction are those the pipeline was run on
  have hcan : ∀ n, read_canonical_hash e1.canonical_chain.tx n = read_canonical_hash cc.tx n := by
    intro n
    unfold read_canonical_hash
    rw [hdb, hframe.2]
  have hcan4 : ∀ n, read_canonical_hash (ops.forward p cc.tx header.number).2.2 n
      = read_canonical_hash cc.tx n := by
    intro n
    unfold read_canonical_hash
    rw [hframe.2]
  have hdef : ∀ h, h ≤ e1.canonical_chain.current_head.number →
      ∃ x, read_canonical_hash e1.canonical_chain.tx h = some x := by
    intro h hh
    rw [hcan h]
    exact canonical_defined_of_linked (hinvcc h (by rw [← hhead]; exact hh))
  rw [hp]
  refine ⟨?_, ?_, fun h _ h2 => hdef h h2⟩
  · intro hnone
    rw [hnone] at hbad
    simp only [collect_bad_headers, hbad, Except.ok.injEq] at hcollect
    exact hcollect.symm
  · intro hsome
    obtain ⟨b, hb⟩ := Option.isSome_iff_exists.mp hsome
    rw [hb] at hbad
    simp only [collect_bad_headers, hbad] at hcollect
    obtain ⟨_, hmem⟩ := collect_bad_headers_loop_ok _ _ _ _ _ hcollect
    have hmem2 : ∀ x, x ∈ ic.bad_headers ↔
        ∃ h, ic.unwind_point < h ∧ h ≤ e1.canonical_chain.current_head.number ∧
          read_canonical_hash e1.canonical_chain.tx h = some x := by
      intro x
      rw [hmem x]
      constructor
      · rintro (hx | ⟨h, h1, h2, h3⟩)
        · simp at hx
        · exact ⟨h, h1, by rw [hhead]; exact h2, by rw [hcan h, ← hcan4 h]; exact h3⟩
      · rintro ⟨h, h1, h2, h3⟩
        exact Or.inr ⟨h, h1, by rw [← hhead]; exact h2, by rw [hcan4 h, ← hcan h]; exact h3⟩
    refine ⟨hmem2, ?_⟩
    intro hlt
    rw [hmem2]
    have hpos : 0 < cc.current_head.number := by rw [← hhead]; omega
    refine ⟨e1.canonical_chain.current_head.number, hlt, le_refl _, ?_⟩
    rw [hcan, hhead]
    exact (htop hpos).2

theorem verify_chain_evaluate_returns_invalid {P : Type} (ops : Pipeline P) (p : P)
    (cc : CanonicalChain) (r : StageResult)
    (hfail : r = StageResult.kWrongFork ∨ r = StageResult.kInvalidBlock ∨
      r = StageResult.kWrongStateRoot)
    (unwind_point : Nat) (hup : ops.unwind_point p = some unwind_point)
    (hdef : ∀ h, h ≤ cc.current_head.number → ∃ x, read_canonical_hash cc.tx h = some x)
    (hle : unwind_point ≤ cc.current_head.number) :
    ∃ ic, verify_chain_evaluate ops p cc r = .ok (.InvalidChain ic) ∧
      ic.unwind_point = unwind_point := by
  obtain ⟨uh, huh⟩ := hdef unwind_point hle
  have hget : cc.get_hash unwind_point = some uh := huh
  have key : (match ops.unwind_point p with
      | none => (.error .logic_error : Except Fault VerificationResult)
      | some unwind_point =>
        match CanonicalChain.get_hash cc unwind_point with
        | none => .error .bad_optional
        | some unwind_head =>
          match ops.bad_block p with
          | none => .ok (.InvalidChain ⟨unwind_point, unwind_head, none, ∅⟩)
          | some bad_block =>
            match collect_bad_headers cc ⟨unwind_point, unwind_head, some bad_block, ∅⟩ with
            | .error f => .error f
            | .ok bad_headers =>
              .ok (.InvalidChain ⟨unwind_point, unwind_head, some bad_block, bad_headers⟩))
      = verify_chain_evaluate ops p cc r := by
    rcases hfail with rfl | rfl | rfl <;> rfl
  rw [← key]
  simp only [hup, hget]
  cases hb : ops.bad_block p with
  | none => exact ⟨_, rfl, rfl⟩
  | some b =>
    obtain ⟨s, hs⟩ := collect_bad_headers_loop_returns cc.tx unwind_point
      cc.current_head.number ∅ (fun h _ h2 => hdef h h2)
    have hc : collect_bad_headers cc ⟨unwind_point, uh, some b, ∅⟩ = .ok s := by
      simp only [collect_bad_headers]
      exact hs
    simp only [hc]
    exact ⟨_, rfl, rfl⟩

/-! ## C1: the invariant of the canonical chain -/

/-- C1, as stated, fails. Starting from the chain `100 ← 101 ← 102` with head `(2, 102)`, which
satisfies the invariant, the calls `update_up_to(1, 101)`, `delete_down_to(0)` and
`update_up_to(3, 103)` all return normally, each on a state that satisfies the invariant and
for a header stored with all its ancestors; the canonical entry at height `2` survives the
first two calls, the third call stops at it, and the final state has head `(3, 103)` but no
canonical hash at height `1`. -/
theorem canonical_invariant_counterexample :
    canonical_invariant three_block_chain ∧
    ∃ c1 c2 c3, update_up_to 4 three_block_chain 1 101 = .ok c1 ∧ canonical_invariant c1 ∧
      delete_down_to c1 0 = .ok c2 ∧ canonical_invariant c2 ∧
      (nth_ancestor c2.tx 3 103 4).isSome = true ∧
      update_up_to 4 c2 3 103 = .ok c3 ∧
      c3.current_head.number = 3 ∧ read_canonical_hash c3.tx 1 = none ∧
      ¬ canonical_invariant c3 := by
  refine ⟨by decide, _, _, _, rfl, by decide, rfl, by decide, by decide, rfl, rfl, rfl, by decide⟩

/-- C1, amended. From a state that satisfies the invariant of the canonical chain and in which
no canonical hash is stored above the current head, every `update_up_to(height, hash)` and
every `delete_down_to(unwind_point)` that returns normally leaves a state that satisfies the
invariant: every height up to the new head has a canonical hash whose header is stored and
whose parent hash is the canonical hash one below. -/
theorem canonical_invariant_preserved (cc : CanonicalChain)
    (hinv : canonical_invariant cc) (hno : no_canonical_above_head cc) :
    (∀ fuel height hash cc1, height < kTwo64 →
        update_up_to fuel cc height hash = .ok cc1 → canonical_invariant cc1) ∧
    (∀ unwind_point cc1,
        delete_down_to cc unwind_point = .ok cc1 → canonical_invariant cc1) :=
  ⟨fun fuel height hash cc1 h64 hrun =>
      update_up_to_keeps_invariant cc hinv hno fuel height hash h64 cc1 hrun,
   fun unwind_point cc1 hrun =>
      delete_down_to_keeps_invariant cc hinv hno unwind_point cc1 hrun⟩

theorem canonical_invariant_preserved_witness :
    canonical_invariant genesis_chain ∧ no_canonical_above_head genesis_chain ∧
    (∃ cc1, update_up_to 4 genesis_chain 3 103 = .ok cc1 ∧ canonical_invariant cc1) ∧
    (∃ cc1, delete_down_to genesis_chain 0 = .ok cc1 ∧ canonical_invariant cc1) := by
  have hinv : canonical_invariant genesis_chain := by decide
  have hno := genesis_chain_no_canonical_above_head
  obtain ⟨c1, h1⟩ := returned_ok (r := update_up_to 4 genesis_chain 3 103) (by decide)
  obtain ⟨c2, h2⟩ := returned_ok (r := delete_down_to genesis_chain 0) (by decide)
  exact ⟨hinv, hno,
    ⟨c1, h1, (canonical_invariant_preserved genesis_chain hinv hno).1 4 3 103 c1 (by decide) h1⟩,
    ⟨c2, h2, (canonical_invariant_preserved genesis_chain hinv hno).2 0 c2 h2⟩⟩


/-! ## C2: find_forking_point -/

/-- C2 fails on the code. With the genesis `100` as the only canonical block and the headers
`101 ← 102 ← 103` stored above it, the only canonical ancestor of `103` is the genesis at
height `0`, yet `find_forking_point(103)` returns `1` whatever the fuel: no canonical hash is
stored at the heights `1` and `2`, and both loops stop at once at the height `3 - 2` because
the lookup there finds nothing, not because it finds the ancestor. -/
theorem find_forking_point_above_head :
    (nth_ancestor genesis_chain.tx 3 103 4).isSome = true ∧
    read_canonical_hash genesis_chain.tx 0 = ancestor_at genesis_chain.tx 3 103 0 ∧
    read_canonical_hash genesis_chain.tx 1 ≠ ancestor_at genesis_chain.tx 3 103 1 ∧
    read_canonical_hash genesis_chain.tx 2 ≠ ancestor_at genesis_chain.tx 3 103 2 ∧
    ∀ fuel, ∃ cc1, find_forking_point (fuel + 1) genesis_chain 103 = .ok (1, cc1) := by
  refine ⟨by decide, by decide, by decide, by decide, ?_⟩
  intro fuel
  exact ⟨_, rfl⟩

/-! ## C3: update_up_to -/

/-- C4. If the canonical hash `c` at `unwind_point` exists, `delete_down_to(unwind_point)`
returns; afterwards no canonical hash is stored at any `h` with
`unwind_point < h ≤ old current_head.number`, the canonical hashes at the heights
`≤ unwind_point` are unchanged, and the current head is `(unwind_point, c)`, `c` still being
the canonical hash at `unwind_point`. If no canonical hash exists at `unwind_point`, the call
fails with the invariant violation. -/
theorem delete_down_to_spec (cc : CanonicalChain) (unwind_point : Nat) :
    (∀ c, read_canonical_hash cc.tx unwind_point = some c →
      ∃ cc1, delete_down_to cc unwind_point = .ok cc1 ∧
        (∀ h, unwind_point < h → h ≤ cc.current_head.number →
            read_canonical_hash cc1.tx h = none) ∧
        (∀ h, h ≤ unwind_point → read_canonical_hash cc1.tx h = read_canonical_hash cc.tx h) ∧
        cc1.current_head = ⟨unwind_point, c⟩ ∧
        read_canonical_hash cc1.tx unwind_point = some c) ∧
    (read_canonical_hash cc.tx unwind_point = none →
      delete_down_to cc unwind_point = .error .logic_error) := by
  obtain ⟨_, hc⟩ :=
    delete_down_to_loop_spec unwind_point cc.current_head.number cc.tx cc.canonical_cache
  have hup : read_canonical_hash
      (delete_down_to_loop unwind_point cc.current_head.number cc.tx cc.canonical_cache).1
      unwind_point = read_canonical_hash cc.tx unwind_point := by
    rw [hc unwind_point]
    have : ¬ (unwind_point < unwind_point ∧ unwind_point ≤ cc.current_head.number) := by omega
    rw [if_neg this]
  constructor
  · intro c hread
    refine ⟨{ cc with
        tx := (delete_down_to_loop unwind_point cc.current_head.number cc.tx
          cc.canonical_cache).1,
        canonical_cache := (delete_down_to_loop unwind_point cc.current_head.number cc.tx
          cc.canonical_cache).2,
        current_head := ⟨unwind_point, c⟩ }, by simp only [delete_down_to, hup, hread],
      ?_, ?_, rfl, ?_⟩
    · intro h h1 h2
      show read_canonical_hash (delete_down_to_loop unwind_point cc.current_head.number cc.tx
        cc.canonical_cache).1 h = none
      rw [hc h, if_pos ⟨h1, h2⟩]
    · intro h h1
      show read_canonical_hash (delete_down_to_loop unwind_point cc.current_head.number cc.tx
        cc.canonical_cache).1 h = _
      have : ¬ (unwind_point < h ∧ h ≤ cc.current_head.number) := by omega
      rw [hc h, if_neg this]
    · show read_canonical_hash (delete_down_to_loop unwind_point cc.current_head.number cc.tx
        cc.canonical_cache).1 unwind_point = _
      rw [hup, hread]
  · intro hread
    simp only [delete_down_to, hup, hread]

theorem delete_down_to_spec_witness :
    (read_canonical_hash three_block_chain.tx 0 = some 100 ∧
      ∃ cc1, delete_down_to three_block_chain 0 = .ok cc1 ∧
        (∀ h, 0 < h → h ≤ 2 → read_canonical_hash cc1.tx h = none) ∧
        (∀ h, h ≤ 0 →
          read_canonical_hash cc1.tx h = read_canonical_hash three_block_chain.tx h) ∧
        cc1.current_head = ⟨0, 100⟩ ∧ read_canonical_hash cc1.tx 0 = some 100) ∧
    (read_canonical_hash three_block_chain.tx 7 = none ∧
      delete_down_to three_block_chain 7 = .error .logic_error) :=
  ⟨⟨rfl, (delete_down_to_spec three_block_chain 0).1 100 rfl⟩,
   ⟨rfl, (delete_down_to_spec three_block_chain 7).2 rfl⟩⟩

/-! ## C5: the verdict of verify_chain -/

/-- C5. Whenever `verify_chain` returns a verdict, the verdict is determined by the result of
`pipeline_.forward` on the prepared chain: `kSuccess` gives `ValidChain{pipeline head
number}`; `kWrongFork`, `kInvalidBlock` and `kWrongStateRoot` give an `InvalidChain` whose
`unwind_point` is the unwind point of the pipeline and whose `unwind_head` is the canonical
hash at that height; `kStoppedByEnv` gives `ValidChain{pipeline head number}`; every other
result gives `ValidationError{pipeline head number}`. The verdict is what `current_status()`
reports afterwards. -/
theorem verify_chain_verdict {P : Type} (ops : Pipeline P) (fuel : Nat) (e : ExecutionEngine P)
    (head_block_hash : Nat) (v : VerificationResult) (e1 : ExecutionEngine P)
    (hrun : verify_chain ops fuel e head_block_hash = .ok (v, e1)) :
    ∃ header p cc, verify_chain_prepare ops fuel e head_block_hash = .ok (header, p, cc) ∧
      e1.pipeline = (ops.forward p cc.tx header.number).2.1 ∧
      (∀ n, read_canonical_hash e1.canonical_chain.tx n
        = read_canonical_hash (ops.forward p cc.tx header.number).2.2 n) ∧
      ((ops.forward p cc.tx header.number).1 = StageResult.kSuccess →
        v = .ValidChain (ops.head_header_number e1.pipeline)) ∧
      ((ops.forward p cc.tx header.number).1 = StageResult.kWrongFork ∨
        (ops.forward p cc.tx header.number).1 = StageResult.kInvalidBlock ∨
        (ops.forward p cc.tx header.number).1 = StageResult.kWrongStateRoot →
        ∃ ic, v = .InvalidChain ic ∧ ops.unwind_point e1.pipeline = some ic.unwind_point ∧
          read_canonical_hash e1.canonical_chain.tx ic.unwind_point = some ic.unwind_head) ∧
      ((ops.forward p cc.tx header.number).1 = StageResult.kStoppedByEnv →
        v = .ValidChain (ops.head_header_number e1.pipeline)) ∧
      ((ops.forward p cc.tx header.number).1 ≠ StageResult.kSuccess →
        (ops.forward p cc.tx header.number).1 ≠ StageResult.kWrongFork →
        (ops.forward p cc.tx header.number).1 ≠ StageResult.kInvalidBlock →
        (ops.forward p cc.tx header.number).1 ≠ StageResult.kWrongStateRoot →
        (ops.forward p cc.tx header.number).1 ≠ StageResult.kStoppedByEnv →
        v = .ValidationError (ops.head_header_number e1.pipeline)) ∧
      e1.current_status = v := by
  obtain ⟨header, p, cc, hprep, hev, hp, _, hdb, hst, _, _⟩ :=
    verify_chain_unfold ops fuel e head_block_hash v e1 hrun
  have hcan : ∀ n, read_canonical_hash e1.canonical_chain.tx n
      = read_canonical_hash (ops.forward p cc.tx header.number).2.2 n := by
    intro n
    unfold read_canonical_hash
    rw [hdb]
  refine ⟨header, p, cc, hprep, hp, hcan, ?_, ?_, ?_, ?_, hst⟩
  · intro hr
    rw [hr] at hev
    simp only [verify_chain_evaluate] at hev
    split at hev
    · cases hev
    · rw [hp]
      simpa using hev.symm
  · intro hr
    have key : ∀ r, (r = StageResult.kWrongFork ∨ r = StageResult.kInvalidBlock ∨
        r = StageResult.kWrongStateRoot) →
        verify_chain_evaluate ops (ops.forward p cc.tx header.number).2.1
          { cc with tx := (ops.forward p cc.tx header.number).2.2 } r = .ok v →
        ∃ ic, v = .InvalidChain ic ∧
          ops.unwind_point (ops.forward p cc.tx header.number).2.1 = some ic.unwind_point ∧
          read_canonical_hash (ops.forward p cc.tx header.number).2.2 ic.unwind_point
            = some ic.unwind_head := by
      intro r hr hev
      have hev2 : (match ops.unwind_point (ops.forward p cc.tx header.number).2.1 with
          | none => (.error .logic_error : Except Fault VerificationResult)
          | some unwind_point =>
            match CanonicalChain.get_hash
              { cc with tx := (ops.forward p cc.tx header.number).2.2 } unwind_point with
            | none => .error .bad_optional
            | some unwind_head =>
              match ops.bad_block (ops.forward p cc.tx header.number).2.1 with
              | none => .ok (.InvalidChain ⟨unwind_point, unwind_head, none, ∅⟩)
              | some bad_block =>
                match collect_bad_headers
                  { cc with tx := (ops.forward p cc.tx header.number).2.2 }
                  ⟨unwind_point, unwind_head, some bad_block, ∅⟩ with
                | .error f => .error f
                | .ok bad_headers =>
                  .ok (.InvalidChain ⟨unwind_point, unwind_head, some bad_block, bad_headers⟩))
          = .ok v := by
        rcases hr with rfl | rfl | rfl <;> exact hev
      cases hup : ops.unwind_point (ops.forward p cc.tx header.number).2.1 with
      | none => simp [hup] at hev2
      | some up =>
        simp only [hup] at hev2
        cases hh : CanonicalChain.get_hash
            { cc with tx := (ops.forward p cc.tx header.number).2.2 } up with
        | none => simp [hh] at hev2
        | some uh =>
          simp only [hh] at hev2
          cases hb : ops.bad_block (ops.forward p cc.tx header.number).2.1 with
          | none =>
            simp only [hb, Except.ok.injEq] at hev2
            exact ⟨_, hev2.symm, rfl, hh⟩
          | some b =>
            simp only [hb] at hev2
            cases hc : collect_bad_headers
                { cc with tx := (ops.forward p cc.tx header.number).2.2 }
                ⟨up, uh, some b, ∅⟩ with
            | error f => simp [hc] at hev2
            | ok hs =>
              simp only [hc, Except.ok.injEq] at hev2
              exact ⟨_, hev2.symm, rfl, hh⟩
    obtain ⟨ic, h1, h2, h3⟩ := key _ hr hev
    exact ⟨ic, h1, by rw [hp]; exact h2, by rw [hcan]; exact h3⟩
  · intro hr
    rw [hr] at hev
    simp only [verify_chain_evaluate] at hev
    rw [hp]
    simpa using hev.symm
  · intro h1 h2 h3 h4 h5
    rw [hp]
    generalize (ops.forward p cc.tx header.number).1 = r at h1 h2 h3 h4 h5 hev
    cases r <;> simp_all [verify_chain_evaluate]

theorem verify_chain_verdict_witness :
    (∃ v e1, verify_chain succeeding_pipeline 4 genesis_engine 103 = .ok (v, e1) ∧
      v = .ValidChain (succeeding_pipeline.head_header_number e1.pipeline) ∧
      e1.current_status = v) ∧
    (∃ v e1, verify_chain failing_pipeline 4 genesis_engine 103 = .ok (v, e1) ∧
      (∃ ic, v = .InvalidChain ic ∧
        failing_pipeline.unwind_point e1.pipeline = some ic.unwind_point ∧
        read_canonical_hash e1.canonical_chain.tx ic.unwind_point = some ic.unwind_head) ∧
      e1.current_status = v) := by
  obtain ⟨⟨v, e1⟩, h⟩ :=
    returned_ok (r := verify_chain succeeding_pipeline 4 genesis_engine 103) (by decide)
  obtain ⟨⟨w, e2⟩, k⟩ :=
    returned_ok (r := verify_chain failing_pipeline 4 genesis_engine 103) (by decide)
  have hprep : ∃ r, verify_chain_prepare succeeding_pipeline 4 genesis_engine 103 = .ok r ∧
      (succeeding_pipeline.forward r.2.1 r.2.2.tx r.1.number).1 = StageResult.kSuccess :=
    ⟨_, rfl, rfl⟩
  have kprep : ∃ r, verify_chain_prepare failing_pipeline 4 genesis_engine 103 = .ok r ∧
      (failing_pipeline.forward r.2.1 r.2.2.tx r.1.number).1 = StageResult.kWrongStateRoot :=
    ⟨_, rfl, rfl⟩
  obtain ⟨r, hr, hres⟩ := hprep
  obtain ⟨q, kq, kres⟩ := kprep
  obtain ⟨header, p, cc, hp, _, _, hsucc, _, _, _, hst⟩ :=
    verify_chain_verdict succeeding_pipeline 4 genesis_engine 103 v e1 h
  obtain ⟨header1, p1, cc1, kp, _, _, _, kfail, _, _, kst⟩ :=
    verify_chain_verdict failing_pipeline 4 genesis_engine 103 w e2 k
  rw [hp] at hr
  rw [kp] at kq
  cases hr
  cases kq
  exact ⟨⟨v, e1, h, hsucc hres, hst⟩, ⟨w, e2, k, kfail (Or.inr (Or.inr kres)), kst⟩⟩

/-! ## C6: the bad headers of an InvalidChain verdict -/

/-- C6. Let the pipeline leave the headers and the canonical hashes as they are, and let
`verify_chain` start from a chain that satisfies the invariant of the canonical chain, with
no canonical hash above its head and a well-formed header table. When the forward run on the
prepared chain ends in `kWrongFork`, `kInvalidBlock` or `kWrongStateRoot` with an unwind
point that is not above the head, `verify_chain` returns an `InvalidChain` verdict, every
height `h` with `unwind_point < h ≤ current_head.number` has a canonical hash to read, and:
if the pipeline set no bad block, `bad_headers` is empty; if it set one, `bad_headers` is
exactly the set of the canonical hashes at those heights, and it contains the hash of the
head being verified as soon as `unwind_point` is below the head. -/
theorem verify_chain_bad_headers {P : Type} (ops : Pipeline P) (fuel : Nat)
    (e : ExecutionEngine P) (head_block_hash : Nat)
    (hforward : ∀ p tx n, same_chain_tables tx (ops.forward p tx n).2.2)
    (hunwind : ∀ p tx n, same_chain_tables tx (ops.unwind p tx n).2.2)
    (hinv : canonical_invariant e.canonical_chain)
    (hno : no_canonical_above_head e.canonical_chain)
    (hwf : headers_well_formed e.canonical_chain.tx)
    (header : BlockHeader) (p : P) (cc : CanonicalChain)
    (hprep : verify_chain_prepare ops fuel e head_block_hash = .ok (header, p, cc))
    (hfail : (ops.forward p cc.tx header.number).1 = StageResult.kWrongFork ∨
      (ops.forward p cc.tx header.number).1 = StageResult.kInvalidBlock ∨
      (ops.forward p cc.tx header.number).1 = StageResult.kWrongStateRoot)
    (unwind_point : Nat)
    (hup : ops.unwind_point (ops.forward p cc.tx header.number).2.1 = some unwind_point)
    (hle : unwind_point ≤ cc.current_head.number) :
    ∃ ic e1, verify_chain ops fuel e head_block_hash = .ok (.InvalidChain ic, e1) ∧
      ic.unwind_point = unwind_point ∧
      (ops.bad_block e1.pipeline = none → ic.bad_headers = ∅) ∧
      ((ops.bad_block e1.pipeline).isSome = true →
        (∀ x, x ∈ ic.bad_headers ↔
          ∃ h, ic.unwind_point < h ∧ h ≤ e1.canonical_chain.current_head.number ∧
            read_canonical_hash e1.canonical_chain.tx h = some x) ∧
        (ic.unwind_point < e1.canonical_chain.current_head.number →
          head_block_hash ∈ ic.bad_headers)) ∧
      (∀ h, ic.unwind_point < h → h ≤ e1.canonical_chain.current_head.number →
        ∃ x, read_canonical_hash e1.canonical_chain.tx h = some x) := by
  obtain ⟨hinvcc, _⟩ :=
    verify_chain_prepare_spec ops fuel e head_block_hash hunwind hinv hno hwf header p cc hprep
  have hframe : same_chain_tables cc.tx (ops.forward p cc.tx header.number).2.2 :=
    hforward p cc.tx header.number
  have hdef : ∀ h,
      h ≤ ({ cc with tx := (ops.forward p cc.tx header.number).2.2 } :
        CanonicalChain).current_head.number →
      ∃ x, read_canonical_hash ({ cc with tx := (ops.forward p cc.tx header.number).2.2 } :
        CanonicalChain).tx h = some x := by
    intro h hh
    have hl := hinvcc h hh
    rw [← canonical_linked_of_tables hframe] at hl
    exact canonical_defined_of_linked hl
  obtain ⟨ic, hev, hicup⟩ := verify_chain_evaluate_returns_invalid ops
    (ops.forward p cc.tx header.number).2.1
    { cc with tx := (ops.forward p cc.tx header.number).2.2 }
    (ops.forward p cc.tx header.number).1 hfail unwind_point hup hdef hle
  have hrun : ∃ e1, verify_chain ops fuel e head_block_hash = .ok (.InvalidChain ic, e1) := by
    simp only [verify_chain, hprep, hev]
    exact ⟨_, rfl⟩
  obtain ⟨e1, hrun⟩ := hrun
  exact ⟨ic, e1, hrun, hicup,
    bad_headers_of_invalid_verdict ops fuel e head_block_hash hforward hunwind hinv hno hwf ic e1
      hrun⟩

theorem verify_chain_bad_headers_witness :
    ∃ ic e1, verify_chain failing_pipeline 4 genesis_engine 103 = .ok (.InvalidChain ic, e1) ∧
      ic.unwind_point = 0 ∧
      (∀ x, x ∈ ic.bad_headers ↔
        ∃ h, ic.unwind_point < h ∧ h ≤ e1.canonical_chain.current_head.number ∧
          read_canonical_hash e1.canonical_chain.tx h = some x) ∧
      103 ∈ ic.bad_headers := by
  have hprep : ∃ header p cc, verify_chain_prepare failing_pipeline 4 genesis_engine 103
      = .ok (header, p, cc) ∧
      (failing_pipeline.forward p cc.tx header.number).1 = StageResult.kWrongStateRoot ∧
      failing_pipeline.unwind_point (failing_pipeline.forward p cc.tx header.number).2.1
        = some 0 :=
    ⟨_, _, _, rfl, rfl, rfl⟩
  have hverdict : ∃ ic e1, verify_chain failing_pipeline 4 genesis_engine 103
      = .ok (.InvalidChain ic, e1) ∧
      (failing_pipeline.bad_block e1.pipeline).isSome = true ∧
      ic.unwind_point < e1.canonical_chain.current_head.number :=
    ⟨_, _, rfl, by decide, by decide⟩
  obtain ⟨header, p, cc, hprep, hres, hup⟩ := hprep
  obtain ⟨ic, e1, hrun, hbad, hlt⟩ := hverdict
  obtain ⟨ic1, e2, hrun1, hicup, _, h2, _⟩ :=
    verify_chain_bad_headers failing_pipeline 4 genesis_engine 103
      (fun _ _ _ => ⟨rfl, rfl⟩) (fun _ _ _ => ⟨rfl, rfl⟩) (by decide)
      genesis_chain_no_canonical_above_head
      (txn_of_headers_well_formed _ _ four_headers_bounded) header p cc hprep
      (Or.inr (Or.inr hres)) 0 hup (Nat.zero_le _)
  rw [hrun] at hrun1
  simp only [Except.ok.injEq, Prod.mk.injEq, VerificationResult.InvalidChain.injEq] at hrun1
  obtain ⟨rfl, rfl⟩ := hrun1
  exact ⟨ic, e1, hrun, hicup, (h2 hbad).1, (h2 hbad).2 hlt⟩

/-! ## C7: notify_fork_choice_update -/

/-- C7. Whenever `notify_fork_choice_update(head_block_hash)` returns `true`, afterwards
`last_fork_choice()` is the current canonical head, the hash of that head is
`head_block_hash`, and the first-sync flag is `false`; whenever it returns `false`,
`last_fork_choice()` and the first-sync flag are as before the call. -/
theorem notify_fork_choice_update_spec {P : Type} (ops : Pipeline P) (fuel : Nat)
    (e : ExecutionEngine P) (head_block_hash : Nat) (accepted : Bool) (e1 : ExecutionEngine P)
    (hrun : notify_fork_choice_update ops fuel e head_block_hash = .ok (accepted, e1)) :
    (accepted = true →
      e1.get_last_fork_choice = e1.canonical_chain.current_head ∧
      e1.canonical_chain.current_head.hash = head_block_hash ∧
      e1.is_first_sync = false) ∧
    (accepted = false →
      e1.get_last_fork_choice = e.get_last_fork_choice ∧
      e1.is_first_sync = e.is_first_sync) := by
  unfold notify_fork_choice_update at hrun
  by_cases hhead : e.canonical_chain.current_head.hash = head_block_hash
  · simp only [hhead, ne_eq, not_true_eq_false, if_false, Except.ok.injEq, Prod.mk.injEq] at hrun
    obtain ⟨rfl, rfl⟩ := hrun
    exact ⟨fun _ => ⟨rfl, hhead, rfl⟩, fun h => by cases h⟩
  · simp only [ne_eq, hhead, not_false_eq_true, if_true] at hrun
    cases hv : verify_chain ops fuel e head_block_hash with
    | error f => simp [hv] at hrun
    | ok r =>
      obtain ⟨v, e2⟩ := r
      simp only [hv] at hrun
      obtain ⟨_, _, _, _, _, _, _, _, _, hlast, hfirst⟩ :=
        verify_chain_unfold ops fuel e head_block_hash v e2 hv
      by_cases hvalid : v.holds_valid_chain = true
      · simp only [hvalid, Bool.not_true, Bool.false_eq_true, if_false] at hrun
        by_cases hhead2 : e2.canonical_chain.current_head.hash = head_block_hash
        · simp only [hhead2, not_true_eq_false, if_false, Except.ok.injEq,
            Prod.mk.injEq] at hrun
          obtain ⟨rfl, rfl⟩ := hrun
          exact ⟨fun _ => ⟨rfl, hhead2, rfl⟩, fun h => by cases h⟩
        · simp [hhead2] at hrun
      · simp only [hvalid, Bool.not_false, if_true, Except.ok.injEq, Prod.mk.injEq] at hrun
        obtain ⟨rfl, rfl⟩ := hrun
        exact ⟨fun h => (by cases h), fun _ => ⟨hlast, hfirst⟩⟩

theorem notify_fork_choice_update_spec_witness :
    (∃ e1, notify_fork_choice_update succeeding_pipeline 4 genesis_engine 103 = .ok (true, e1) ∧
      e1.get_last_fork_choice = e1.canonical_chain.current_head ∧
      e1.canonical_chain.current_head.hash = 103 ∧ e1.is_first_sync = false) ∧
    (∃ e1, notify_fork_choice_update failing_pipeline 4 genesis_engine 103 = .ok (false, e1) ∧
      e1.get_last_fork_choice = genesis_engine.get_last_fork_choice ∧
      e1.is_first_sync = genesis_engine.is_first_sync) := by
  have h1 : ∃ e1, notify_fork_choice_update succeeding_pipeline 4 genesis_engine 103
      = .ok (true, e1) := ⟨_, rfl⟩
  have h2 : ∃ e1, notify_fork_choice_update failing_pipeline 4 genesis_engine 103
      = .ok (false, e1) := ⟨_, rfl⟩
  obtain ⟨e1, h1⟩ := h1
  obtain ⟨e2, h2⟩ := h2
  exact ⟨⟨e1, h1,
      (notify_fork_choice_update_spec succeeding_pipeline 4 genesis_engine 103 true e1 h1).1 rfl⟩,
    ⟨e2, h2,
      (notify_fork_choice_update_spec failing_pipeline 4 genesis_engine 103 false e2 h2).2 rfl⟩⟩

/-! ## C8: InterHashes::forward on a wrong state root -/

/-- C8. Let no stop be requested, let the progress of the stage be below its target (the
progress of HashState), let the canonical hash at the target and the header under it be
stored, and let the root computed by the selected mode differ from the state root of that
header. Then `forward` returns `kWrongStateRoot`, sets `unwind_point` to
`previous_progress + (target - previous_progress) / 2`, which lies in
`[previous_progress, target)`, sets `bad_block_hash` to the canonical hash at the target, and
leaves every stage progress as it was. -/
theorem interhashes_forward_wrong_state_root (o : TrieOracle) (s : InterHashes) (txn : RWTxn)
    (header_hash computed_root : Nat) (header : BlockHeader)
    (hstop : s.is_stopping = false)
    (hlt : read_stage_progress txn StageKey.kIntermediateHashesKey
      < read_stage_progress txn StageKey.kHashStateKey)
    (hhash : read_canonical_header_hash txn (read_stage_progress txn StageKey.kHashStateKey)
      = some header_hash)
    (hheader : read_header txn (read_stage_progress txn StageKey.kHashStateKey) header_hash
      = some header)
    (hroot : InterHashes.computed_root o txn = .ok computed_root)
    (hne : computed_root ≠ header.state_root) :
    ∃ s1 txn1, InterHashes.forward o s txn = .ok (StageResult.kWrongStateRoot, s1, txn1) ∧
      s1.sync_context.unwind_point
        = some (read_stage_progress txn StageKey.kIntermediateHashesKey
            + (read_stage_progress txn StageKey.kHashStateKey
                - read_stage_progress txn StageKey.kIntermediateHashesKey) / 2) ∧
      read_stage_progress txn StageKey.kIntermediateHashesKey
        ≤ read_stage_progress txn StageKey.kIntermediateHashesKey
            + (read_stage_progress txn StageKey.kHashStateKey
                - read_stage_progress txn StageKey.kIntermediateHashesKey) / 2 ∧
      read_stage_progress txn StageKey.kIntermediateHashesKey
            + (read_stage_progress txn StageKey.kHashStateKey
                - read_stage_progress txn StageKey.kIntermediateHashesKey) / 2
        < read_stage_progress txn StageKey.kHashStateKey ∧
      s1.sync_context.bad_block_hash = some header_hash ∧
      ∀ key, read_stage_progress txn1 key = read_stage_progress txn key := by
  have hne1 : read_stage_progress txn StageKey.kIntermediateHashesKey
      ≠ read_stage_progress txn StageKey.kHashStateKey := by omega
  have hnlt : ¬ read_stage_progress txn StageKey.kHashStateKey
      < read_stage_progress txn StageKey.kIntermediateHashesKey := by omega
  unfold InterHashes.computed_root at hroot
  by_cases hmode : read_stage_progress txn StageKey.kIntermediateHashesKey = 0 ∨
      o.kLargeBlockSegmentWorthRegen < read_stage_progress txn StageKey.kHashStateKey
        - read_stage_progress txn StageKey.kIntermediateHashesKey
  · simp only [hmode, if_true] at hroot
    refine ⟨⟨OperationType.None, ⟨some _, some header_hash⟩, s.is_stopping⟩, (clear_trie_tables txn).commit, ?_, rfl, by omega, by omega, rfl, ?_⟩
    · simp only [InterHashes.forward, hstop, hne1, hnlt, hhash, hheader, hmode, if_true,
        if_false, regenerate_intermediate_hashes, hroot,
        check_root_and_flush_mismatch _ _ _ _ hne]
      simp
    · intro key
      unfold RWTxn.commit clear_trie_tables read_stage_progress
      split <;> rfl
  · simp only [hmode, if_false] at hroot
    refine ⟨⟨OperationType.None, ⟨some _, some header_hash⟩, s.is_stopping⟩, with_trie_tables txn (txn.db.trie_of_accounts,
        (o.increment_root txn (read_stage_progress txn StageKey.kIntermediateHashesKey)
          (read_stage_progress txn StageKey.kHashStateKey)).1), ?_, rfl, by omega, by omega,
        rfl, ?_⟩
    · simp only [InterHashes.forward, hstop, hne1, hnlt, hhash, hheader, hmode, if_true,
        if_false, increment_intermediate_hashes, hroot,
        check_root_and_flush_mismatch _ _ _ _ hne]
      simp
    · intro key
      rfl

theorem interhashes_forward_wrong_state_root_witness :
    (∃ s1 txn1, InterHashes.forward sample_oracle idle_stage (staged_txn 1 3)
        = .ok (StageResult.kWrongStateRoot, s1, txn1) ∧
      s1.sync_context.unwind_point = some 2 ∧
      s1.sync_context.bad_block_hash = some 103 ∧
      read_stage_progress txn1 StageKey.kIntermediateHashesKey = 1) ∧
    (∃ s1 txn1, InterHashes.forward sample_oracle idle_stage (staged_txn 0 3)
        = .ok (StageResult.kWrongStateRoot, s1, txn1) ∧
      s1.sync_context.unwind_point = some 1 ∧
      s1.sync_context.bad_block_hash = some 103 ∧
      read_stage_progress txn1 StageKey.kIntermediateHashesKey = 0) := by
  obtain ⟨s1, txn1, h1, h2, _, _, h3, h4⟩ :=
    interhashes_forward_wrong_state_root sample_oracle idle_stage (staged_txn 1 3) 103 7
      { parent_hash := 102, state_root := 0, difficulty := 1, number := 3 }
      rfl (by decide) rfl rfl rfl (by decide)
  obtain ⟨s2, txn2, k1, k2, _, _, k3, k4⟩ :=
    interhashes_forward_wrong_state_root sample_oracle idle_stage (staged_txn 0 3) 103 7
      { parent_hash := 102, state_root := 0, difficulty := 1, number := 3 }
      rfl (by decide) rfl rfl rfl (by decide)
  exact ⟨⟨s1, txn1, h1, h2, h3, h4 StageKey.kIntermediateHashesKey⟩,
    ⟨s2, txn2, k1, k2, k3, k4 StageKey.kIntermediateHashesKey⟩⟩

/-! ## C9: InterHashes::forward at or past its target -/

/-- C9, as stated, fails. With the target (the progress of HashState) at `3` and the progress
of the stage at `5`, `forward` does not return `kSuccess`: it returns `kInvalidProgress`. -/
theorem interhashes_forward_past_target_counterexample :
    read_stage_progress (staged_txn 5 3) StageKey.kHashStateKey
      ≤ read_stage_progress (staged_txn 5 3) StageKey.kIntermediateHashesKey ∧
    (value? (InterHashes.forward sample_oracle idle_stage (staged_txn 5 3))).map (fun r => r.1)
      = some StageResult.kInvalidProgress ∧
    (value? (InterHashes.forward sample_oracle idle_stage (staged_txn 5 3))).map (fun r => r.1)
      ≠ some StageResult.kSuccess := by
  decide

/-- C9, amended. When no stop is requested: if the target (the progress of HashState) equals
the progress of the stage, `forward` returns `kSuccess` at once; if the target is below the
progress of the stage, `forward` returns `kInvalidProgress`; in both cases the transaction
(the store and every stage progress) and the sync context are left as they were. -/
theorem interhashes_forward_at_or_past_target (o : TrieOracle) (s : InterHashes) (txn : RWTxn)
    (hstop : s.is_stopping = false) :
    (read_stage_progress txn StageKey.kHashStateKey
        = read_stage_progress txn StageKey.kIntermediateHashesKey →
      InterHashes.forward o s txn
        = .ok (StageResult.kSuccess, { s with operation := OperationType.None }, txn)) ∧
    (read_stage_progress txn StageKey.kHashStateKey
        < read_stage_progress txn StageKey.kIntermediateHashesKey →
      InterHashes.forward o s txn
        = .ok (StageResult.kInvalidProgress, { s with operation := OperationType.None }, txn)) := by
  constructor
  · intro h
    simp [InterHashes.forward, hstop, h]
  · intro h
    have h1 : read_stage_progress txn StageKey.kIntermediateHashesKey
        ≠ read_stage_progress txn StageKey.kHashStateKey := by omega
    simp [InterHashes.forward, hstop, h, h1]

theorem interhashes_forward_at_or_past_target_witness :
    InterHashes.forward sample_oracle idle_stage (staged_txn 3 3)
      = .ok (StageResult.kSuccess, idle_stage, staged_txn 3 3) ∧
    InterHashes.forward sample_oracle idle_stage (staged_txn 5 3)
      = .ok (StageResult.kInvalidProgress, idle_stage, staged_txn 5 3) :=
  ⟨(interhashes_forward_at_or_past_target sample_oracle idle_stage (staged_txn 3 3) rfl).1 rfl,
   (interhashes_forward_at_or_past_target sample_oracle idle_stage (staged_txn 5 3) rfl).2
     (by decide)⟩

/-! ## C10: the merge engine rejects proof-of-work after the merge -/

/-- C10. For a header with `difficulty != 0` whose parent header is found and whose parent
total difficulty is known: if that total difficulty is `≥` the terminal total difficulty,
`validate_block_header` returns `kPoWBlockAfterMerge`, whatever the pre-merge engine answers;
if it is below the terminal total difficulty, `validate_block_header` returns exactly the
answer of the pre-merge engine. -/
theorem merge_engine_rejects_pow_after_merge (m : MergeEngine) (header parent : BlockHeader)
    (state : BlockState) (with_future_timestamp_check : Bool) (parent_total_difficulty : Nat)
    (hdiff : header.difficulty ≠ 0)
    (hparent : m.get_parent_header state header = some parent)
    (htd : state.total_difficulty parent.number header.parent_hash
      = some parent_total_difficulty) :
    (m.terminal_total_difficulty ≤ parent_total_difficulty →
      m.validate_block_header header state with_future_timestamp_check
        = ValidationResult.kPoWBlockAfterMerge) ∧
    (parent_total_difficulty < m.terminal_total_difficulty →
      m.validate_block_header header state with_future_timestamp_check
        = m.pre_merge_validate_block_header header state with_future_timestamp_check) := by
  constructor
  · intro h
    simp [MergeEngine.validate_block_header, hparent, hdiff, htd, h]
  · intro h
    have h2 : ¬ m.terminal_total_difficulty ≤ parent_total_difficulty := by omega
    simp [MergeEngine.validate_block_header, hparent, hdiff, htd, h2]

theorem merge_engine_rejects_pow_after_merge_witness :
    sample_merge_engine.validate_block_header sample_pow_header (sample_block_state 1000) true
      = ValidationResult.kPoWBlockAfterMerge ∧
    sample_merge_engine.validate_block_header sample_pow_header (sample_block_state 999) true
      = ValidationResult.kInvalidSeal :=
  ⟨(merge_engine_rejects_pow_after_merge sample_merge_engine sample_pow_header
      { parent_hash := 400, state_root := 0, difficulty := 10, number := 5 }
      (sample_block_state 1000) true 1000 (by decide) rfl rfl).1 (by decide),
   (merge_engine_rejects_pow_after_merge sample_merge_engine sample_pow_header
      { parent_hash := 400, state_root := 0, difficulty := 10, number := 5 }
      (sample_block_state 999) true 999 (by decide) rfl rfl).2 (by decide)⟩

/-! ## C11: the merge engine rejects proof-of-stake before the merge -/

/-- C12, counterexample. With terminal total difficulty `2`, parent total difficulty `1` and a
header of difficulty `2^256 - 1`, the exact sum `1 + (2^256 - 1)` is `≥ 2` and all the other
conditions hold, yet `terminal_pow_block` is false: the `uint256` sum wraps to `0`. -/
theorem terminal_pow_block_exact_sum_counterexample :
    ¬ (low_ttd_merge_engine.terminal_pow_block heaviest_pow_header (sample_block_state 1) = true ↔
      heaviest_pow_header.difficulty ≠ 0 ∧
      ∃ parent ptd,
        low_ttd_merge_engine.get_parent_header (sample_block_state 1) heaviest_pow_header
          = some parent ∧
        (sample_block_state 1).total_difficulty parent.number heaviest_pow_header.parent_hash
          = some ptd ∧
        ptd < low_ttd_merge_engine.terminal_total_difficulty ∧
        low_ttd_merge_engine.terminal_total_difficulty ≤ ptd + heaviest_pow_header.difficulty) := by
  intro h
  have hfalse : low_ttd_merge_engine.terminal_pow_block heaviest_pow_header (sample_block_state 1)
      = false := by decide
  rw [hfalse] at h
  have := h.mpr ⟨by decide,
    { parent_hash := 400, state_root := 0, difficulty := 10, number := 5 }, 1, rfl, rfl,
    by decide, by decide⟩
  cases this

/-- C12, amended. `terminal_pow_block(header)` is true if and only if `header.difficulty != 0`,
the parent header is found, the total difficulty `ptd` of the parent is known, `ptd < TTD`, and
`ptd + header.difficulty`, computed as a `uint256` sum (modulo `2^256`), is `≥ TTD`. When
`ptd + header.difficulty < 2^256` the sum is the exact one. -/
theorem terminal_pow_block_iff (m : MergeEngine) (header : BlockHeader) (state : BlockState) :
    (m.terminal_pow_block header state = true ↔
      header.difficulty ≠ 0 ∧
      ∃ parent ptd,
        m.get_parent_header state header = some parent ∧
        state.total_difficulty parent.number header.parent_hash = some ptd ∧
        ptd < m.terminal_total_difficulty ∧
        m.terminal_total_difficulty ≤ (ptd + header.difficulty) % kTwo256) ∧
    (∀ parent ptd,
      m.get_parent_header state header = some parent →
      state.total_difficulty parent.number header.parent_hash = some ptd →
      ptd + header.difficulty < kTwo256 →
      (m.terminal_pow_block header state = true ↔
        header.difficulty ≠ 0 ∧ ptd < m.terminal_total_difficulty ∧
          m.terminal_total_difficulty ≤ ptd + header.difficulty)) := by
  constructor
  · unfold MergeEngine.terminal_pow_block
    by_cases hd : header.difficulty = 0
    · simp [hd]
    · rw [if_neg hd]
      cases hp : m.get_parent_header state header with
      | none => simp
      | some parent =>
        cases ht : state.total_difficulty parent.number header.parent_hash with
        | none => simp [hd, ht]
        | some ptd => simp [hd, ht]
  · intro parent ptd hp ht hfit
    unfold MergeEngine.terminal_pow_block
    by_cases hd : header.difficulty = 0
    · simp [hd]
    · rw [if_neg hd, hp]
      simp only [ht, Nat.mod_eq_of_lt hfit]
      simp [hd]

theorem terminal_pow_block_iff_witness :
    sample_merge_engine.terminal_pow_block sample_pow_header (sample_block_state 995) = true ∧
    ∃ parent ptd,
      sample_merge_engine.get_parent_header (sample_block_state 995) sample_pow_header
        = some parent ∧
      (sample_block_state 995).total_difficulty parent.number sample_pow_header.parent_hash
        = some ptd ∧
      ptd < sample_merge_engine.terminal_total_difficulty ∧
      sample_merge_engine.terminal_total_difficulty
        ≤ (ptd + sample_pow_header.difficulty) % kTwo256 :=
  ⟨by decide,
    ((terminal_pow_block_iff sample_merge_engine sample_pow_header (sample_block_state 995)).1.mp
      (by decide)).2⟩

/-! ## The checks of pre_validate_transaction, one by one -/

theorem decide_lt_eq_not_le (a b : Nat) : decide (a < b) = !decide (b ≤ a) := by
  by_cases h : a < b
  · have h2 : ¬ b ≤ a := by omega
    simp [h, h2]
  · have h2 : b ≤ a := by omega
    simp [h, h2]

theorem decide_ne_eq_not_eq (a b : Nat) : decide (a ≠ b) = !decide (a = b) := by
  by_cases h : a = b <;> simp [h]

theorem ite_chain {α : Type} (p q : Prop) [Decidable p] [Decidable q] (a b c : α)
    (hpq : p ↔ q) (hbc : b = c) : (if p then a else b) = (if q then a else c) := by
  subst hbc
  by_cases hp : p
  · rw [if_pos hp, if_pos (hpq.mp hp)]
  · rw [if_neg hp, if_neg (fun hq => hp (hpq.mpr hq))]

theorem pre_validate_transaction_eq_first_failure (rules : TransactionRules) (txn : Transaction)
    (rev chain_id : Nat) (base_fee_per_gas : Option Nat) :
    pre_validate_transaction rules txn rev chain_id base_fee_per_gas
      = first_failure (listed_checks rules txn rev chain_id base_fee_per_gas) := by
  unfold pre_validate_transaction listed_checks
  simp only [first_failure]
  refine ite_chain _ _ _ _ _ ?_ (ite_chain _ _ _ _ _ ?_ (ite_chain _ _ _ _ _ ?_
    (ite_chain _ _ _ _ _ ?_ (ite_chain _ _ _ _ _ ?_ (ite_chain _ _ _ _ _ ?_
    (ite_chain _ _ _ _ _ ?_ (ite_chain _ _ _ _ _ ?_ rfl)))))))
  · cases txn.chain_id with
    | none => simp
    | some c =>
      by_cases h1 : rev < EVMC_SPURIOUS_DRAGON <;> by_cases h2 : c = chain_id <;>
        simp [h1, h2, Nat.not_le.mpr, Nat.not_lt.mp]
  · rw [decide_lt_eq_not_le, decide_lt_eq_not_le, decide_ne_eq_not_eq]
  · cases base_fee_per_gas with
    | none => simp
    | some b => simp
  · simp
  · cases txn.from_ with
    | none => simp
    | some a => simp
  · simp
  · simp [UINT64_MAX]
  · simp [kMaxInitCodeSize, and_assoc]

theorem first_failure_ok_iff (l : List (Bool × ValidationResult))
    (herr : ∀ check ∈ l, check.2 ≠ ValidationResult.kOk) :
    first_failure l = ValidationResult.kOk ↔ ∀ check ∈ l, check.1 = false := by
  induction l with
  | nil => simp [first_failure]
  | cons c rest ih =>
    obtain ⟨failed, error⟩ := c
    have herr0 : error ≠ ValidationResult.kOk := herr (failed, error) (by simp)
    have ih1 := ih (fun check hc => herr check (by simp [hc]))
    cases failed with
    | true => simp [first_failure, herr0]
    | false => simp [first_failure, ih1]

theorem first_failure_skip (failed : Bool) (error : ValidationResult)
    (rest : List (Bool × ValidationResult)) (h : failed = false) :
    first_failure ((failed, error) :: rest) = first_failure rest := by
  subst h
  simp [first_failure]

theorem first_failure_mem (l : List (Bool × ValidationResult)) :
    first_failure l = ValidationResult.kOk ∨ first_failure l ∈ l.map Prod.snd := by
  induction l with
  | nil => left; rfl
  | cons c rest ih =>
    obtain ⟨failed, error⟩ := c
    cases failed with
    | true => right; simp [first_failure]
    | false =>
      rw [first_failure_skip _ _ _ rfl]
      rcases ih with h | h
      · left; exact h
      · right; exact List.mem_cons_of_mem _ h

theorem first_failure_head_iff (failed : Bool) (error : ValidationResult)
    (rest : List (Bool × ValidationResult)) (hne : error ≠ ValidationResult.kOk)
    (hrest : error ∉ rest.map Prod.snd) :
    first_failure ((failed, error) :: rest) = error ↔ failed = true := by
  cases failed with
  | true => simp [first_failure]
  | false =>
    rw [first_failure_skip _ _ _ rfl]
    constructor
    · intro h
      rcases first_failure_mem rest with h2 | h2
      · exact absurd (h.symm.trans h2) hne
      · rw [h] at h2
        exact absurd h2 hrest
    · intro h
      cases h

theorem first_failure_ne_of_not_mem (l : List (Bool × ValidationResult))
    (error : ValidationResult) (hne : error ≠ ValidationResult.kOk)
    (hrest : error ∉ l.map Prod.snd) : first_failure l ≠ error := by
  intro h
  rcases first_failure_mem l with h2 | h2
  · exact hne (h.symm.trans h2)
  · rw [h] at h2
    exact hrest h2

theorem first_failure_hit (l : List (Bool × ValidationResult)) (error : ValidationResult)
    (hne : error ≠ ValidationResult.kOk) (h : first_failure l = error) :
    ∃ check ∈ l, check.1 = true ∧ check.2 = error := by
  induction l with
  | nil => exact absurd h.symm hne
  | cons c rest ih =>
    obtain ⟨failed, e⟩ := c
    cases failed with
    | true =>
      refine ⟨(true, e), by simp, rfl, ?_⟩
      simpa [first_failure] using h
    | false =>
      rw [first_failure_skip _ _ _ rfl] at h
      obtain ⟨check, hmem, h1, h2⟩ := ih h
      exact ⟨check, List.mem_cons_of_mem _ hmem, h1, h2⟩

theorem check_chain_id_passes (txn : Transaction) (rev chain_id : Nat)
    (hchain : ∀ txn_chain_id, txn.chain_id = some txn_chain_id →
      EVMC_SPURIOUS_DRAGON ≤ rev ∧ txn_chain_id = chain_id) :
    (txn.chain_id.isSome &&
      !(decide (EVMC_SPURIOUS_DRAGON ≤ rev) && decide (txn.chain_id = some chain_id))) = false := by
  cases hc : txn.chain_id with
  | none => simp
  | some c =>
    obtain ⟨ha, hb⟩ := hchain c hc
    simp [ha, hb]

theorem check_type_passes (txn : Transaction) (rev : Nat)
    (htype : txn.type = kLegacy ∨ (txn.type = kEip2930 ∧ EVMC_BERLIN ≤ rev) ∨
      (txn.type = kEip1559 ∧ EVMC_LONDON ≤ rev)) :
    (if txn.type = kEip2930 then !decide (EVMC_BERLIN ≤ rev)
      else if txn.type = kEip1559 then !decide (EVMC_LONDON ≤ rev)
      else !decide (txn.type = kLegacy)) = false := by
  rcases htype with h | ⟨h, hr⟩ | ⟨h, hr⟩
  · simp [h, kLegacy, kEip2930, kEip1559]
  · simp [h, hr]
  · simp [h, hr, kEip2930, kEip1559]

theorem check_base_fee_passes (txn : Transaction) (base_fee_per_gas : Option Nat)
    (hbase : ∀ base_fee, base_fee_per_gas = some base_fee → base_fee ≤ txn.max_fee_per_gas) :
    base_fee_per_gas.any (fun base_fee => !decide (base_fee ≤ txn.max_fee_per_gas)) = false := by
  cases hb : base_fee_per_gas with
  | none => rfl
  | some b => simpa using hbase b hb

theorem check_signature_passes (rules : TransactionRules) (txn : Transaction) (rev : Nat)
    (hsig : txn.from_ = none →
      rules.is_valid_signature txn.r txn.s (decide (rev ≥ EVMC_HOMESTEAD)) = true) :
    (txn.from_.isNone &&
      !rules.is_valid_signature txn.r txn.s (decide (EVMC_HOMESTEAD ≤ rev))) = false := by
  cases hf : txn.from_ with
  | none =>
    have := hsig hf
    simp only [ge_iff_le] at this
    simp [this]
  | some a => simp

/-! ## C13: the order of the checks of pre_validate_transaction -/

/-- C13. For every transaction, revision, chain id and optional base fee, the result of
`pre_validate_transaction` is the error of the earliest failing check in the sequence chain id,
type gating, base fee, priority fee, signature, intrinsic gas, nonce, init-code size, each
worded as in the specification (`listed_checks`), and it is `kOk` if and only if no check of
the sequence fails. -/
theorem pre_validate_transaction_listed (rules : TransactionRules) (txn : Transaction)
    (rev chain_id : Nat) (base_fee_per_gas : Option Nat) :
    pre_validate_transaction rules txn rev chain_id base_fee_per_gas
        = first_failure (listed_checks rules txn rev chain_id base_fee_per_gas) ∧
    (pre_validate_transaction rules txn rev chain_id base_fee_per_gas = ValidationResult.kOk ↔
      ∀ check ∈ listed_checks rules txn rev chain_id base_fee_per_gas, check.1 = false) := by
  refine ⟨pre_validate_transaction_eq_first_failure _ _ _ _ _, ?_⟩
  rw [pre_validate_transaction_eq_first_failure]
  apply first_failure_ok_iff
  intro check hc
  simp only [listed_checks, List.mem_cons, List.mem_singleton, List.not_mem_nil, or_false] at hc
  rcases hc with rfl | rfl | rfl | rfl | rfl | rfl | rfl | rfl <;> simp

theorem pre_validate_transaction_listed_witness :
    pre_validate_transaction sample_rules high_s_transaction EVMC_LONDON 1 (some 40)
        = first_failure (listed_checks sample_rules high_s_transaction EVMC_LONDON 1 (some 40)) ∧
    first_failure (listed_checks sample_rules high_s_transaction EVMC_LONDON 1 (some 40))
        = ValidationResult.kMaxFeeLessThanBase :=
  ⟨(pre_validate_transaction_listed sample_rules high_s_transaction EVMC_LONDON 1 (some 40)).1,
    by decide⟩

/-! ## C14: the chain id rule -/

/-- C14. For a transaction whose `chain_id` is set, `pre_validate_transaction` returns
`kWrongChainId` if and only if `rev < SpuriousDragon` or `txn.chain_id != chain_id`; for a
transaction whose `chain_id` is not set it never returns `kWrongChainId`. -/
theorem pre_validate_transaction_chain_id_rule (rules : TransactionRules) (txn : Transaction)
    (rev chain_id : Nat) (base_fee_per_gas : Option Nat) :
    (∀ txn_chain_id, txn.chain_id = some txn_chain_id →
      (pre_validate_transaction rules txn rev chain_id base_fee_per_gas
          = ValidationResult.kWrongChainId ↔
        rev < EVMC_SPURIOUS_DRAGON ∨ txn_chain_id ≠ chain_id)) ∧
    (txn.chain_id = none →
      pre_validate_transaction rules txn rev chain_id base_fee_per_gas
        ≠ ValidationResult.kWrongChainId) := by
  constructor
  · intro c hc
    rw [pre_validate_transaction_eq_first_failure]
    unfold listed_checks
    rw [first_failure_head_iff _ _ _ (by decide) (by simp), hc]
    by_cases h1 : rev < EVMC_SPURIOUS_DRAGON
    · have h1' : ¬ EVMC_SPURIOUS_DRAGON ≤ rev := by omega
      simp [h1, h1']
    · have h1' : EVMC_SPURIOUS_DRAGON ≤ rev := by omega
      simp [h1, h1']
  · intro hc
    rw [pre_validate_transaction_eq_first_failure]
    unfold listed_checks
    rw [first_failure_skip _ _ _ (by simp [hc])]
    exact first_failure_ne_of_not_mem _ _ (by decide) (by simp)

theorem pre_validate_transaction_chain_id_rule_witness :
    sample_transaction.chain_id = some 1 ∧
    (pre_validate_transaction sample_rules sample_transaction EVMC_LONDON 5 none
        = ValidationResult.kWrongChainId ↔
      EVMC_LONDON < EVMC_SPURIOUS_DRAGON ∨ 1 ≠ 5) :=
  ⟨rfl,
    (pre_validate_transaction_chain_id_rule sample_rules sample_transaction EVMC_LONDON 5
      none).1 1 rfl⟩

/-! ## C15: type gating -/

/-- C15. For a transaction that passes the chain id check, `pre_validate_transaction` returns
`kUnsupportedTransactionType` if and only if the type is EIP-2930 with `rev < Berlin`, or
EIP-1559 with `rev < London`, or a type other than Legacy, EIP-2930 and EIP-1559; a Legacy
transaction is never rejected as unsupported, at any revision. -/
theorem pre_validate_transaction_type_gating (rules : TransactionRules) (txn : Transaction)
    (rev chain_id : Nat) (base_fee_per_gas : Option Nat) :
    ((∀ txn_chain_id, txn.chain_id = some txn_chain_id →
        EVMC_SPURIOUS_DRAGON ≤ rev ∧ txn_chain_id = chain_id) →
      (pre_validate_transaction rules txn rev chain_id base_fee_per_gas
          = ValidationResult.kUnsupportedTransactionType ↔
        (txn.type = kEip2930 ∧ rev < EVMC_BERLIN) ∨ (txn.type = kEip1559 ∧ rev < EVMC_LONDON) ∨
          (txn.type ≠ kLegacy ∧ txn.type ≠ kEip2930 ∧ txn.type ≠ kEip1559))) ∧
    (txn.type = kLegacy →
      pre_validate_transaction rules txn rev chain_id base_fee_per_gas
        ≠ ValidationResult.kUnsupportedTransactionType) := by
  constructor
  · intro hchain
    rw [pre_validate_transaction_eq_first_failure]
    have h1 : (txn.chain_id.isSome &&
        !(decide (EVMC_SPURIOUS_DRAGON ≤ rev) && decide (txn.chain_id = some chain_id))) = false := by
      cases hc : txn.chain_id with
      | none => simp
      | some c =>
        obtain ⟨ha, hb⟩ := hchain c hc
        simp [ha, hb]
    unfold listed_checks
    rw [first_failure_skip _ _ _ h1, first_failure_head_iff _ _ _ (by decide) (by simp)]
    by_cases t1 : txn.type = kEip2930
    · simp [t1, kEip2930, kEip1559, kLegacy, Nat.not_le]
    · by_cases t2 : txn.type = kEip1559
      · simp [t2, kEip2930, kEip1559, kLegacy, Nat.not_le]
      · simp [t1, t2]
  · intro ht
    rw [pre_validate_transaction_eq_first_failure]
    unfold listed_checks
    by_cases h1 : (txn.chain_id.isSome &&
        !(decide (EVMC_SPURIOUS_DRAGON ≤ rev) && decide (txn.chain_id = some chain_id))) = true
    · rw [h1]
      simp [first_failure]
    · rw [first_failure_skip _ _ _ (by simpa using h1),
        first_failure_skip _ _ _ (by rw [ht]; simp [kLegacy, kEip2930, kEip1559])]
      exact first_failure_ne_of_not_mem _ _ (by decide) (by simp)

theorem pre_validate_transaction_type_gating_witness :
    (∀ txn_chain_id, sample_transaction.chain_id = some txn_chain_id →
      EVMC_SPURIOUS_DRAGON ≤ EVMC_LONDON ∧ txn_chain_id = 1) ∧
    (pre_validate_transaction sample_rules sample_transaction EVMC_LONDON 1 none
        = ValidationResult.kUnsupportedTransactionType ↔
      (sample_transaction.type = kEip2930 ∧ EVMC_LONDON < EVMC_BERLIN) ∨
        (sample_transaction.type = kEip1559 ∧ EVMC_LONDON < EVMC_LONDON) ∨
        (sample_transaction.type ≠ kLegacy ∧ sample_transaction.type ≠ kEip2930 ∧
          sample_transaction.type ≠ kEip1559)) :=
  ⟨fun _ hc => ⟨by decide, (Option.some.inj hc).symm⟩,
    (pre_validate_transaction_type_gating sample_rules sample_transaction EVMC_LONDON 1 none).1
      (fun _ hc => ⟨by decide, (Option.some.inj hc).symm⟩)⟩

/-! ## C16: an accepted transaction satisfies the invariants -/

/-- C16. If `pre_validate_transaction` returns `kOk`, then
`max_priority_fee_per_gas <= max_fee_per_gas`, `nonce < 2^64 - 1`, and, when a base fee is
given, `max_fee_per_gas >= base_fee`. -/
theorem pre_validate_transaction_sound (rules : TransactionRules) (txn : Transaction)
    (rev chain_id : Nat) (base_fee_per_gas : Option Nat)
    (hok : pre_validate_transaction rules txn rev chain_id base_fee_per_gas
      = ValidationResult.kOk) :
    txn.max_priority_fee_per_gas ≤ txn.max_fee_per_gas ∧ txn.nonce < 2 ^ 64 - 1 ∧
      (∀ base_fee, base_fee_per_gas = some base_fee → txn.max_fee_per_gas ≥ base_fee) := by
  rw [pre_validate_transaction_eq_first_failure, first_failure_ok_iff _ (by
    intro check hc
    simp only [listed_checks, List.mem_cons, List.mem_singleton, List.not_mem_nil, or_false] at hc
    rcases hc with rfl | rfl | rfl | rfl | rfl | rfl | rfl | rfl <;> simp)] at hok
  have h3 := hok (base_fee_per_gas.any (fun base_fee => !decide (base_fee ≤ txn.max_fee_per_gas)),
    ValidationResult.kMaxFeeLessThanBase) (by simp [listed_checks])
  have h4 := hok (!decide (txn.max_priority_fee_per_gas ≤ txn.max_fee_per_gas),
    ValidationResult.kMaxPriorityFeeGreaterThanMax) (by simp [listed_checks])
  have h7 := hok (!decide (txn.nonce < 2 ^ 64 - 1), ValidationResult.kNonceTooHigh)
    (by simp [listed_checks])
  refine ⟨by simpa using h4, by simpa using h7, ?_⟩
  intro b hb
  rw [hb] at h3
  simpa using h3

theorem pre_validate_transaction_sound_witness :
    pre_validate_transaction sample_rules sample_transaction EVMC_LONDON 1 (some 10)
        = ValidationResult.kOk ∧
    (sample_transaction.max_priority_fee_per_gas ≤ sample_transaction.max_fee_per_gas ∧
      sample_transaction.nonce < 2 ^ 64 - 1 ∧
      (∀ base_fee, some 10 = some base_fee → sample_transaction.max_fee_per_gas ≥ base_fee)) :=
  ⟨by decide,
    pre_validate_transaction_sound sample_rules sample_transaction EVMC_LONDON 1 (some 10)
      (by decide)⟩

/-! ## C17: the signature rule -/

/-- C17. For a transaction that passes the chain id, type and fee checks and whose sender
`from` is not cached, `pre_validate_transaction` returns `kInvalidSignature` if and only if
`is_valid_signature(r, s, homestead)` is false, where `homestead` is `rev >= Homestead`. When
`from` is present the signature is not examined: the result does not depend on the signature
predicate, and it is the same for all values of `r` and `s` (the intrinsic gas, whose source
is absent, being assumed not to read `r` and `s`). -/
theorem pre_validate_transaction_signature_rule (rules : TransactionRules) (txn : Transaction)
    (rev chain_id : Nat) (base_fee_per_gas : Option Nat) :
    ((∀ txn_chain_id, txn.chain_id = some txn_chain_id →
          EVMC_SPURIOUS_DRAGON ≤ rev ∧ txn_chain_id = chain_id) →
      (txn.type = kLegacy ∨ (txn.type = kEip2930 ∧ EVMC_BERLIN ≤ rev) ∨
          (txn.type = kEip1559 ∧ EVMC_LONDON ≤ rev)) →
      (∀ base_fee, base_fee_per_gas = some base_fee → base_fee ≤ txn.max_fee_per_gas) →
      txn.max_priority_fee_per_gas ≤ txn.max_fee_per_gas →
      txn.from_ = none →
      (pre_validate_transaction rules txn rev chain_id base_fee_per_gas
          = ValidationResult.kInvalidSignature ↔
        rules.is_valid_signature txn.r txn.s (decide (rev ≥ EVMC_HOMESTEAD)) = false)) ∧
    (txn.from_.isSome = true →
      (∀ other : TransactionRules, other.intrinsic_gas = rules.intrinsic_gas →
        pre_validate_transaction other txn rev chain_id base_fee_per_gas
          = pre_validate_transaction rules txn rev chain_id base_fee_per_gas) ∧
      (∀ r s : Nat,
        rules.intrinsic_gas { txn with r := r, s := s } rev = rules.intrinsic_gas txn rev →
        pre_validate_transaction rules { txn with r := r, s := s } rev chain_id base_fee_per_gas
          = pre_validate_transaction rules txn rev chain_id base_fee_per_gas)) := by
  constructor
  · intro hchain htype hbase hprio hfrom
    rw [pre_validate_transaction_eq_first_failure]
    unfold listed_checks
    rw [first_failure_skip _ _ _ (check_chain_id_passes txn rev chain_id hchain),
      first_failure_skip _ _ _ (check_type_passes txn rev htype),
      first_failure_skip _ _ _ (check_base_fee_passes txn base_fee_per_gas hbase),
      first_failure_skip _ _ _ (by simpa using hprio),
      first_failure_head_iff _ _ _ (by decide) (by simp), hfrom]
    simp
  · intro hfrom
    obtain ⟨sender, hs⟩ := Option.isSome_iff_exists.mp hfrom
    constructor
    · intro other hother
      rw [pre_validate_transaction_eq_first_failure, pre_validate_transaction_eq_first_failure]
      unfold listed_checks
      simp only [hs, hother, Option.isNone_some, Bool.false_and]
    · intro r s hgas
      rw [pre_validate_transaction_eq_first_failure, pre_validate_transaction_eq_first_failure]
      unfold listed_checks
      simp only [hgas]
      simp only [hs, Option.isNone_some, Bool.false_and]

theorem pre_validate_transaction_signature_rule_witness :
    (∀ txn_chain_id, high_s_transaction.chain_id = some txn_chain_id →
      EVMC_SPURIOUS_DRAGON ≤ EVMC_LONDON ∧ txn_chain_id = 1) ∧
    high_s_transaction.max_priority_fee_per_gas ≤ high_s_transaction.max_fee_per_gas ∧
    high_s_transaction.from_ = none ∧
    (pre_validate_transaction sample_rules high_s_transaction EVMC_LONDON 1 (some 10)
        = ValidationResult.kInvalidSignature ↔
      sample_rules.is_valid_signature high_s_transaction.r high_s_transaction.s
        (decide (EVMC_LONDON ≥ EVMC_HOMESTEAD)) = false) :=
  ⟨fun _ hc => ⟨by decide, (Option.some.inj hc).symm⟩, by decide, rfl,
    (pre_validate_transaction_signature_rule sample_rules high_s_transaction EVMC_LONDON 1
      (some 10)).1
      (fun _ hc => ⟨by decide, (Option.some.inj hc).symm⟩) (Or.inl rfl)
      (fun _ hb => by rw [← Option.some.inj hb]; decide) (by decide) rfl⟩

/-! ## C18: the init-code limit -/

/-- C18. For a transaction that passes all the earlier checks, `pre_validate_transaction`
returns `kMaxInitCodeSizeExceeded` if and only if `rev >= Shanghai`, `to` is absent and the
data is longer than 49152 bytes; a contract creation with exactly 49152 bytes of data is
accepted, and before Shanghai, or with a `to` address, no data length is rejected. -/
theorem pre_validate_transaction_init_code_limit (rules : TransactionRules) (txn : Transaction)
    (rev chain_id : Nat) (base_fee_per_gas : Option Nat) :
    ((∀ txn_chain_id, txn.chain_id = some txn_chain_id →
          EVMC_SPURIOUS_DRAGON ≤ rev ∧ txn_chain_id = chain_id) →
      (txn.type = kLegacy ∨ (txn.type = kEip2930 ∧ EVMC_BERLIN ≤ rev) ∨
          (txn.type = kEip1559 ∧ EVMC_LONDON ≤ rev)) →
      (∀ base_fee, base_fee_per_gas = some base_fee → base_fee ≤ txn.max_fee_per_gas) →
      txn.max_priority_fee_per_gas ≤ txn.max_fee_per_gas →
      (txn.from_ = none →
        rules.is_valid_signature txn.r txn.s (decide (rev ≥ EVMC_HOMESTEAD)) = true) →
      rules.intrinsic_gas txn rev ≤ txn.gas_limit →
      txn.nonce < 2 ^ 64 - 1 →
      ((pre_validate_transaction rules txn rev chain_id base_fee_per_gas
            = ValidationResult.kMaxInitCodeSizeExceeded ↔
          rev ≥ EVMC_SHANGHAI ∧ txn.to_ = none ∧ txn.data.length > 49152) ∧
        (txn.to_ = none → txn.data.length = 49152 →
          pre_validate_transaction rules txn rev chain_id base_fee_per_gas
            = ValidationResult.kOk) ∧
        (rev < EVMC_SHANGHAI ∨ txn.to_.isSome = true →
          pre_validate_transaction rules txn rev chain_id base_fee_per_gas
            = ValidationResult.kOk))) ∧
    (rev < EVMC_SHANGHAI ∨ txn.to_.isSome = true →
      pre_validate_transaction rules txn rev chain_id base_fee_per_gas
        ≠ ValidationResult.kMaxInitCodeSizeExceeded) := by
  constructor
  · intro hchain htype hbase hprio hsig hgas hnonce
    have hrw : pre_validate_transaction rules txn rev chain_id base_fee_per_gas
        = first_failure [(decide (EVMC_SHANGHAI ≤ rev) && txn.to_.isNone &&
            !decide (txn.data.length ≤ 49152), ValidationResult.kMaxInitCodeSizeExceeded)] := by
      rw [pre_validate_transaction_eq_first_failure]
      unfold listed_checks
      rw [first_failure_skip _ _ _ (check_chain_id_passes txn rev chain_id hchain),
        first_failure_skip _ _ _ (check_type_passes txn rev htype),
        first_failure_skip _ _ _ (check_base_fee_passes txn base_fee_per_gas hbase),
        first_failure_skip _ _ _ (by simpa using hprio),
        first_failure_skip _ _ _ (check_signature_passes rules txn rev hsig),
        first_failure_skip _ _ _ (by simpa using hgas),
        first_failure_skip _ _ _ (by simpa using hnonce)]
    rw [hrw]
    refine ⟨?_, ?_, ?_⟩
    · rw [first_failure_head_iff _ _ _ (by decide) (by simp)]
      simp [and_assoc]
    · intro hto hlen
      rw [first_failure_skip _ _ _ (by simp [hlen])]
      rfl
    · intro h
      rw [first_failure_skip _ _ _ (by
        rcases h with h | h
        · have h2 : ¬ EVMC_SHANGHAI ≤ rev := by omega
          simp [h2]
        · obtain ⟨a, ha⟩ := Option.isSome_iff_exists.mp h
          simp [ha])]
      rfl
  · intro h hbad
    rw [pre_validate_transaction_eq_first_failure] at hbad
    rcases first_failure_hit _ _ (by decide) hbad with ⟨check, hmem, hfailed, herror⟩
    unfold listed_checks at hmem
    simp only [List.mem_cons, List.mem_singleton, List.not_mem_nil, or_false] at hmem
    rcases hmem with rfl | rfl | rfl | rfl | rfl | rfl | rfl | rfl
    all_goals first
      | (exfalso; revert herror; simp; done)
      | skip
    simp only [Bool.and_eq_true, decide_eq_true_eq, Bool.not_eq_true', decide_eq_false_iff_not,
      Option.isNone_iff_eq_none] at hfailed
    rcases h with h | h
    · omega
    · rw [hfailed.1.2] at h
      cases h

theorem pre_validate_transaction_init_code_limit_witness :
    (∀ txn_chain_id, sample_creation.chain_id = some txn_chain_id →
      EVMC_SPURIOUS_DRAGON ≤ EVMC_SHANGHAI ∧ txn_chain_id = 1) ∧
    sample_creation.max_priority_fee_per_gas ≤ sample_creation.max_fee_per_gas ∧
    sample_rules.intrinsic_gas sample_creation EVMC_SHANGHAI ≤ sample_creation.gas_limit ∧
    sample_creation.nonce < 2 ^ 64 - 1 ∧
    (pre_validate_transaction sample_rules sample_creation EVMC_SHANGHAI 1 (some 10)
        = ValidationResult.kMaxInitCodeSizeExceeded ↔
      EVMC_SHANGHAI ≥ EVMC_SHANGHAI ∧ sample_creation.to_ = none ∧
        sample_creation.data.length > 49152) :=
  ⟨fun _ hc => ⟨by decide, (Option.some.inj hc).symm⟩, by decide, by decide, by decide,
    ((pre_validate_transaction_init_code_limit sample_rules sample_creation EVMC_SHANGHAI 1
      (some 10)).1
      (fun _ hc => ⟨by decide, (Option.some.inj hc).symm⟩) (Or.inl rfl)
      (fun _ hb => by rw [← Option.some.inj hb]; decide) (by decide) (fun _ => by decide)
      (by decide) (by decide)).1⟩

/-! ## The sequence of a map -/

theorem store_big_u64_length (value : Nat) : (store_big_u64 value).length = 8 := rfl

theorem load_store_big_u64 (value : Nat) (h : value < kTwo64) :
    load_big_u64 (store_big_u64 value) = value := by
  unfold kTwo64 at h
  simp only [load_big_u64, store_big_u64, List.take, List.foldl]
  norm_num
  omega

theorem load_big_u64_lt (bytes : List Nat) (h : bytes.length = 8) :
    load_big_u64 bytes < kTwo64 := by
  match bytes, h with
  | [a, b, c, d, e, f, g, i], _ =>
    unfold kTwo64
    simp only [load_big_u64, List.take, List.foldl]
    omega

theorem read_map_sequence_lt (txn : RWTxn) (map_name : String) (old : Nat)
    (h : read_map_sequence txn map_name = .ok old) : old < kTwo64 := by
  unfold read_map_sequence at h
  cases hs : txn.db.sequence map_name with
  | none =>
    rw [hs] at h
    cases h
    unfold kTwo64
    omega
  | some value =>
    rw [hs] at h
    simp only at h
    split at h
    · cases h
    · rename_i hlen
      cases h
      exact load_big_u64_lt value (by simpa using hlen)

theorem read_map_sequence_upsert (txn : RWTxn) (map_name : String) (value : Nat)
    (h : value < kTwo64) :
    read_map_sequence (upsert_sequence txn map_name (store_big_u64 value)) map_name
      = .ok value := by
  simp [read_map_sequence, upsert_sequence, store_big_u64_length, load_store_big_u64 value h]

theorem increment_map_sequence_ok (txn : RWTxn) (map_name : String) (increment old : Nat)
    (h : read_map_sequence txn map_name = .ok old) :
    ∃ txn1, increment_map_sequence txn map_name increment = .ok (old, txn1) ∧
      read_map_sequence txn1 map_name = .ok ((old + increment) % kTwo64) ∧
      (∀ other, other ≠ map_name → txn1.db.sequence other = txn.db.sequence other) ∧
      (increment = 0 → txn1 = txn) := by
  have hlt := read_map_sequence_lt txn map_name old h
  unfold increment_map_sequence
  rw [h]
  by_cases hi : increment = 0
  · refine ⟨txn, by simp [hi], ?_, fun _ _ => rfl, fun _ => rfl⟩
    rw [hi, Nat.add_zero, Nat.mod_eq_of_lt hlt]
    exact h
  · refine ⟨upsert_sequence txn map_name (store_big_u64 ((old + increment) % kTwo64)),
      by simp [hi], ?_, ?_, fun h0 => absurd h0 hi⟩
    · exact read_map_sequence_upsert _ _ _ (Nat.mod_lt _ (by unfold kTwo64; omega))
    · intro other hne
      simp [upsert_sequence, hne]

/-! ## C19: increment_map_sequence -/

/-- C19. `increment_map_sequence(map, n)` returns the value that `read_map_sequence(map)`
returned before the call (`0` when the key is unset) and fails as that read fails;
`read_map_sequence(map)` afterwards returns `old + n`, the `uint64_t` sum of the code, which is
the exact sum when `old + n < 2^64`; the sequence of every other map name is unchanged; and
for `n = 0` the store is not written at all. -/
theorem increment_map_sequence_spec (txn : RWTxn) (map_name : String) (increment : Nat) :
    (∀ fault, read_map_sequence txn map_name = .error fault →
      increment_map_sequence txn map_name increment = .error fault) ∧
    (txn.db.sequence map_name = none → read_map_sequence txn map_name = .ok 0) ∧
    (∀ old, read_map_sequence txn map_name = .ok old →
      ∃ txn1, increment_map_sequence txn map_name increment = .ok (old, txn1) ∧
        read_map_sequence txn1 map_name = .ok ((old + increment) % kTwo64) ∧
        (old + increment < kTwo64 → read_map_sequence txn1 map_name = .ok (old + increment)) ∧
        (∀ other, other ≠ map_name →
          txn1.db.sequence other = txn.db.sequence other ∧
          read_map_sequence txn1 other = read_map_sequence txn other) ∧
        (increment = 0 → txn1 = txn)) := by
  refine ⟨?_, ?_, ?_⟩
  · intro fault h
    unfold increment_map_sequence
    rw [h]
  · intro h
    unfold read_map_sequence
    rw [h]
  · intro old h
    obtain ⟨txn1, h1, h2, h3, h4⟩ := increment_map_sequence_ok txn map_name increment old h
    refine ⟨txn1, h1, h2, ?_, ?_, h4⟩
    · intro hlt
      rw [h2, Nat.mod_eq_of_lt hlt]
    · intro other hne
      refine ⟨h3 other hne, ?_⟩
      unfold read_map_sequence
      rw [h3 other hne]

theorem increment_map_sequence_spec_witness :
    read_map_sequence (sequence_txn (store_big_u64 41)) "Log" = .ok 41 ∧
    ∃ txn1, increment_map_sequence (sequence_txn (store_big_u64 41)) "Log" 3 = .ok (41, txn1) ∧
      read_map_sequence txn1 "Log" = .ok ((41 + 3) % kTwo64) ∧
      (41 + 3 < kTwo64 → read_map_sequence txn1 "Log" = .ok (41 + 3)) ∧
      (∀ other, other ≠ "Log" →
        txn1.db.sequence other = (sequence_txn (store_big_u64 41)).db.sequence other ∧
        read_map_sequence txn1 other
          = read_map_sequence (sequence_txn (store_big_u64 41)) other) ∧
      (3 = 0 → txn1 = sequence_txn (store_big_u64 41)) :=
  ⟨rfl, (increment_map_sequence_spec (sequence_txn (store_big_u64 41)) "Log" 3).2.2 41 rfl⟩

/-! ## C20: the sequence counter across an increment -/

/-- C20, counterexample. From the sequence value `2^64 - 1`, `increment_map_sequence(map, 1)`
leaves the value `0`, which is not greater than the value before. -/
theorem sequence_strictly_monotonic_counterexample :
    read_map_sequence (sequence_txn (store_big_u64 (2 ^ 64 - 1))) "Log" = .ok (2 ^ 64 - 1) ∧
    0 < 1 ∧
    ∃ txn1,
      increment_map_sequence (sequence_txn (store_big_u64 (2 ^ 64 - 1))) "Log" 1
        = .ok (2 ^ 64 - 1, txn1) ∧
      read_map_sequence txn1 "Log" = .ok 0 ∧ ¬ (2 ^ 64 - 1 < 0) := by
  refine ⟨rfl, by decide, _, rfl, rfl, by decide⟩

/-- C20, amended. For an increment `n > 0` with `old + n < 2^64`, `read_map_sequence(map)`
after `increment_map_sequence(map, n)` is strictly greater than `read_map_sequence(map)`
before it. -/
theorem sequence_strictly_monotonic (txn : RWTxn) (map_name : String) (increment old : Nat)
    (hold : read_map_sequence txn map_name = .ok old)
    (hpos : 0 < increment) (hfit : old + increment < kTwo64) :
    ∃ txn1 new, increment_map_sequence txn map_name increment = .ok (old, txn1) ∧
      read_map_sequence txn1 map_name = .ok new ∧ old < new := by
  obtain ⟨txn1, h1, h2, _, _⟩ := increment_map_sequence_ok txn map_name increment old hold
  refine ⟨txn1, old + increment, h1, ?_, by omega⟩
  rw [h2, Nat.mod_eq_of_lt hfit]

theorem sequence_strictly_monotonic_witness :
    read_map_sequence (sequence_txn (store_big_u64 41)) "Log" = .ok 41 ∧ 0 < 3 ∧
      41 + 3 < kTwo64 ∧
    ∃ txn1 new, increment_map_sequence (sequence_txn (store_big_u64 41)) "Log" 3 = .ok (41, txn1) ∧
      read_map_sequence txn1 "Log" = .ok new ∧ 41 < new :=
  ⟨rfl, by decide, by decide,
    sequence_strictly_monotonic (sequence_txn (store_big_u64 41)) "Log" 3 41
      rfl (by decide) (by decide)⟩

/-! ## The bytes of the schema version -/

theorem store_big_u32_length (value : Nat) : (store_big_u32 value).length = 4 := rfl

theorem load_store_big_u32 (value : Nat) (h : value < 2 ^ 32) (rest : List Nat) :
    load_big_u32 (store_big_u32 value ++ rest) = value := by
  simp only [load_big_u32, store_big_u32, List.cons_append, List.nil_append, List.take,
    List.foldl]
  norm_num
  omega

theorem read_schema_version_stored (txn : RWTxn) (v : VersionBase)
    (hmajor : v.Major < 2 ^ 32) (hminor : v.Minor < 2 ^ 32) (hpatch : v.Patch < 2 ^ 32)
    (hstored : txn.db.database_info kDbSchemaVersionKey
      = some (store_big_u32 v.Major ++ store_big_u32 v.Minor ++ store_big_u32 v.Patch)) :
    read_schema_version txn = .ok (some v) := by
  unfold read_schema_version
  rw [hstored]
  have hlen : (store_big_u32 v.Major ++ store_big_u32 v.Minor ++ store_big_u32 v.Patch).length
      = 12 := rfl
  simp only [hlen, ne_eq, not_true_eq_false, if_false]
  have h1 : load_big_u32 (store_big_u32 v.Major ++ store_big_u32 v.Minor ++ store_big_u32 v.Patch)
      = v.Major := by
    rw [List.append_assoc]
    exact load_store_big_u32 _ hmajor _
  have h2 : load_big_u32
      ((store_big_u32 v.Major ++ store_big_u32 v.Minor ++ store_big_u32 v.Patch).drop 4)
      = v.Minor := by
    have : (store_big_u32 v.Major ++ store_big_u32 v.Minor ++ store_big_u32 v.Patch).drop 4
        = store_big_u32 v.Minor ++ store_big_u32 v.Patch := rfl
    rw [this]
    exact load_store_big_u32 _ hminor _
  have h3 : load_big_u32
      ((store_big_u32 v.Major ++ store_big_u32 v.Minor ++ store_big_u32 v.Patch).drop 8)
      = v.Patch := by
    have : (store_big_u32 v.Major ++ store_big_u32 v.Minor ++ store_big_u32 v.Patch).drop 8
        = store_big_u32 v.Patch ++ [] := rfl
    rw [this]
    exact load_store_big_u32 _ hpatch _
  rw [h1, h2, h3]

theorem store_load_big_u32 (a b c d : Nat) (rest : List Nat)
    (ha : a < 256) (hb : b < 256) (hc : c < 256) (hd : d < 256) :
    store_big_u32 (load_big_u32 (a :: b :: c :: d :: rest)) = [a, b, c, d] := by
  simp only [load_big_u32, store_big_u32, List.take, List.foldl]
  norm_num
  refine ⟨?_, ?_, ?_, ?_⟩ <;> omega

theorem stored_schema_version_bytes (value : List Nat) (hlen : value.length = 12)
    (hbytes : ∀ byte ∈ value, byte < 256) :
    store_big_u32 (load_big_u32 value) ++ store_big_u32 (load_big_u32 (value.drop 4)) ++
      store_big_u32 (load_big_u32 (value.drop 8)) = value := by
  match value, hlen with
  | [a, b, c, d, e, f, g, h, i, j, k, l], _ =>
    have hb : ∀ x ∈ [a, b, c, d, e, f, g, h, i, j, k, l], x < 256 := hbytes
    simp only [List.mem_cons, List.mem_singleton, List.not_mem_nil, or_false,
      forall_eq_or_imp, forall_eq] at hb
    obtain ⟨h1, h2, h3, h4, h5, h6, h7, h8, h9, h10, h11, h12⟩ := hb
    simp only [List.drop]
    rw [store_load_big_u32 a b c d _ h1 h2 h3 h4, store_load_big_u32 e f g h _ h5 h6 h7 h8,
      store_load_big_u32 i j k l _ h9 h10 h11 h12]
    rfl

theorem version_lt_iff (a b : VersionBase) :
    a.lt b = true ↔
      a.Major < b.Major ∨ (a.Major = b.Major ∧
        (a.Minor < b.Minor ∨ (a.Minor = b.Minor ∧ a.Patch < b.Patch))) := by
  simp [VersionBase.lt]

/-! ## Writing bodies and transactions -/

theorem keyed_from_length (transactions : List Transaction) :
    ∀ (base_id : Nat), (keyed_from base_id transactions).length = transactions.length := by
  induction transactions with
  | nil => intro _; rfl
  | cons t rest ih => intro base_id; simp [keyed_from, ih]

/-- C23. For a version `v` of three `uint32_t` and a store whose schema version record, if
any, is a record of 12 bytes: `write_schema_version(v)` throws if and only if a schema version
`w` is stored and `v < w` in the lexicographic order on `(Major, Minor, Patch)`, and then the
store is unchanged; otherwise it returns, `read_schema_version` afterwards returns `v`, and the
record is `big_u32(Major) ‖ big_u32(Minor) ‖ big_u32(Patch)`. -/
theorem write_schema_version_refuses_downgrade (txn : RWTxn) (v : VersionBase)
    (hmajor : v.Major < 2 ^ 32) (hminor : v.Minor < 2 ^ 32) (hpatch : v.Patch < 2 ^ 32)
    (hrecord : ∀ value, txn.db.database_info kDbSchemaVersionKey = some value →
      value.length = 12 ∧ ∀ byte ∈ value, byte < 256) :
    ∃ old, read_schema_version txn = .ok old ∧
      ((write_schema_version txn v).1 = .error .runtime_error ↔
        ∃ w, old = some w ∧
          (v.Major < w.Major ∨ (v.Major = w.Major ∧
            (v.Minor < w.Minor ∨ (v.Minor = w.Minor ∧ v.Patch < w.Patch))))) ∧
      ((write_schema_version txn v).1 = .error .runtime_error →
        (write_schema_version txn v).2 = txn) ∧
      ((write_schema_version txn v).1 ≠ .error .runtime_error →
        (write_schema_version txn v).1 = .ok () ∧
        read_schema_version (write_schema_version txn v).2 = .ok (some v) ∧
        (write_schema_version txn v).2.db.database_info kDbSchemaVersionKey
          = some (store_big_u32 v.Major ++ store_big_u32 v.Minor ++ store_big_u32 v.Patch)) := by
  have hwritten : ∀ t : RWTxn,
      t.db.database_info kDbSchemaVersionKey
        = some (store_big_u32 v.Major ++ store_big_u32 v.Minor ++ store_big_u32 v.Patch) →
      read_schema_version t = .ok (some v) :=
    fun t ht => read_schema_version_stored t v hmajor hminor hpatch ht
  cases hdb : txn.db.database_info kDbSchemaVersionKey with
  | none =>
    have hread : read_schema_version txn = .ok none := by
      simp [read_schema_version, hdb]
    refine ⟨none, hread, ?_, ?_, ?_⟩
    · simp [write_schema_version, hread]
    · simp [write_schema_version, hread]
    · intro _
      refine ⟨by simp [write_schema_version, hread], ?_, ?_⟩
      · apply hwritten
        simp [write_schema_version, hread]
      · simp [write_schema_version, hread]
  | some value =>
    obtain ⟨hlen, hbytes⟩ := hrecord value hdb
    have hread : read_schema_version txn
        = .ok (some { Major := load_big_u32 value, Minor := load_big_u32 (value.drop 4),
                      Patch := load_big_u32 (value.drop 8) }) := by
      simp [read_schema_version, hdb, hlen]
    obtain ⟨w, hw⟩ : ∃ w : VersionBase, w = VersionBase.mk (load_big_u32 value)
        (load_big_u32 (value.drop 4)) (load_big_u32 (value.drop 8)) := ⟨_, rfl⟩
    rw [← hw] at hread
    have hstored : store_big_u32 w.Major ++ store_big_u32 w.Minor ++ store_big_u32 w.Patch
        = value := by
      rw [hw]
      exact stored_schema_version_bytes value hlen hbytes
    refine ⟨some w, hread, ?_⟩
    by_cases heq : v = w
    · subst heq
      have hnlt : ¬ (v.Major < v.Major ∨ (v.Major = v.Major ∧
          (v.Minor < v.Minor ∨ (v.Minor = v.Minor ∧ v.Patch < v.Patch)))) := by omega
      have hrun : write_schema_version txn v = (.ok (), txn) := by
        simp [write_schema_version, hread]
      rw [hrun]
      refine ⟨?_, ?_, ?_⟩
      · constructor
        · intro h; cases h
        · rintro ⟨w, hw1, hw2⟩
          cases hw1
          exact absurd hw2 hnlt
      · intro h; cases h
      · intro _
        exact ⟨rfl, hread, by rw [hdb, hstored]⟩
    · have hne : (some w : Option VersionBase) ≠ some v := fun h => heq (Option.some.inj h).symm
      by_cases hlt : v.lt w = true
      · have hrun : write_schema_version txn v = (.error .runtime_error, txn) := by
          simp [write_schema_version, hread, hne, hlt]
        rw [hrun]
        refine ⟨?_, ?_, ?_⟩
        · constructor
          · intro _
            exact ⟨w, rfl, (version_lt_iff v w).mp hlt⟩
          · intro _; rfl
        · intro _; rfl
        · intro h; exact absurd rfl h
      · have hrun : write_schema_version txn v = (.ok (), { txn with db := { txn.db with
            database_info := fun key =>
              if key = kDbSchemaVersionKey then
                some (store_big_u32 v.Major ++ store_big_u32 v.Minor ++ store_big_u32 v.Patch)
              else txn.db.database_info key } }) := by
          simp [write_schema_version, hread, hne, hlt]
        rw [hrun]
        refine ⟨?_, ?_, ?_⟩
        · constructor
          · intro h; cases h
          · rintro ⟨w1, hw1, hw2⟩
            cases hw1
            exact absurd ((version_lt_iff v w).mpr hw2) hlt
        · intro h; cases h
        · intro _
          refine ⟨rfl, ?_, ?_⟩
          · apply hwritten
            simp
          · simp

theorem write_schema_version_refuses_downgrade_witness :
    (write_schema_version (versioned_txn [0, 0, 0, 1, 0, 0, 0, 2, 0, 0, 0, 3])
        { Major := 1, Minor := 1, Patch := 9 }).1 = .error .runtime_error ∧
    ∃ old, read_schema_version (versioned_txn [0, 0, 0, 1, 0, 0, 0, 2, 0, 0, 0, 3]) = .ok old ∧
      ((write_schema_version (versioned_txn [0, 0, 0, 1, 0, 0, 0, 2, 0, 0, 0, 3])
          { Major := 1, Minor := 1, Patch := 9 }).1 = .error .runtime_error ↔
        ∃ w, old = some w ∧
          ((1 : Nat) < w.Major ∨ ((1 : Nat) = w.Major ∧
            ((1 : Nat) < w.Minor ∨ ((1 : Nat) = w.Minor ∧ (9 : Nat) < w.Patch))))) :=
  ⟨rfl,
    (write_schema_version_refuses_downgrade
      (versioned_txn [0, 0, 0, 1, 0, 0, 0, 2, 0, 0, 0, 3]) { Major := 1, Minor := 1, Patch := 9 }
      (by decide) (by decide) (by decide)
      (by
        intro value hvalue
        have hv : [0, 0, 0, 1, 0, 0, 0, 2, 0, 0, 0, 3] = value := Option.some.inj hvalue
        rw [← hv]
        exact ⟨rfl, by decide⟩)).imp (fun _ h => ⟨h.1, h.2.1⟩)⟩

/-! ## C24: read_block on a missing header -/

theorem read_block_ignores_header (recover_sender : Transaction → Transaction) (txn : RWTxn)
    (hash number : Nat) (block : Block) (body : BlockBodyForStorage)
    (transactions : List Transaction)
    (hheader : read_header txn number hash = none)
    (hbody : txn.db.bodies number hash = some body)
    (htxs : read_transactions txn body.base_txn_id body.txn_count = .ok transactions) :
    read_block recover_sender txn hash number block
      = .ok (true, { transactions := transactions, ommers := body.ommers,
                     header := block.header }) := by
  unfold read_header at hheader
  simp [read_block, read_header_into, read_body, hheader, hbody, htxs]

/-- C24. At a store that holds the body of the block `(7, 1007)` but no header under that
key, `read_block` with the hash as `evmc::bytes32` returns `true` and leaves the header of
the out parameter as it was, while the overload taking the hash as a span returns
`false`. -/
theorem read_block_missing_header :
    read_header body_only_txn 7 1007 = none ∧
    read_block id body_only_txn 1007 7 blank_block
      = .ok (true, { blank_block with
          transactions := [sample_transaction, high_s_transaction] }) ∧
    read_block_span id body_only_txn 1007 7 false blank_block = .ok (false, blank_block) :=
  ⟨rfl, rfl, rfl⟩

/-! ## C25: update_chain_config -/

/-- C25. When no canonical hash is stored at height `0`, `update_chain_config` leaves the whole
store, the `Config` table included, unchanged; when a canonical hash `g` is stored at height
`0`, the entry of `Config` under `g` becomes the dump of the configuration, and nothing else
in the store changes. -/
theorem update_chain_config_frame (to_json_dump : ChainConfig → String) (txn : RWTxn)
    (config : ChainConfig) :
    (read_canonical_header_hash txn 0 = none →
      update_chain_config to_json_dump txn config = txn) ∧
    (∀ g, read_canonical_header_hash txn 0 = some g →
      (update_chain_config to_json_dump txn config).db.config g
        = some (to_json_dump config) ∧
      (∀ key, key ≠ g →
        (update_chain_config to_json_dump txn config).db.config key = txn.db.config key) ∧
      update_chain_config to_json_dump txn config
        = { txn with db := { txn.db with
            config := (update_chain_config to_json_dump txn config).db.config } }) := by
  constructor
  · intro h
    simp [update_chain_config, h]
  · intro g h
    refine ⟨?_, ?_, ?_⟩
    · simp [update_chain_config, h]
    · intro key hk
      simp [update_chain_config, h, hk]
    · simp [update_chain_config, h]

theorem update_chain_config_frame_witness :
    read_canonical_header_hash (versioned_txn []) 0 = none ∧
    update_chain_config sample_json_dump (versioned_txn []) sample_chain_config
      = versioned_txn [] ∧
    read_canonical_header_hash genesis_chain.tx 0 = some 100 ∧
    (update_chain_config sample_json_dump genesis_chain.tx sample_chain_config).db.config 100
      = some "mainnet" :=
  ⟨rfl,
    (update_chain_config_frame sample_json_dump (versioned_txn []) sample_chain_config).1 rfl,
    rfl,
    ((update_chain_config_frame sample_json_dump genesis_chain.tx sample_chain_config).2
      100 rfl).1⟩

/-! ## C26: the storage trie of a destroyed account -/

/-- C26. In forward mode over the block `4`, whose change set records the account at
`sample_address` with incarnation `1` while `PlainState` holds no account for it,
`collect_account_changes` returns and leaves `TrieOfStorage` as it was: the key that starts
with the hashed address followed by the incarnation `1` is still there. -/
theorem collect_account_changes_keeps_destroyed_storage :
    ∃ ret hashed_addresses txn1,
      collect_account_changes sample_collector_env false destroyed_account_txn 3 4 []
        = .ok (ret, hashed_addresses, txn1) ∧
      txn1.db.trie_of_storage = destroyed_account_txn.db.trie_of_storage ∧
      ∃ entry ∈ txn1.db.trie_of_storage,
        (sample_collector_env.keccak256 sample_address ++ store_big_u64 1).isPrefixOf entry.1
          = true :=
  ⟨_, _, _, rfl, rfl, _, List.mem_singleton.mpr rfl, rfl⟩

/-! ## C27: a fork choice for a head that was rejected -/

theorem notify_fork_choice_update_same_head {P : Type} (ops : Pipeline P) (fuel : Nat)
    (e : ExecutionEngine P) (head_block_hash : Nat)
    (hhead : e.canonical_chain.current_head.hash = head_block_hash) :
    notify_fork_choice_update ops fuel e head_block_hash = .ok (true, accept_fork_choice e) := by
  simp [notify_fork_choice_update, hhead]

/-- C27. After `verify_chain(101)` has returned `InvalidChain` (and likewise
`ValidationError`), `notify_fork_choice_update(101)` returns `true` and makes `(1, 101)` the
last fork choice. -/
theorem notify_fork_choice_update_after_rejected_head :
    (∃ invalid_chain e1,
      verify_chain failing_pipeline 10 genesis_engine 101
        = .ok (.InvalidChain invalid_chain, e1) ∧
      e1.current_status = .InvalidChain invalid_chain ∧
      ∃ e2, notify_fork_choice_update failing_pipeline 10 e1 101 = .ok (true, e2) ∧
        e2.get_last_fork_choice = ⟨1, 101⟩) ∧
    (∃ height e1,
      verify_chain erroring_pipeline 10 genesis_engine 101
        = .ok (.ValidationError height, e1) ∧
      ∃ e2, notify_fork_choice_update erroring_pipeline 10 e1 101 = .ok (true, e2) ∧
        e2.get_last_fork_choice = ⟨1, 101⟩) :=
  ⟨⟨_, _, rfl, rfl, _, rfl, rfl⟩, ⟨_, _, rfl, _, rfl, rfl⟩⟩

/-! ## C28: the block range of collect_storage_changes -/

theorem collect_storage_changes_unwind_empty (env : CollectorEnv) (is_stopping : Bool)
    (txn : RWTxn) (from_block to_block : Nat) (hashed_addresses : List (List Nat × List Nat))
    (hunwind : to_block < from_block) (h64 : from_block + 1 < kTwo64) :
    collect_storage_changes env is_stopping txn from_block to_block hashed_addresses
      = .ok ([], hashed_addresses) := by
  unfold collect_storage_changes
  simp only [Nat.mod_eq_of_lt h64]
  cases hrest : txn.db.storage_change_set.dropWhile
      (fun entry => decide (entry.block_number < from_block + 1)) with
  | nil => rfl
  | cons entry rest =>
    have hhead := List.head_dropWhile_not
      (fun entry : StorageChange => decide (entry.block_number < from_block + 1))
      txn.db.storage_change_set
    have hge : ¬ entry.block_number < from_block + 1 := by
      have := hhead (by rw [hrest]; simp)
      simpa [hrest] using this
    have hgt : entry.block_number > to_block := by omega
    simp [collect_storage_changes_loop, hgt]

/-- C28. On a store whose change sets record the blocks `4` and `5`, the unwind collection
from `5` to `3` visits two entries of `AccountChangeSet` and no entry of `StorageChangeSet`:
the returned storage prefix set is empty; the forward collection from `3` to `5` visits
both. -/
theorem collect_storage_changes_unwind_visits_nothing :
    collect_storage_changes sample_collector_env false changed_storage_txn 5 3 [] = .ok ([], []) ∧
    (∃ ret hashed_addresses txn1,
      collect_account_changes sample_collector_env false changed_storage_txn 5 3 []
        = .ok (ret, hashed_addresses, txn1) ∧ ret.length = 2) ∧
    (∃ ret hashed_addresses,
      collect_storage_changes sample_collector_env false changed_storage_txn 3 5 []
        = .ok (ret, hashed_addresses) ∧ ret.length = 2) :=
  ⟨rfl, ⟨_, _, _, rfl, rfl⟩, ⟨_, _, rfl, rfl⟩⟩

/-! ## C29: the state root of an absent header -/

theorem interhashes_forward_absent_header (o : TrieOracle) (s : InterHashes) (txn : RWTxn)
    (header_hash : Nat) (hrun : s.is_stopping = false)
    (hprogress : read_stage_progress txn StageKey.kIntermediateHashesKey
      < read_stage_progress txn StageKey.kHashStateKey)
    (hhash : read_canonical_header_hash txn (read_stage_progress txn StageKey.kHashStateKey)
      = some header_hash)
    (hheader : read_header txn (read_stage_progress txn StageKey.kHashStateKey) header_hash
      = none) :
    InterHashes.forward o s txn = .error .bad_optional := by
  have h1 : read_stage_progress txn StageKey.kIntermediateHashesKey
      ≠ read_stage_progress txn StageKey.kHashStateKey := by omega
  have h2 : ¬ read_stage_progress txn StageKey.kHashStateKey
      < read_stage_progress txn StageKey.kIntermediateHashesKey := by omega
  simp [InterHashes.forward, hrun, h1, h2, hhash, hheader]

theorem interhashes_unwind_absent_header (o : TrieOracle) (s : InterHashes) (txn : RWTxn)
    (to_block header_hash : Nat) (hrun : s.is_stopping = false)
    (hpoint : s.sync_context.unwind_point = some to_block)
    (hprogress : to_block < read_stage_progress txn StageKey.kIntermediateHashesKey)
    (hhash : read_canonical_header_hash txn to_block = some header_hash)
    (hheader : read_header txn to_block header_hash = none) :
    InterHashes.unwind o s txn = .error .bad_optional := by
  have h1 : ¬ to_block ≥ read_stage_progress txn StageKey.kIntermediateHashesKey := by omega
  simp [InterHashes.unwind, hrun, hpoint, h1, hhash, hheader]

/-- C29. With a canonical hash at the target height and no header stored under it, `forward`
and `unwind` do not return an error result: both reach the access `header->state_root` on an
empty optional. -/
theorem interhashes_absent_header :
    read_canonical_header_hash (headerless_txn 3 4) 4 = some 104 ∧
    read_header (headerless_txn 3 4) 4 104 = none ∧
    InterHashes.forward sample_oracle idle_stage (headerless_txn 3 4) = .error .bad_optional ∧
    read_canonical_header_hash (headerless_txn 5 5) 4 = some 104 ∧
    read_header (headerless_txn 5 5) 4 104 = none ∧
    InterHashes.unwind sample_oracle unwinding_stage (headerless_txn 5 5)
      = .error .bad_optional :=
  ⟨rfl, rfl, rfl, rfl, rfl, rfl⟩

/-! ## C30: update_up_to terminates above the genesis -/

theorem update_up_to_loop_needs_fuel :
    ∀ (fuel d : Nat) (tx : RWTxn) (cache : LruCache) (j : Nat) (a : Nat),
      fuel ≤ d → d ≤ j → j < kTwo64 →
      (∀ k, k < d → ∃ ak hdr, nth_ancestor tx j a k = some ak ∧
          read_header tx (j - k) ak = some hdr ∧ read_canonical_hash tx (j - k) ≠ some ak) →
      update_up_to_loop fuel tx cache j a = .error .out_of_fuel := by
  intro fuel
  induction fuel with
  | zero =>
    intro d tx cache j a _ _ _ _
    rfl
  | succ n ih =>
    intro d tx cache j a hfuel hdj hj hwalk
    obtain ⟨d1, rfl⟩ : ∃ d1, d = d1 + 1 := ⟨d - 1, by omega⟩
    obtain ⟨a0, hdr0, ha0, hhdr0, hne0⟩ := hwalk 0 (by omega)
    simp only [nth_ancestor, Option.some.injEq] at ha0
    subst ha0
    simp only [Nat.sub_zero] at hhdr0 hne0
    have hdec : dec64 j = j - 1 := dec64_of_pos (by omega) hj
    have hsame := same_except_canonical_write tx j a
    have hrec := ih d1 (write_canonical_hash tx j a) (cache.put j a) (j - 1) hdr0.parent_hash
      (by omega) (by omega) (by omega)
      (by
        intro k hk
        obtain ⟨ak, hdrk, hak, hhdrk, hnek⟩ := hwalk (k + 1) (by omega)
        refine ⟨ak, hdrk, ?_, ?_, ?_⟩
        · rw [nth_ancestor_of_same hsame]
          simpa [nth_ancestor, hhdr0] using hak
        · rw [show j - 1 - k = j - (k + 1) by omega]
          simpa using hhdrk
        · rw [show j - 1 - k = j - (k + 1) by omega]
          have : j - (k + 1) ≠ j := by omega
          simpa [this] using hnek)
    simp only [update_up_to_loop]
    simp only [ne_eq, hne0, not_false_eq_true, if_true, read_header_write, hhdr0, hdec]
    exact hrec

/-- C30. For `height > 0`, when the header `(height, hash)` and all its ancestors above the
genesis are stored and its ancestor at height `0` is the canonical hash at `0`: the loop of
`update_up_to` stops at a height `f` with `0 ≤ f ≤ height` after exactly `height - f`
iterations (it runs out of fuel with `height - f` tests and returns with any more), hence
after at most `height`; it never fails its invariant, and it leaves the canonical hashes at
the heights `≤ f` and above `height` untouched, so that it never steps below `0`. -/
theorem update_up_to_terminates (cc : CanonicalChain) (height hash : Nat)
    (hpos : 0 < height) (h64 : height < kTwo64)
    (hanc : ∀ h, 0 < h → h ≤ height →
      ∃ a hdr, ancestor_at cc.tx height hash h = some a ∧ read_header cc.tx h a = some hdr)
    (hgenesis : ∃ g, ancestor_at cc.tx height hash 0 = some g ∧
      read_canonical_hash cc.tx 0 = some g) :
    ∃ f, f ≤ height ∧
      update_up_to_loop (height - f) cc.tx cc.canonical_cache height hash
        = .error .out_of_fuel ∧
      (∀ fuel, height - f < fuel →
        ∃ cc1, update_up_to fuel cc height hash = .ok cc1 ∧
          ∀ h, h ≤ f ∨ height < h →
            read_canonical_hash cc1.tx h = read_canonical_hash cc.tx h) ∧
      ∃ cc1, update_up_to (height + 1) cc height hash = .ok cc1 := by
  let P : Nat → Prop := fun h => read_canonical_hash cc.tx h = ancestor_at cc.tx height hash h
  have hP0 : P 0 := by
    obtain ⟨g, h1, h2⟩ := hgenesis
    show read_canonical_hash cc.tx 0 = ancestor_at cc.tx height hash 0
    rw [h1, h2]
  have hFle : Nat.findGreatest P height ≤ height := Nat.findGreatest_le height
  have hPF : P (Nat.findGreatest P height) := Nat.findGreatest_spec (Nat.zero_le _) hP0
  have hmax : ∀ h, Nat.findGreatest P height < h → h ≤ height → ¬ P h :=
    fun h h1 h2 => Nat.findGreatest_is_greatest h1 h2
  generalize Nat.findGreatest P height = F at hFle hPF hmax
  have hwalk : ∀ k, k < height - F → ∃ ak hdr, nth_ancestor cc.tx height hash k = some ak ∧
      read_header cc.tx (height - k) ak = some hdr ∧
      read_canonical_hash cc.tx (height - k) ≠ some ak := by
    intro k hk
    obtain ⟨a, hdr, ha, hh⟩ := hanc (height - k) (by omega) (by omega)
    have hk2 : height - (height - k) = k := by omega
    refine ⟨a, hdr, ?_, hh, ?_⟩
    · simpa [ancestor_at, hk2] using ha
    · intro hc
      apply hmax (height - k) (by omega) (by omega)
      show read_canonical_hash cc.tx (height - k) = ancestor_at cc.tx height hash (height - k)
      rw [hc, ha]
  have hstop : ∃ ad, nth_ancestor cc.tx height hash (height - F) = some ad ∧
      read_canonical_hash cc.tx (height - (height - F)) = some ad := by
    have h2 : height - (height - F) = F := by omega
    by_cases hF0 : F = 0
    · obtain ⟨g, h1, h3⟩ := hgenesis
      refine ⟨g, ?_, ?_⟩
      · rw [← h1, hF0]; rfl
      · rw [h2, hF0]; exact h3
    · obtain ⟨a, hdr, ha, _⟩ := hanc F (by omega) hFle
      refine ⟨a, ?_, ?_⟩
      · rw [← ha]; rfl
      · rw [h2]
        show read_canonical_hash cc.tx F = some a
        rw [← ha]; exact hPF
  have hreturns : ∀ fuel, height - F < fuel →
      ∃ cc1, update_up_to fuel cc height hash = .ok cc1 ∧
        ∀ h, h ≤ F ∨ height < h →
          read_canonical_hash cc1.tx h = read_canonical_hash cc.tx h := by
    intro fuel hfuel
    obtain ⟨tx1, cache1, hrun, _, hcan⟩ :=
      update_up_to_loop_spec (height - F) fuel cc.tx cc.canonical_cache height hash hfuel
        (by omega) h64 hwalk hstop
    refine ⟨{ cc with tx := tx1, canonical_cache := cache1, current_head := ⟨height, hash⟩ },
      ?_, ?_⟩
    · have h0 : height ≠ 0 := by omega
      simp only [update_up_to, h0, if_false, hrun]
    · intro h hh
      show read_canonical_hash tx1 h = _
      rw [hcan h]
      have : ¬ (height - (height - F) < h ∧ h ≤ height) := by omega
      rw [if_neg this]
  refine ⟨F, hFle, ?_, hreturns, ?_⟩
  · exact update_up_to_loop_needs_fuel (height - F) (height - F) cc.tx cc.canonical_cache height
      hash (Nat.le_refl _) (by omega) h64 hwalk
  · obtain ⟨cc1, h1, _⟩ := hreturns (height + 1) (by omega)
    exact ⟨cc1, h1⟩

theorem update_up_to_terminates_witness :
    ∃ f, f ≤ 3 ∧
      update_up_to_loop (3 - f) genesis_chain.tx genesis_chain.canonical_cache 3 103
        = .error .out_of_fuel ∧
      (∀ fuel, 3 - f < fuel →
        ∃ cc1, update_up_to fuel genesis_chain 3 103 = .ok cc1 ∧
          ∀ h, h ≤ f ∨ 3 < h →
            read_canonical_hash cc1.tx h = read_canonical_hash genesis_chain.tx h) ∧
      ∃ cc1, update_up_to (3 + 1) genesis_chain 3 103 = .ok cc1 :=
  update_up_to_terminates genesis_chain 3 103 (by decide) (by decide)
    (by
      intro h h1 h2
      interval_cases h
      · exact ⟨101, _, rfl, rfl⟩
      · exact ⟨102, _, rfl, rfl⟩
      · exact ⟨103, _, rfl, rfl⟩)
    ⟨100, rfl, rfl⟩

end Silkworm
